import Mathlib

/-!
# project-a-server: room simulation core (`main.go`)

A shallow embedding of the room simulation of `main.go` (path generation, wave
spawning, the body of the wave loop, attack handling, the HTTP summon and delete
actions, the registry of rooms maintained by `wsHandler`) together with the
properties of the specification that concern them.

## Conventions

* Go `int` is a 64-bit two's-complement integer.  Integer fields are `Int`;
  every arithmetic operation that can leave the 64-bit range on in-range
  operands is wrapped with `wrapInt`.
* Go `float64` values are the finite binary64 numbers, embedded in `ℚ`.  An
  arithmetic operation on floats is the exact rational operation followed by
  `f64`, rounding to nearest with ties to even (53-bit significand, gradual
  underflow).  Infinities and NaN are not represented: the simulation only ever
  subtracts small constants from values that start at 60 or 300 and adds 0.005
  to values clamped at 1.
* A Go `map[int]*Monster` is an association list; lookup and assignment act on
  the first entry with the key, and assignment to a new key appends, so a lane
  built by assignments has unique keys.  Iteration visits the list in order (Go
  leaves the order unspecified).
* Random draws are explicit arguments.
* `notifyAll` appends the message to the list of broadcasts an operation
  returns.
* An index out of range (a Go panic) is `none`.
* Rooms are referred to by pointer: the registry and the connections hold the
  address of a room in a heap of room objects.
-/

set_option linter.unusedVariables false

namespace ProjectA

/-! ## 64-bit integers -/

/-- Two's-complement wrap-around of a Go `int` (64 bits). -/
def wrapInt (x : Int) : Int := (x + 2 ^ 63) % 2 ^ 64 - 2 ^ 63

/-- The values a Go `int` can hold. -/
def InIntRange (x : Int) : Prop := -2 ^ 63 ≤ x ∧ x < 2 ^ 63

instance (x : Int) : Decidable (InIntRange x) := by unfold InIntRange; infer_instance

/-! ## binary64 arithmetic -/

/-- The power of two `2 ^ k` as a rational. -/
def pow2 (k : Int) : ℚ :=
  if 0 ≤ k then ((2 ^ k.toNat : Nat) : ℚ) else 1 / ((2 ^ (-k).toNat : Nat) : ℚ)

/-- Binary logarithm of a natural number by repeated halving (`fuel` bounds the
number of halvings; `n` itself always suffices). -/
def log2Fuel : Nat → Nat → Nat
  | 0, _ => 0
  | fuel + 1, n => if n < 2 then 0 else log2Fuel fuel (n / 2) + 1

/-- The binary exponent of a nonzero rational: `⌊log₂ |q|⌋`. -/
def ilog2 (q : ℚ) : Int :=
  let e0 : Int := (log2Fuel q.num.natAbs q.num.natAbs : Int) - (log2Fuel q.den q.den : Int)
  if |q| < pow2 e0 then e0 - 1 else e0

/-- Round to the nearest integer, ties to the even one. -/
def roundEven (x : ℚ) : Int :=
  if x - ⌊x⌋ < 1 / 2 then ⌊x⌋
  else if 1 / 2 < x - ⌊x⌋ then ⌊x⌋ + 1
  else if ⌊x⌋ % 2 = 0 then ⌊x⌋ else ⌊x⌋ + 1

/-- Exponent of the unit in the last place of the binade of `q`
(53-bit significand, minimum normal exponent `-1022`). -/
def ulpExp (q : ℚ) : Int := max (ilog2 q) (-1022) - 52

/-- Rounding of an exact result to binary64, round-to-nearest-even. -/
def f64 (q : ℚ) : ℚ := (roundEven (q / pow2 (ulpExp q)) : ℚ) * pow2 (ulpExp q)

/-- The rational `q` is a binary64 value. -/
def IsF64 (q : ℚ) : Prop := f64 q = q

instance (q : ℚ) : Decidable (IsF64 q) := by unfold IsF64; infer_instance

/-- Go `math.Round`: nearest integer, halves away from zero. -/
def mathRound (x : ℚ) : ℚ := if 0 ≤ x then (⌊x + 1 / 2⌋ : ℚ) else (⌈x - 1 / 2⌉ : ℚ)

/-! ## Data model -/

/-- A grid coordinate (`type Pos struct{ X, Y int }`). -/
structure Pos where
  X : Int
  Y : Int
deriving DecidableEq, Repr

/-- A connected participant.  The connection handle `Conn` and the mutex are
not represented. -/
structure Player where
  ID : String
  TimeLeft : ℚ
deriving DecidableEq

/-- A cell of a player board. -/
structure UnitInfo where
  UnitID : Int
  Level : Int
deriving DecidableEq, Repr

/-- A monster.  The Go field `Type` is spelled `Kind` here. -/
structure Monster where
  ID : Int
  Kind : String
  SubType : String
  HP : Int
  MaxHP : Int
  Path : List Pos
  Progress : ℚ
  Escaped : Bool
deriving DecidableEq

/-- A lane: the Go `map[int]*Monster`, as an association list. -/
abbrev Lane := List (Int × Monster)

/-- Map lookup `m, ok = lane[k]`. -/
def Lane.lookup : Lane → Int → Option Monster
  | [], _ => none
  | (k1, m) :: rest, k => if k1 = k then some m else Lane.lookup rest k

/-- Map assignment `lane[k] = m`; also the effect of writing through the
pointer stored under `k`. -/
def Lane.insert : Lane → Int → Monster → Lane
  | [], k, m => [(k, m)]
  | (k1, m1) :: rest, k, m =>
    if k1 = k then (k, m) :: rest else (k1, m1) :: Lane.insert rest k m

/-- A room. -/
structure Room where
  ID : String
  A : Option Player
  B : Option Player
  Wave : Int
  MonstersA : Lane
  MonstersB : Lane
  started : Bool
  pathCorners : Fin 4 → Pos
deriving DecidableEq

/-- A 6x6 board as decoded from its JSON form: `[][]UnitInfo`. -/
abbrev Board := List (List UnitInfo)

/-- An entry of a `monster_positions` message. -/
inductive PosUpdate where
  /-- Fields `id`, `hp`, `escaped`. -/
  | terminal (id hp : Int) (escaped : Bool)
  /-- Fields `id`, `hp`, `x`, `y`, `progress`. -/
  | live (id hp x y : Int) (progress : ℚ)
deriving DecidableEq

/-- An entry of the roster of a `wave_start` message. -/
structure RosterEntry where
  id : Int
  kind : String
  subtype : String
  hp : Int
deriving DecidableEq

/-- The messages handed to `notifyAll`. -/
inductive Msg where
  | wave_info (wave : Int)
  | countdown (count : Int)
  | wave_start (wave : Int) (monsters : List RosterEntry)
  | timer (a b : ℚ)
  | monster_positions (positions : List PosUpdate)
  | monster_dead (monsterId dopamin : Int)
  | game_over
  | board_update (playerId : String) (board : Board)
  | summon_success (playerId : String) (board : Board)
  | delete (playerId : String) (board : Board)
deriving DecidableEq

/-- The corners every room is created with. -/
def roomCorners : Fin 4 → Pos := ![⟨0, 0⟩, ⟨0, 5⟩, ⟨5, 5⟩, ⟨5, 0⟩]

/-- Constructor `NewRoom`. -/
def NewRoom (id : String) (a b : Option Player) : Room :=
  { ID := id, A := a, B := b, Wave := 1, MonstersA := [], MonstersB := [],
    started := false, pathCorners := roomCorners }

/-! ## Path generation -/

/-- One coordinate of a waypoint: `start + (end-start)*s/steps` with `steps = 6`,
in 64-bit arithmetic; Go's `/` truncates toward zero. -/
def interpolate (start stop s : Int) : Int :=
  wrapInt (start + Int.tdiv (wrapInt (wrapInt (stop - start) * s)) 6)

/-- The inner loop of `generatePath`: the six waypoints of one edge. -/
def edgePoints (start stop : Pos) : List Pos :=
  (List.range 6).map fun (s : Nat) =>
    { X := interpolate start.X stop.X (s : Int), Y := interpolate start.Y stop.Y (s : Int) }

/-- Floor interpolation between the endpoints of an edge, as the specification
words it: `start + ⌊(stop - start) * s / 6⌋`. -/
def floorInterpolate (start stop s : Int) : Int :=
  start + Int.fdiv ((stop - start) * s) 6

/-- Function `generatePath`. -/
def generatePath (corners : Fin 4 → Pos) : List Pos :=
  (List.finRange 4).flatMap fun i => edgePoints (corners i) (corners (i + 1))

/-! ## Wave spawning -/

/-- The random draws of one iteration of the spawn loop: `rand.Int()` and the
outcome of `rand.Float32() < 0.3`, for lane A and then for lane B. -/
structure SpawnDraw where
  idA : Int
  foodA : Bool
  idB : Int
  foodB : Bool

/-- The monster literal `&Monster{...}` of `spawnWaveMonsters`. -/
def newMonster (id : Int) (food : Bool) (path : List Pos) : Monster :=
  { ID := id, Kind := "monster", SubType := if food then "FOOD" else "BOOK",
    HP := 100, MaxHP := 100, Path := path, Progress := 0, Escaped := false }

/-- The number of monsters per lane: `10 + (r.Wave-1)*3` in 64-bit arithmetic. -/
def waveCount (wave : Int) : Int := wrapInt (10 + wrapInt (wrapInt (wave - 1) * 3))

/-- The spawn loop `for i := 0; i < count; i++`, started from two empty lanes. -/
def spawnLoop (path : List Pos) (rng : Nat → SpawnDraw) : Nat → Lane × Lane
  | 0 => ([], [])
  | i + 1 =>
    let lanes := spawnLoop path rng i
    let d := rng i
    (lanes.1.insert d.idA (newMonster d.idA d.foodA path),
     lanes.2.insert d.idB (newMonster d.idB d.foodB path))

/-- The roster built for the `wave_start` message. -/
def roster (l : Lane) : List RosterEntry :=
  l.map fun e => { id := e.2.ID, kind := e.2.Kind, subtype := e.2.SubType, hp := e.2.HP }

/-- Method `Room.spawnWaveMonsters`; `rng i` holds the draws of iteration `i`. -/
def spawnWaveMonsters (r : Room) (rng : Nat → SpawnDraw) : Room × List Msg :=
  let lanes := spawnLoop (generatePath r.pathCorners) rng (waveCount r.Wave).toNat
  ({ r with MonstersA := lanes.1, MonstersB := lanes.2 },
   [Msg.wave_start r.Wave (roster lanes.1 ++ roster lanes.2)])

/-! ## The wave loop -/

/-- The pattern `p.TimeLeft -= d; if p.TimeLeft < 0 { p.TimeLeft = 0 }`. -/
def Player.spend (p : Player) (d : ℚ) : Player :=
  { p with TimeLeft := if f64 (p.TimeLeft - d) < 0 then 0 else f64 (p.TimeLeft - d) }

/-- The simulated duration of a tick, `dt := 0.05`. -/
def dt : ℚ := f64 (1 / 20)

/-- The lines `m.Progress += 0.005; if m.Progress > 1.0 { m.Progress = 1.0 }`. -/
def advance (p : ℚ) : ℚ :=
  if 1 < f64 (p + f64 (1 / 200)) then 1 else f64 (p + f64 (1 / 200))

/-- The guard `m.Escaped || m.HP <= 0` of the tick and of `handleAttack`. -/
def Monster.inert (m : Monster) : Bool := m.Escaped || decide (m.HP ≤ 0)

/-- The waypoint index `int(math.Floor(m.Progress * float64(len(m.Path)-1)))`
for progress `p`. -/
def waypointIndex (p : ℚ) (len : Nat) : Int := ⌊f64 (p * f64 ((len : ℚ) - 1))⌋

/-- The value sent as `progress`: `math.Round(m.Progress*100) / 100`. -/
def shownProgress (p : ℚ) : ℚ := f64 (mathRound (f64 (p * 100)) / 100)

/-- The body of `for _, m := range r.MonstersA` (and of the lane B loop) for one
monster whose lane belongs to `owner`.  Returns the owner, the monster, the
entry appended to the position update, and whether `allDeadOrEscaped` was
cleared. -/
def stepMonster (owner : Option Player) (m : Monster) :
    Option (Option Player × Monster × PosUpdate × Bool) :=
  if m.inert then
    some (owner, m, PosUpdate.terminal m.ID m.HP m.Escaped, false)
  else
    let p := advance m.Progress
    let idx := waypointIndex p m.Path.length
    if idx < 0 then none
    else
      match m.Path.get? idx.toNat with
      | none => none
      | some pos =>
        let entry := PosUpdate.live m.ID m.HP pos.X pos.Y (shownProgress p)
        if 1 ≤ p ∧ m.Escaped = false then
          some (owner.map fun o => o.spend 1, { m with Progress := p, Escaped := true },
            entry, true)
        else
          some (owner, { m with Progress := p }, entry, true)

/-- The loop over one lane.  Returns the owner, the lane, the position update
and the final value of `allDeadOrEscaped`. -/
def tickLane : Option Player → Lane → Option (Option Player × Lane × List PosUpdate × Bool)
  | owner, [] => some (owner, [], [], true)
  | owner, (k, m) :: rest =>
    match stepMonster owner m with
    | none => none
    | some (owner1, m1, entry, cleared) =>
      match tickLane owner1 rest with
      | none => none
      | some (owner2, rest1, entries, all) =>
        some (owner2, (k, m1) :: rest1, entry :: entries, !cleared && all)

/-- The time of a player slot as read for the `timer` message and the final
test: an absent player counts as 0. -/
def timeOf : Option Player → ℚ
  | some p => p.TimeLeft
  | none => 0

/-- The value sent in `timer`: `math.Round(t*10) / 10`. -/
def shownTime (t : ℚ) : ℚ := f64 (mathRound (f64 (t * 10)) / 10)

/-- The body of the loop of `runWaveLoop` up to and including the
`monster_positions` broadcast.  Returns the room, the broadcasts and the value
of `allDeadOrEscapedA && allDeadOrEscapedB`. -/
def tick (r : Room) : Option (Room × List Msg × Bool) :=
  let a1 := r.A.map fun p => p.spend dt
  let b1 := r.B.map fun p => p.spend dt
  match tickLane a1 r.MonstersA with
  | none => none
  | some (a2, laneA, posA, allA) =>
    match tickLane b1 r.MonstersB with
    | none => none
    | some (b2, laneB, posB, allB) =>
      some ({ r with A := a2, B := b2, MonstersA := laneA, MonstersB := laneB },
        [Msg.timer (shownTime (timeOf a1)) (shownTime (timeOf b1)),
         Msg.monster_positions (posA ++ posB)],
        allA && allB)

/-- The loop condition
`(r.A != nil && r.A.TimeLeft > 0) || (r.B != nil && r.B.TimeLeft > 0)`. -/
def loopCond (r : Room) : Bool :=
  (match r.A with
   | some a => decide (0 < a.TimeLeft)
   | none => false) ||
  (match r.B with
   | some b => decide (0 < b.TimeLeft)
   | none => false)

/-- How one pass through the loop of `runWaveLoop` ends. -/
inductive Step where
  /-- The loop condition failed: `game_over` is broadcast and the loop exits. -/
  | gameOver (msgs : List Msg)
  /-- The wave is resolved: `r.Wave++`, `r.startCountdown()`, `return`. -/
  | nextWave (r : Room) (msgs : List Msg)
  /-- The body ran and the loop goes on to test its condition again. -/
  | continue (r : Room) (msgs : List Msg)
  /-- An index was out of range. -/
  | panicked
deriving DecidableEq

/-- One pass through the loop of `runWaveLoop`: the test of the loop condition
and, when it holds, the body. -/
def loopStep (r : Room) : Step :=
  if loopCond r then
    match tick r with
    | none => Step.panicked
    | some (r1, msgs, resolved) =>
      if resolved then Step.nextWave { r1 with Wave := wrapInt (r1.Wave + 1) } msgs
      else Step.continue r1 msgs
  else Step.gameOver [Msg.game_over]

/-- How `runWaveLoop` ends. -/
inductive LoopEnd where
  /-- The loop exited through its condition, after broadcasting `game_over`. -/
  | gameOver (r : Room) (msgs : List Msg)
  /-- The loop returned after `r.Wave++` and `r.startCountdown()`. -/
  | nextWave (r : Room) (msgs : List Msg)
  /-- An index was out of range. -/
  | panicked
  /-- The loop is still running after `fuel` passes. -/
  | running (r : Room) (msgs : List Msg)
deriving DecidableEq

/-- Prefix the broadcasts of earlier passes. -/
def LoopEnd.after (msgs : List Msg) : LoopEnd → LoopEnd
  | LoopEnd.gameOver r ms => LoopEnd.gameOver r (msgs ++ ms)
  | LoopEnd.nextWave r ms => LoopEnd.nextWave r (msgs ++ ms)
  | LoopEnd.panicked => LoopEnd.panicked
  | LoopEnd.running r ms => LoopEnd.running r (msgs ++ ms)

/-- Method `Room.runWaveLoop`, for at most `fuel` passes through the loop. -/
def runWaveLoop : Nat → Room → LoopEnd
  | 0, r => LoopEnd.running r []
  | fuel + 1, r =>
    match loopStep r with
    | Step.gameOver msgs => LoopEnd.gameOver r msgs
    | Step.nextWave r1 msgs => LoopEnd.nextWave r1 msgs
    | Step.continue r1 msgs => (runWaveLoop fuel r1).after msgs
    | Step.panicked => LoopEnd.panicked

/-- Method `Room.runGameLoop` up to the call of `startCountdown`. -/
def runGameLoop (r : Room) : Room :=
  { r with
    A := r.A.map fun p => { p with TimeLeft := 300 },
    B := r.B.map fun p => { p with TimeLeft := 300 },
    started := true }

/-- The broadcasts of `startCountdown` before the wave is spawned. -/
def countdownMsgs (r : Room) : List Msg :=
  [Msg.wave_info r.Wave, Msg.countdown 3, Msg.countdown 2, Msg.countdown 1]

/-! ## Attacks -/

/-- The lane `handleAttack` selects for `playerId`: `some true` for `MonstersA`,
`some false` for `MonstersB`, `none` when the id matches neither slot. -/
def attackLane (r : Room) (playerId : String) : Option Bool :=
  match r.A with
  | some a =>
    if playerId = a.ID then some true
    else
      match r.B with
      | some b => if playerId = b.ID then some false else none
      | none => none
  | none =>
    match r.B with
    | some b => if playerId = b.ID then some false else none
    | none => none

/-- The part of `handleAttack` after the lookup: the damage to the monster found
and the broadcast.  `roll` is the outcome of `rand.Intn(11)`.  The subtraction
stays in the 64-bit range because `m.HP > 0` here. -/
def hitMonster (m : Monster) (monsterId : Int) (roll : Fin 11) : Option (Monster × List Msg) :=
  if m.inert then none
  else
    let hp1 := m.HP - 10
    let hp2 := if hp1 < 0 then 0 else hp1
    some ({ m with HP := hp2 },
      if hp2 = 0 then [Msg.monster_dead monsterId (5 + (roll.val : Int))] else [])

/-- The attack on one lane: lookup, then `hitMonster`. -/
def attackIn (lane : Lane) (monsterId : Int) (roll : Fin 11) : Lane × List Msg :=
  match lane.lookup monsterId with
  | none => (lane, [])
  | some m =>
    match hitMonster m monsterId roll with
    | none => (lane, [])
    | some (m1, msgs) => (lane.insert monsterId m1, msgs)

/-- Method `Room.handleAttack`. -/
def handleAttack (r : Room) (playerId : String) (monsterId : Int) (unitId : Int)
    (roll : Fin 11) : Room × List Msg :=
  match attackLane r playerId with
  | some true =>
    let res := attackIn r.MonstersA monsterId roll
    ({ r with MonstersA := res.1 }, res.2)
  | some false =>
    let res := attackIn r.MonstersB monsterId roll
    ({ r with MonstersB := res.1 }, res.2)
  | none => (r, [])

/-- The effect on one lane of a sequence of attacks on one monster, one random
outcome per attack. -/
def attackInRepeatedly (lane : Lane) (monsterId : Int) : List (Fin 11) → Lane × List Msg
  | [] => (lane, [])
  | roll :: rolls =>
    let first := attackIn lane monsterId roll
    let others := attackInRepeatedly first.1 monsterId rolls
    (others.1, first.2 ++ others.2)

/-- A sequence of `handleAttack` calls by one player on one monster, one random
outcome per call; the broadcasts are collected in order. -/
def attackRepeatedly (r : Room) (playerId : String) (monsterId : Int) (unitId : Int) :
    List (Fin 11) → Room × List Msg
  | [] => (r, [])
  | roll :: rolls =>
    let first := handleAttack r playerId monsterId unitId roll
    let others := attackRepeatedly first.1 playerId monsterId unitId rolls
    (others.1, first.2 ++ others.2)

/-! ## Board deletion over HTTP -/

/-- The key-value store: the board decoded from the JSON stored under a key
(`none` when the key is absent or does not decode) and the integer read under a
currency key. -/
structure Store where
  board : String → Option Board
  dopamin : String → Int

/-- The key `fmt.Sprintf("game:%s:player:%s:board", r.ID, playerId)`. -/
def boardKey (roomId playerId : String) : String :=
  "game:" ++ roomId ++ ":player:" ++ playerId ++ ":board"

/-- The cell `board[y][x]`; `none` when an index is out of range. -/
def Board.cell (b : Board) (x y : Int) : Option UnitInfo :=
  if y < 0 ∨ x < 0 then none
  else
    match b.get? y.toNat with
    | none => none
    | some row => row.get? x.toNat

/-- The assignment `board[y][x] = u` for indices in range. -/
def Board.setCell (b : Board) (x y : Int) (u : UnitInfo) : Board :=
  match b.get? y.toNat with
  | none => b
  | some row => b.set y.toNat (row.set x.toNat u)

/-- The response of an HTTP action. -/
inductive Response where
  | error (text : String)
  | success (board : Board)
deriving DecidableEq

/-- The result of an HTTP action: the room, the store, the broadcasts, the
boolean result and the response. -/
structure HttpResult where
  room : Room
  store : Store
  msgs : List Msg
  ok : Bool
  resp : Response

/-- Method `Room.deleteByHTTP`; `none` when `board[y][x]` is out of range. -/
def deleteByHTTP (r : Room) (st : Store) (playerId : String) (x y : Int) : Option HttpResult :=
  let key := boardKey r.ID playerId
  let board : Board := (st.board key).getD []
  match board.cell x y with
  | none => none
  | some u =>
    if u.UnitID = 0 then
      some { room := r, store := st, msgs := [], ok := false, resp := Response.error "empty" }
    else
      let board1 := board.setCell x y { UnitID := 0, Level := 0 }
      let st1 : Store := { st with board := fun k => if k = key then some board1 else st.board k }
      let a1 := r.A.map fun a => if playerId = a.ID then a.spend 2 else a
      let b1 := r.B.map fun b => if playerId = b.ID then b.spend 2 else b
      some { room := { r with A := a1, B := b1 }, store := st1,
             msgs := [Msg.delete playerId board1], ok := true,
             resp := Response.success board1 }

/-! ## Interleavings -/

/-- The operations that touch the monsters of a started room. -/
inductive Op where
  /-- One pass of the body of the wave loop. -/
  | tick
  /-- A call of `handleAttack`. -/
  | attack (playerId : String) (monsterId unitId : Int) (roll : Fin 11)

/-- The effect of one operation on the room; `none` on an index out of range. -/
def Op.apply (r : Room) : Op → Option Room
  | Op.tick => (ProjectA.tick r).map fun out => out.1
  | Op.attack playerId monsterId unitId roll =>
    some (handleAttack r playerId monsterId unitId roll).1

/-- The effect of a sequence of operations. -/
def runOps (r : Room) : List Op → Option Room
  | [] => some r
  | op :: ops =>
    match op.apply r with
    | none => none
    | some r1 => runOps r1 ops

/-! ## Derived descriptions of the loop body -/

/-- The monster as the loop body of the tick leaves it: an inert monster is
skipped, a live one advances and is marked escaped when its progress reaches 1. -/
def Monster.stepped (m : Monster) : Monster :=
  if m.inert then m
  else { m with Progress := advance m.Progress, Escaped := decide (1 ≤ advance m.Progress) }

/-- The loop body of the tick marks the monster escaped. -/
def Monster.escapesNow (m : Monster) : Bool := !m.inert && decide (1 ≤ advance m.Progress)

/-- A monster the loop body can look up on its path: progress not negative and a
path of at least one and fewer than `2 ^ 53` waypoints. -/
def Monster.walkable (m : Monster) : Prop :=
  0 ≤ m.Progress ∧ 1 ≤ m.Path.length ∧ m.Path.length < 2 ^ 53

/-- The lane of a room: `MonstersA` for `true`, `MonstersB` for `false`. -/
def Room.lane (r : Room) (a : Bool) : Lane := if a then r.MonstersA else r.MonstersB

/-- The player charged for the escapes of a lane: slot A for `MonstersA`, slot B
for `MonstersB`. -/
def Room.owner (r : Room) (a : Bool) : Option Player := if a then r.A else r.B

/-! ## Sample states -/

/-- A monster of a wave of a room created by `NewRoom`, with the given id, hit
points, progress and escaped flag. -/
def sampleMonster (id hp : Int) (progress : ℚ) (escaped : Bool) : Monster :=
  { ID := id, Kind := "monster", SubType := "BOOK", HP := hp, MaxHP := 100,
    Path := generatePath roomCorners, Progress := progress, Escaped := escaped }

/-- A started room with two players and the given time budgets and lanes. -/
def sampleRoom (timeA timeB : ℚ) (laneA laneB : Lane) : Room :=
  { ID := "room1", A := some ⟨"alice", timeA⟩, B := some ⟨"bob", timeB⟩, Wave := 1,
    MonstersA := laneA, MonstersB := laneB, started := true, pathCorners := roomCorners }

/-- The result of the body of the wave loop on a room where it does not panic. -/
def tickResult (r : Room) : Room × List Msg × Bool := (tick r).getD (r, [], false)

/-- A started room whose two slots hold connections with the same player id. -/
def sameIdRoom : Room :=
  { ID := "room1", A := some ⟨"alice", 300⟩, B := some ⟨"alice", 300⟩, Wave := 1,
    MonstersA := [(1, sampleMonster 1 100 0 false)],
    MonstersB := [(2, sampleMonster 2 100 0 false)],
    started := true, pathCorners := roomCorners }

/-! ## Summoning over HTTP -/

/-- How the placement loop `for !placed` of `summonByHTTP` goes for a given
sequence of draws `(x, y)`. -/
inductive Search where
  /-- The cell `board[y][x]` drawn is empty: the loop places the unit and ends. -/
  | found (x y : Int)
  /-- An index was out of range. -/
  | panicked
  /-- Every draw hit an occupied cell: the loop is still running. -/
  | exhausted
deriving DecidableEq

/-- The placement loop of `summonByHTTP`: draws `x := rand.Intn(6)`,
`y := rand.Intn(6)` until `board[y][x].UnitID == 0`. -/
def findEmpty (board : Board) : List (Fin 6 × Fin 6) → Search
  | [] => Search.exhausted
  | (x, y) :: rest =>
    match board.cell (x.val : Int) (y.val : Int) with
    | none => Search.panicked
    | some u => if u.UnitID = 0 then Search.found (x.val : Int) (y.val : Int) else findEmpty board rest

/-- How a call of `summonByHTTP` ends. -/
inductive SummonEnd where
  /-- The call returned. -/
  | returned (out : HttpResult)
  /-- An index was out of range, after the currency was debited. -/
  | panicked (store : Store)
  /-- The placement loop is still running after all the draws given, after the
  currency was debited. -/
  | searching (store : Store)

/-- The key `fmt.Sprintf("dopamin:%s", playerId)`. -/
def dopKey (playerId : String) : String := "dopamin:" ++ playerId

/-- Method `Room.summonByHTTP`; `draws` are the outcomes `(x, y)` of the pairs of
`rand.Intn(6)` of the placement loop and `unit` the outcome of `rand.Intn(4)`. -/
def summonByHTTP (r : Room) (st : Store) (playerId : String)
    (draws : List (Fin 6 × Fin 6)) (unit : Fin 4) : SummonEnd :=
  if st.dopamin (dopKey playerId) < 50 then
    SummonEnd.returned
      { room := r, store := st, msgs := [], ok := false,
        resp := Response.error "not enough dopamin" }
  else
    let st1 : Store :=
      { st with dopamin := fun k =>
          if k = dopKey playerId then st.dopamin k - 50 else st.dopamin k }
    let key := boardKey r.ID playerId
    let board : Board := (st.board key).getD []
    match findEmpty board draws with
    | Search.panicked => SummonEnd.panicked st1
    | Search.exhausted => SummonEnd.searching st1
    | Search.found x y =>
      let board1 := board.setCell x y { UnitID := (unit.val : Int) + 1, Level := 2 }
      let st2 : Store :=
        { st1 with board := fun k => if k = key then some board1 else st1.board k }
      SummonEnd.returned
        { room := r, store := st2, msgs := [Msg.summon_success playerId board1], ok := true,
          resp := Response.success board1 }

/-! ## The registry of rooms -/

/-- The server state touched by `wsHandler`: the room objects ever created, by
address, and the registry `rooms` mapping a room id to the address of a room. -/
structure Server where
  heap : List Room
  rooms : String → Option Nat

/-- What the deferred function of a `wsHandler` call captures: the address of the
room `r` it joined, `roomId` and `playerId`. -/
structure Conn where
  room : Nat
  roomId : String
  playerId : String
deriving DecidableEq

/-- The server at start-up: no room. -/
def Server.start : Server := { heap := [], rooms := fun _ => none }

/-- The slot assignment of `wsHandler` in an existing room:
`if r.A == nil { r.A = player } else { r.B = player }`. -/
def Room.seat (r : Room) (player : Player) : Room :=
  match r.A with
  | none => { r with A := some player }
  | some _ => { r with B := some player }

/-- The start of the game in `wsHandler`:
`if r.A != nil && r.B != nil && !r.started { r.runGameLoop() }`. -/
def Room.startIfReady (r : Room) : Room :=
  if r.A.isSome ∧ r.B.isSome ∧ r.started = false then runGameLoop r else r

/-- The part of `wsHandler` that runs when a connection arrives: registration of
the player in the room `roomId`, created if absent, and the start of the game.
Returns the server and what the deferred function captures. -/
def Server.join (s : Server) (roomId playerId : String) : Server × Conn :=
  let player : Player := { ID := playerId, TimeLeft := 60 }
  match s.rooms roomId with
  | none =>
    let addr := s.heap.length
    ({ heap := s.heap ++ [(NewRoom roomId (some player) none).startIfReady],
       rooms := fun k => if k = roomId then some addr else s.rooms k },
     { room := addr, roomId := roomId, playerId := playerId })
  | some addr =>
    ({ s with heap := s.heap.modify (fun r => (r.seat player).startIfReady) addr },
     { room := addr, roomId := roomId, playerId := playerId })

/-- The slots of a room after the deferred function of a connection with id
`playerId` cleared them. -/
def Room.vacate (r : Room) (playerId : String) : Room :=
  { r with
    A := match r.A with
      | some a => if a.ID = playerId then none else some a
      | none => none,
    B := match r.B with
      | some b => if b.ID = playerId then none else some b
      | none => none }

/-- The deferred function of `wsHandler`, run when the connection `c` ends: the
slots of the captured room holding `c.playerId` are cleared, and if the captured
room then has both slots empty, `delete(rooms, roomId)`. -/
def Server.leave (s : Server) (c : Conn) : Server :=
  match s.heap.get? c.room with
  | none => s
  | some r =>
    let r1 := r.vacate c.playerId
    { heap := s.heap.set c.room r1,
      rooms := if r1.A = none ∧ r1.B = none then
          fun k => if k = c.roomId then none else s.rooms k
        else s.rooms }

/-- The room registered under a room id. -/
def Server.lookup (s : Server) (roomId : String) : Option Room :=
  match s.rooms roomId with
  | none => none
  | some addr => s.heap.get? addr

/-! ## Progress after a number of ticks -/

/-- The progress of a monster spawned at 0 after `k` passes of the loop body on
it while live: `k` rounded additions of 0.005, clamped at 1. -/
def progressAfter : Nat → ℚ
  | 0 => 0
  | k + 1 => advance (progressAfter k)

/-- The number of ticks in a sequence of operations. -/
def tickCount : List Op → Nat
  | [] => 0
  | Op.tick :: ops => tickCount ops + 1
  | Op.attack _ _ _ _ :: ops => tickCount ops

/-- All live monsters of the room have the same progress. -/
def CommonProgress (r : Room) : Prop :=
  ∃ p, ∀ e ∈ r.MonstersA ++ r.MonstersB, e.2.inert = false → e.2.Progress = p

/-! ## Sample stores -/

/-- A 6x6 board with a unit in the cells `(x, y) = (0, 0)` and `(3, 2)`. -/
def sampleBoard : Board :=
  [[⟨1, 2⟩, ⟨0, 0⟩, ⟨0, 0⟩, ⟨0, 0⟩, ⟨0, 0⟩, ⟨0, 0⟩],
   [⟨0, 0⟩, ⟨0, 0⟩, ⟨0, 0⟩, ⟨0, 0⟩, ⟨0, 0⟩, ⟨0, 0⟩],
   [⟨0, 0⟩, ⟨0, 0⟩, ⟨0, 0⟩, ⟨4, 2⟩, ⟨0, 0⟩, ⟨0, 0⟩],
   [⟨0, 0⟩, ⟨0, 0⟩, ⟨0, 0⟩, ⟨0, 0⟩, ⟨0, 0⟩, ⟨0, 0⟩],
   [⟨0, 0⟩, ⟨0, 0⟩, ⟨0, 0⟩, ⟨0, 0⟩, ⟨0, 0⟩, ⟨0, 0⟩],
   [⟨0, 0⟩, ⟨0, 0⟩, ⟨0, 0⟩, ⟨0, 0⟩, ⟨0, 0⟩, ⟨0, 0⟩]]

/-- A store in which `alice` has `sampleBoard` in `room1` and the given
currency. -/
def sampleStore (balance : Int) : Store :=
  { board := fun k => if k = boardKey "room1" "alice" then some sampleBoard else none,
    dopamin := fun k => if k = dopKey "alice" then balance else 0 }

/-- The events of `wsHandler`: a connection arrives for a room id and a player
id, or the `n`-th connection that arrived (counted from 0) ends. -/
inductive Event where
  | join (roomId playerId : String)
  | leave (n : Nat)
deriving DecidableEq

/-- The server and the connections that arrived so far, after a sequence of
events. -/
def Server.run : Server × List Conn → List Event → Server × List Conn
  | sc, [] => sc
  | (s, conns), Event.join roomId playerId :: events =>
    Server.run ((s.join roomId playerId).1, conns ++ [(s.join roomId playerId).2]) events
  | (s, conns), Event.leave n :: events =>
    match conns.get? n with
    | none => Server.run (s, conns) events
    | some c => Server.run (s.leave c, conns) events

/-- Two connections with the same player id join `room1`, the first one ends, and
`bob` joins `room1`. -/
def staleSameId : List Event :=
  [Event.join "room1" "alice", Event.join "room1" "alice", Event.leave 0,
   Event.join "room1" "bob"]

/-- Three players join `room1` (the third takes slot B over from the second), the
first and the third end, and `dave` joins `room1`. -/
def staleThird : List Event :=
  [Event.join "room1" "alice", Event.join "room1" "bob", Event.join "room1" "carol",
   Event.leave 0, Event.leave 2, Event.join "room1" "dave"]

/-! ## Properties of binary64 rounding -/

theorem pow2_eq (k : Int) : pow2 k = (2 : ℚ) ^ k := by
  unfold pow2
  split
  · next h =>
    obtain ⟨n, rfl⟩ := Int.eq_ofNat_of_zero_le h
    simp
  · next h =>
    obtain ⟨n, hn⟩ : ∃ n : Nat, k = -(n : Int) := ⟨(-k).toNat, by omega⟩
    subst hn
    simp

theorem log2Fuel_spec (fuel : Nat) : ∀ n : Nat, n ≠ 0 → n ≤ fuel →
    2 ^ log2Fuel fuel n ≤ n ∧ n < 2 ^ (log2Fuel fuel n + 1) := by
  induction fuel with
  | zero => intro n h0 hle; omega
  | succ f ih =>
    intro n h0 hle
    unfold log2Fuel
    split
    · next h => constructor <;> simp <;> omega
    · next h =>
      have h2 := ih (n / 2) (by omega) (by omega)
      obtain ⟨ha, hb⟩ := h2
      constructor
      · rw [pow_succ]; omega
      · rw [pow_succ]; omega

theorem natLog_cast (n : Nat) (h0 : n ≠ 0) :
    (2 : ℚ) ^ (log2Fuel n n : Int) ≤ n ∧ (n : ℚ) < 2 ^ ((log2Fuel n n : Int) + 1) := by
  obtain ⟨ha, hb⟩ := log2Fuel_spec n n h0 le_rfl
  constructor
  · rw [zpow_natCast]; exact_mod_cast ha
  · have : ((log2Fuel n n : Int) + 1) = ((log2Fuel n n + 1 : Nat) : Int) := by push_cast; rfl
    rw [this, zpow_natCast]; exact_mod_cast hb

theorem abs_eq_div (q : ℚ) : |q| = (q.num.natAbs : ℚ) / (q.den : ℚ) := by
  conv_lhs => rw [← Rat.num_div_den q]
  rw [abs_div, Nat.cast_natAbs, Int.cast_abs]
  simp

theorem ilog2_bounds (q : ℚ) (hq : q ≠ 0) :
    (2 : ℚ) ^ ilog2 q ≤ |q| ∧ |q| < 2 ^ (ilog2 q + 1) := by
  have hn : q.num.natAbs ≠ 0 := by simpa using hq
  have hd : q.den ≠ 0 := q.den_nz
  obtain ⟨na, nb⟩ := natLog_cast _ hn
  obtain ⟨da, db⟩ := natLog_cast _ hd
  have hdpos : (0 : ℚ) < q.den := by exact_mod_cast Nat.pos_of_ne_zero hd
  set a : Int := (log2Fuel q.num.natAbs q.num.natAbs : Int)
  set b : Int := (log2Fuel q.den q.den : Int)
  have habs := abs_eq_div q
  have h2 : (0 : ℚ) < 2 := by norm_num
  -- 2 ^ (a - b - 1) ≤ |q| < 2 ^ (a - b + 1)
  have lo : (2 : ℚ) ^ (a - b - 1) ≤ |q| := by
    rw [habs, le_div_iff₀ hdpos]
    have : (2 : ℚ) ^ (a - b - 1) * 2 ^ (b + 1) = 2 ^ a := by
      rw [← zpow_add₀ (by norm_num)]; congr 1; ring
    calc (2 : ℚ) ^ (a - b - 1) * q.den ≤ 2 ^ (a - b - 1) * 2 ^ (b + 1) := by
          apply mul_le_mul_of_nonneg_left db.le (by positivity)
      _ = 2 ^ a := this
      _ ≤ _ := na
  have hi : |q| < (2 : ℚ) ^ (a - b + 1) := by
    rw [habs, div_lt_iff₀ hdpos]
    have : (2 : ℚ) ^ (a - b + 1) * 2 ^ b = 2 ^ (a + 1) := by
      rw [← zpow_add₀ (by norm_num)]; congr 1; ring
    calc (q.num.natAbs : ℚ) < 2 ^ (a + 1) := nb
      _ = 2 ^ (a - b + 1) * 2 ^ b := this.symm
      _ ≤ _ := by apply mul_le_mul_of_nonneg_left da (by positivity)
  unfold ilog2
  simp only []
  rw [pow2_eq]
  split
  · next h =>
    refine ⟨lo, ?_⟩
    simpa using h
  · next h =>
    exact ⟨not_lt.mp h, hi⟩

theorem roundEven_intCast (n : Int) : roundEven (n : ℚ) = n := by
  unfold roundEven
  simp

theorem floor_le_roundEven (x : ℚ) : ⌊x⌋ ≤ roundEven x := by
  unfold roundEven
  split_ifs <;> omega

theorem roundEven_le_floor_add_one (x : ℚ) : roundEven x ≤ ⌊x⌋ + 1 := by
  unfold roundEven
  split_ifs <;> omega

theorem roundEven_mono {x y : ℚ} (h : x ≤ y) : roundEven x ≤ roundEven y := by
  have hf : ⌊x⌋ ≤ ⌊y⌋ := Int.floor_mono h
  rcases lt_or_eq_of_le hf with hlt | heq
  · calc roundEven x ≤ ⌊x⌋ + 1 := roundEven_le_floor_add_one x
      _ ≤ ⌊y⌋ := hlt
      _ ≤ roundEven y := floor_le_roundEven y
  · have hxy : x - ⌊x⌋ ≤ y - ⌊y⌋ := by rw [heq]; linarith
    unfold roundEven
    rw [heq]
    rw [heq] at hxy
    split_ifs <;> first | omega | (exfalso; linarith)

theorem pow2_pos (k : Int) : 0 < pow2 k := by
  rw [pow2_eq]; positivity

theorem ilog2_mono {x y : ℚ} (hx : 0 < x) (h : x ≤ y) : ilog2 x ≤ ilog2 y := by
  have hy : 0 < y := lt_of_lt_of_le hx h
  obtain ⟨a, _⟩ := ilog2_bounds x hx.ne'
  obtain ⟨_, b⟩ := ilog2_bounds y hy.ne'
  rw [abs_of_pos hx] at a
  rw [abs_of_pos hy] at b
  have : (2 : ℚ) ^ ilog2 x < 2 ^ (ilog2 y + 1) := lt_of_le_of_lt (le_trans a h) b
  have := (zpow_lt_zpow_iff_right₀ (by norm_num : (1 : ℚ) < 2)).mp this
  omega

theorem f64_nonneg {q : ℚ} (h : 0 ≤ q) : 0 ≤ f64 q := by
  unfold f64
  have hp := pow2_pos (ulpExp q)
  have : (0 : Int) ≤ roundEven (q / pow2 (ulpExp q)) := by
    have := roundEven_mono (show ((0 : Int) : ℚ) ≤ q / pow2 (ulpExp q) by
      simp; positivity)
    rwa [roundEven_intCast] at this
  have : (0 : ℚ) ≤ (roundEven (q / pow2 (ulpExp q)) : ℚ) := by exact_mod_cast this
  positivity

theorem f64_nonpos {q : ℚ} (h : q ≤ 0) : f64 q ≤ 0 := by
  unfold f64
  have hp := pow2_pos (ulpExp q)
  have : roundEven (q / pow2 (ulpExp q)) ≤ (0 : Int) := by
    have := roundEven_mono (show q / pow2 (ulpExp q) ≤ ((0 : Int) : ℚ) by
      simp; exact div_nonpos_of_nonpos_of_nonneg h hp.le)
    rwa [roundEven_intCast] at this
  have : (roundEven (q / pow2 (ulpExp q)) : ℚ) ≤ 0 := by exact_mod_cast this
  exact mul_nonpos_of_nonpos_of_nonneg this hp.le


theorem ulpExp_mono {x y : ℚ} (hx : 0 < x) (h : x ≤ y) : ulpExp x ≤ ulpExp y := by
  have := ilog2_mono hx h
  unfold ulpExp
  omega

/-- For positive `q` the rounded value stays below the top of the binade. -/
theorem f64_le_top {q : ℚ} (hq : 0 < q) : f64 q ≤ 2 ^ (ulpExp q + 53) := by
  obtain ⟨_, hb⟩ := ilog2_bounds q hq.ne'
  rw [abs_of_pos hq] at hb
  have hk : ilog2 q + 1 ≤ ulpExp q + 53 := by unfold ulpExp; omega
  have hq' : q ≤ 2 ^ (ulpExp q + 53) :=
    le_trans hb.le (zpow_le_zpow_right₀ (by norm_num) hk)
  have hp := pow2_pos (ulpExp q)
  have h1 : q / pow2 (ulpExp q) ≤ (((2 : Int) ^ 53 : Int) : ℚ) := by
    rw [div_le_iff₀ hp, pow2_eq]
    rw [zpow_add₀ (by norm_num)] at hq'
    push_cast
    calc q ≤ 2 ^ ulpExp q * 2 ^ (53 : Int) := hq'
      _ = 2 ^ 53 * 2 ^ ulpExp q := by rw [mul_comm]; norm_cast
  have h2 := roundEven_mono h1
  rw [roundEven_intCast] at h2
  have h3 : (roundEven (q / pow2 (ulpExp q)) : ℚ) ≤ (2 : ℚ) ^ (53 : Int) := by
    have : ((roundEven (q / pow2 (ulpExp q)) : Int) : ℚ) ≤ (((2 : Int) ^ 53 : Int) : ℚ) := by
      exact_mod_cast h2
    calc _ ≤ (((2 : Int) ^ 53 : Int) : ℚ) := this
      _ = (2 : ℚ) ^ (53 : Int) := by norm_cast
  unfold f64
  have h4 := mul_le_mul_of_nonneg_right h3 hp.le
  rw [zpow_add₀ (by norm_num), mul_comm ((2 : ℚ) ^ ulpExp q)]
  rwa [pow2_eq] at h4 ⊢

/-- For positive normal `q` the rounded value stays above the bottom of the binade. -/
theorem f64_ge_bot {q : ℚ} (hq : 0 < q) (hn : ulpExp q + 52 = ilog2 q) :
    2 ^ (ulpExp q + 52) ≤ f64 q := by
  obtain ⟨ha, _⟩ := ilog2_bounds q hq.ne'
  rw [abs_of_pos hq, ← hn] at ha
  have hp := pow2_pos (ulpExp q)
  have h1 : (((2 : Int) ^ 52 : Int) : ℚ) ≤ q / pow2 (ulpExp q) := by
    rw [le_div_iff₀ hp, pow2_eq]
    rw [zpow_add₀ (by norm_num)] at ha
    push_cast
    calc (2 : ℚ) ^ 52 * 2 ^ ulpExp q = 2 ^ ulpExp q * 2 ^ (52 : Int) := by
          rw [mul_comm]; norm_cast
      _ ≤ q := ha
  have h2 := roundEven_mono h1
  rw [roundEven_intCast] at h2
  have h3 : (2 : ℚ) ^ (52 : Int) ≤ (roundEven (q / pow2 (ulpExp q)) : ℚ) := by
    have : (((2 : Int) ^ 52 : Int) : ℚ) ≤ ((roundEven (q / pow2 (ulpExp q)) : Int) : ℚ) := by
      exact_mod_cast h2
    calc (2 : ℚ) ^ (52 : Int) = (((2 : Int) ^ 52 : Int) : ℚ) := by norm_cast
      _ ≤ _ := this
  unfold f64
  have h4 := mul_le_mul_of_nonneg_right h3 hp.le
  rw [zpow_add₀ (by norm_num), mul_comm ((2 : ℚ) ^ ulpExp q)]
  rwa [pow2_eq] at h4 ⊢

theorem f64_mono_pos {x y : ℚ} (hx : 0 < x) (h : x ≤ y) : f64 x ≤ f64 y := by
  have hy : 0 < y := lt_of_lt_of_le hx h
  rcases lt_or_eq_of_le (ulpExp_mono hx h) with hlt | heq
  · have hn : ulpExp y + 52 = ilog2 y := by
      have : -1074 ≤ ulpExp x := by unfold ulpExp; omega
      unfold ulpExp at hlt ⊢
      omega
    calc f64 x ≤ 2 ^ (ulpExp x + 53) := f64_le_top hx
      _ ≤ 2 ^ (ulpExp y + 52) := zpow_le_zpow_right₀ (by norm_num) (by omega)
      _ ≤ f64 y := f64_ge_bot hy hn
  · unfold f64
    rw [heq]
    have hp := pow2_pos (ulpExp y)
    apply mul_le_mul_of_nonneg_right _ hp.le
    have : roundEven (x / pow2 (ulpExp y)) ≤ roundEven (y / pow2 (ulpExp y)) :=
      roundEven_mono (div_le_div_of_nonneg_right h hp.le)
    exact_mod_cast this

/-- Rounding is monotone below any non-negative value. -/
theorem f64_mono {x y : ℚ} (hy : 0 ≤ y) (h : x ≤ y) : f64 x ≤ f64 y := by
  rcases le_or_lt x 0 with hx | hx
  · exact le_trans (f64_nonpos hx) (f64_nonneg hy)
  · exact f64_mono_pos hx h

theorem f64_zero : f64 0 = 0 := by
  unfold f64
  simp [roundEven]

/-- A significand of fewer than 54 bits with an exponent in range is not rounded. -/
theorem f64_repr (m k : Int) (hm : |m| < 2 ^ 53) (hk : -1074 ≤ k) :
    f64 ((m : ℚ) * 2 ^ k) = (m : ℚ) * 2 ^ k := by
  rcases eq_or_ne m 0 with rfl | hm0
  · simpa using f64_zero
  have h2k : (0 : ℚ) < 2 ^ k := by positivity
  have hq0 : (m : ℚ) * 2 ^ k ≠ 0 := mul_ne_zero (by exact_mod_cast hm0) h2k.ne'
  obtain ⟨ha, _⟩ := ilog2_bounds _ hq0
  have habs : |(m : ℚ) * 2 ^ k| < 2 ^ (53 + k) := by
    rw [abs_mul, abs_of_pos h2k, zpow_add₀ (by norm_num)]
    apply mul_lt_mul_of_pos_right _ h2k
    have : ((|m| : Int) : ℚ) < (((2 : Int) ^ 53 : Int) : ℚ) := by exact_mod_cast hm
    calc |(m : ℚ)| = ((|m| : Int) : ℚ) := by push_cast; rfl
      _ < (((2 : Int) ^ 53 : Int) : ℚ) := this
      _ = (2 : ℚ) ^ (53 : Int) := by norm_cast
  have hlt := (zpow_lt_zpow_iff_right₀ (by norm_num : (1 : ℚ) < 2)).mp (lt_of_le_of_lt ha habs)
  have hu : ulpExp ((m : ℚ) * 2 ^ k) ≤ k := by unfold ulpExp; omega
  obtain ⟨j, hj⟩ : ∃ j : Nat, k = ulpExp ((m : ℚ) * 2 ^ k) + j :=
    ⟨(k - ulpExp ((m : ℚ) * 2 ^ k)).toNat, by omega⟩
  unfold f64
  rw [pow2_eq]
  generalize ulpExp ((m : ℚ) * 2 ^ k) = u at hj ⊢
  have hupos : (0 : ℚ) < 2 ^ u := by positivity
  have hdiv : (m : ℚ) * 2 ^ k / 2 ^ u = ((m * 2 ^ j : Int) : ℚ) := by
    rw [hj, zpow_add₀ (by norm_num), zpow_natCast]
    push_cast
    field_simp
    ring
  rw [hdiv, roundEven_intCast, hj, zpow_add₀ (by norm_num), zpow_natCast]
  push_cast
  ring

theorem isF64_intCast (n : Int) (h : |n| < 2 ^ 53) : IsF64 (n : ℚ) := by
  have := f64_repr n 0 h (by norm_num)
  simpa [IsF64] using this

theorem isF64_zero : IsF64 0 := f64_zero

theorem isF64_one : IsF64 1 := by simpa using isF64_intCast 1 (by norm_num)

/-- Subtracting one from a binary64 value in `[1, 2^53)` is exact. -/
theorem f64_sub_one {t : ℚ} (ht : IsF64 t) (h1 : 1 ≤ t) (h2 : t < 2 ^ 53) :
    f64 (t - 1) = t - 1 := by
  have hpos : 0 < t := by linarith
  obtain ⟨ha, hb⟩ := ilog2_bounds t hpos.ne'
  rw [abs_of_pos hpos] at ha hb
  have he0 : 0 ≤ ilog2 t := by
    have : (2 : ℚ) ^ (0 : Int) < 2 ^ (ilog2 t + 1) := by
      rw [zpow_zero]; exact lt_of_le_of_lt h1 hb
    have := (zpow_lt_zpow_iff_right₀ (by norm_num : (1 : ℚ) < 2)).mp this
    omega
  have he1 : ilog2 t ≤ 52 := by
    have : (2 : ℚ) ^ ilog2 t < 2 ^ (53 : Int) := by
      refine lt_of_le_of_lt ha ?_
      calc t < 2 ^ 53 := h2
        _ = (2 : ℚ) ^ (53 : Int) := by norm_cast
    have := (zpow_lt_zpow_iff_right₀ (by norm_num : (1 : ℚ) < 2)).mp this
    omega
  have hu : ulpExp t = ilog2 t - 52 := by unfold ulpExp; omega
  obtain ⟨j, hj⟩ : ∃ j : Nat, ulpExp t = -(j : Int) := ⟨(52 - ilog2 t).toNat, by omega⟩
  have hj52 : j ≤ 52 := by omega
  have hupos : (0 : ℚ) < 2 ^ ulpExp t := by positivity
  -- the significand of `t`
  set M : Int := roundEven (t / pow2 (ulpExp t)) with hM
  have htM : t = (M : ℚ) * 2 ^ ulpExp t := by
    have := ht
    unfold IsF64 f64 at this
    rw [← hM, pow2_eq] at this
    exact this.symm
  have hone : (1 : ℚ) = ((2 ^ j : Int) : ℚ) * 2 ^ ulpExp t := by
    rw [hj, zpow_neg, zpow_natCast]
    push_cast
    field_simp
  have hMle : M ≤ 2 ^ 53 := by
    have h3 := f64_le_top hpos
    rw [ht, zpow_add₀ (by norm_num)] at h3
    nth_rewrite 1 [htM] at h3
    rw [mul_comm ((2 : ℚ) ^ ulpExp t)] at h3
    have h4 : (M : ℚ) ≤ 2 ^ (53 : Int) := le_of_mul_le_mul_right h3 hupos
    have h5 : (M : ℚ) ≤ (((2 : Int) ^ 53 : Int) : ℚ) := by
      calc (M : ℚ) ≤ 2 ^ (53 : Int) := h4
        _ = (((2 : Int) ^ 53 : Int) : ℚ) := by norm_cast
    exact_mod_cast h5
  have hMge : 2 ^ j ≤ M := by
    have h3 : ((2 ^ j : Int) : ℚ) * 2 ^ ulpExp t ≤ (M : ℚ) * 2 ^ ulpExp t := by
      rw [← htM, ← hone]; exact h1
    have h4 := le_of_mul_le_mul_right h3 hupos
    exact_mod_cast h4
  have hjpos : (0 : Int) < 2 ^ j := by positivity
  have hsub : t - 1 = ((M - 2 ^ j : Int) : ℚ) * 2 ^ ulpExp t := by
    nth_rewrite 1 [htM]
    nth_rewrite 1 [hone]
    push_cast
    ring
  rw [hsub]
  apply f64_repr
  · rw [abs_of_nonneg (by omega)]
    omega
  · omega


theorem ulpExp_ge (q : ℚ) : -1074 ≤ ulpExp q := by unfold ulpExp; omega

/-- The significand chosen by `f64` has at most 54 bits. -/
theorem significand_abs_le (q : ℚ) : |roundEven (q / pow2 (ulpExp q))| ≤ 2 ^ 53 := by
  rcases eq_or_ne q 0 with rfl | hq
  · simp [roundEven]
  obtain ⟨_, hb⟩ := ilog2_bounds q hq
  have hk : ilog2 q + 1 ≤ ulpExp q + 53 := by unfold ulpExp; omega
  have hq1 : |q| ≤ 2 ^ (ulpExp q + 53) :=
    le_trans hb.le (zpow_le_zpow_right₀ (by norm_num) hk)
  have hp := pow2_pos (ulpExp q)
  have habs : |q / pow2 (ulpExp q)| ≤ (((2 : Int) ^ 53 : Int) : ℚ) := by
    rw [abs_div, abs_of_pos hp, div_le_iff₀ hp, pow2_eq]
    rw [zpow_add₀ (by norm_num)] at hq1
    push_cast
    calc |q| ≤ 2 ^ ulpExp q * 2 ^ (53 : Int) := hq1
      _ = 2 ^ 53 * 2 ^ ulpExp q := by rw [mul_comm]; norm_cast
  obtain ⟨hlo, hhi⟩ := abs_le.mp habs
  have h1 := roundEven_mono hhi
  have h2 := roundEven_mono hlo
  rw [roundEven_intCast] at h1
  rw [← Int.cast_neg, roundEven_intCast] at h2
  exact abs_le.mpr ⟨h2, h1⟩

/-- Every result of `f64` is a binary64 value. -/
theorem isF64_f64 (q : ℚ) : IsF64 (f64 q) := by
  have hM := significand_abs_le q
  have hu := ulpExp_ge q
  unfold IsF64
  have hdef : f64 q = (roundEven (q / pow2 (ulpExp q)) : ℚ) * 2 ^ ulpExp q := by
    unfold f64; rw [pow2_eq]
  rw [hdef]
  generalize roundEven (q / pow2 (ulpExp q)) = M at hM
  generalize ulpExp q = u at hu
  rcases lt_or_eq_of_le hM with hlt | heq
  · exact f64_repr M u hlt hu
  · have hcase : M = 2 ^ 53 ∨ M = -2 ^ 53 := by
      rcases abs_cases M with ⟨h1, _⟩ | ⟨h1, _⟩ <;> omega
    have h2 : (2 : ℚ) ^ (u + 1) = 2 ^ u * 2 := by
      rw [zpow_add₀ (by norm_num), zpow_one]
    rcases hcase with rfl | rfl
    · have h3 : (((2 : Int) ^ 53 : Int) : ℚ) * 2 ^ u = (((2 : Int) ^ 52 : Int) : ℚ) * 2 ^ (u + 1) := by
        rw [h2]; push_cast; ring
      rw [h3]
      exact f64_repr (2 ^ 52) (u + 1) (by norm_num) (by omega)
    · have h3 : (((-2 ^ 53 : Int)) : ℚ) * 2 ^ u = (((-2 ^ 52 : Int)) : ℚ) * 2 ^ (u + 1) := by
        rw [h2]; push_cast; ring
      rw [h3]
      exact f64_repr (-2 ^ 52) (u + 1) (by norm_num) (by omega)


/-! ## Path generation -/

theorem wrapInt_of_inRange {x : Int} (h : InIntRange x) : wrapInt x = x := by
  unfold InIntRange at h
  unfold wrapInt
  omega

theorem tdiv_six (x : Int) : Int.tdiv x 6 = if 0 ≤ x then x / 6 else -((-x) / 6) := by
  split
  · next h => exact Int.tdiv_eq_ediv h (by norm_num)
  · next h =>
    have h1 : Int.tdiv (-x) 6 = (-x) / 6 := Int.tdiv_eq_ediv (by omega) (by norm_num)
    rw [Int.neg_tdiv] at h1
    omega

theorem interpolate_eq (a b s : Int) (ha : |a| ≤ 2 ^ 59) (hb : |b| ≤ 2 ^ 59)
    (hs : 0 ≤ s ∧ s ≤ 5) : interpolate a b s = a + Int.tdiv ((b - a) * s) 6 := by
  have ha1 := abs_le.mp ha
  have hb1 := abs_le.mp hb
  have h1 : wrapInt (b - a) = b - a := wrapInt_of_inRange ⟨by omega, by omega⟩
  have hcases : s = 0 ∨ s = 1 ∨ s = 2 ∨ s = 3 ∨ s = 4 ∨ s = 5 := by omega
  unfold interpolate
  rw [h1]
  rcases hcases with rfl | rfl | rfl | rfl | rfl | rfl <;>
  · rw [wrapInt_of_inRange (x := (b - a) * _) ⟨by omega, by omega⟩]
    rw [tdiv_six]
    split <;> exact wrapInt_of_inRange ⟨by omega, by omega⟩

theorem generatePath_eq (c : Fin 4 → Pos) :
    generatePath c = edgePoints (c 0) (c 1) ++ (edgePoints (c 1) (c 2) ++
      (edgePoints (c 2) (c 3) ++ edgePoints (c 3) (c 0))) := by
  simp [generatePath, List.finRange, List.flatMap, List.pmap, List.range, List.range.loop]
  rfl

theorem edgePoints_eq (p q : Pos) :
    edgePoints p q = (List.range 6).map fun (s : Nat) =>
      Pos.mk (interpolate p.X q.X (s : Int)) (interpolate p.Y q.Y (s : Int)) := rfl

theorem edgePoints_length (p q : Pos) : (edgePoints p q).length = 6 := by
  simp [edgePoints]

theorem edgePoints_get (p q : Pos) (s : Nat) (hs : s < 6) :
    (edgePoints p q).get? s = some ⟨interpolate p.X q.X s, interpolate p.Y q.Y s⟩ := by
  simp [edgePoints, List.getElem?_map, List.getElem?_range hs]


theorem generatePath_get_nat (c : Fin 4 → Pos) (i s : Nat) (hi : i < 4) (hs : s < 6) :
    (generatePath c).get? (6 * i + s) =
      some ⟨interpolate (c ⟨i, hi⟩).X (c (⟨i, hi⟩ + 1)).X s,
            interpolate (c ⟨i, hi⟩).Y (c (⟨i, hi⟩ + 1)).Y s⟩ := by
  have e0 := edgePoints_length (c 0) (c 1)
  have e1 := edgePoints_length (c 1) (c 2)
  have e2 := edgePoints_length (c 2) (c 3)
  have g0 := edgePoints_get (c 0) (c 1) s hs
  have g1 := edgePoints_get (c 1) (c 2) s hs
  have g2 := edgePoints_get (c 2) (c 3) s hs
  have g3 := edgePoints_get (c 3) (c 0) s hs
  rw [List.get?_eq_getElem?] at g0 g1 g2 g3
  rw [generatePath_eq, List.get?_eq_getElem?]
  interval_cases i
  · rw [List.getElem?_append_left (by rw [e0]; omega),
      show 6 * 0 + s = s by omega]
    exact g0
  · rw [List.getElem?_append_right (by rw [e0]; omega), e0,
      List.getElem?_append_left (by rw [e1]; omega),
      show 6 * 1 + s - 6 = s by omega]
    exact g1
  · rw [List.getElem?_append_right (by rw [e0]; omega), e0,
      List.getElem?_append_right (by rw [e1]; omega), e1,
      List.getElem?_append_left (by rw [e2]; omega),
      show 6 * 2 + s - 6 - 6 = s by omega]
    exact g2
  · rw [List.getElem?_append_right (by rw [e0]; omega), e0,
      List.getElem?_append_right (by rw [e1]; omega), e1,
      List.getElem?_append_right (by rw [e2]; omega), e2,
      show 6 * 3 + s - 6 - 6 - 6 = s by omega]
    exact g3

theorem generatePath_get (c : Fin 4 → Pos) (i : Fin 4) (s : Fin 6) :
    (generatePath c).get? (6 * i.val + s.val) =
      some ⟨interpolate (c i).X (c (i + 1)).X s.val, interpolate (c i).Y (c (i + 1)).Y s.val⟩ :=
  generatePath_get_nat c i.val s.val i.isLt s.isLt

theorem generatePath_length (c : Fin 4 → Pos) : (generatePath c).length = 24 := by
  simp [generatePath_eq, edgePoints_length]

/-- C7 (as stated, refuted): for the corners of every room, the waypoint at index
`6 * 2 + 1`, on the edge from `(5,5)` to `(5,0)`, is `(5,5)`, not the floor
interpolation `(5,4)`. -/
theorem C7_counterexample :
    (generatePath roomCorners).get? (6 * 2 + 1) = some ⟨5, 5⟩ ∧
    (⟨floorInterpolate (roomCorners 2).X (roomCorners 3).X 1,
      floorInterpolate (roomCorners 2).Y (roomCorners 3).Y 1⟩ : Pos) = ⟨5, 4⟩ := by
  decide

/-- C7 (amended): `generatePath` returns exactly 24 waypoints, and for corner
coordinates of magnitude at most `2 ^ 59` (so that no 64-bit operation wraps) the
waypoint at index `6 * i + s` is `c_i + ((c_{i+1} - c_i) * s) / 6` in each
coordinate with the quotient truncated toward zero; on a coordinate that does
not decrease along the edge this is the floor interpolation. -/
theorem C7_generatePath_truncates (c : Fin 4 → Pos)
    (hb : ∀ j, |(c j).X| ≤ 2 ^ 59 ∧ |(c j).Y| ≤ 2 ^ 59) :
    (generatePath c).length = 24 ∧
    (∀ (i : Fin 4) (s : Fin 6),
      (generatePath c).get? (6 * i.val + s.val) =
        some ⟨(c i).X + Int.tdiv (((c (i + 1)).X - (c i).X) * s.val) 6,
              (c i).Y + Int.tdiv (((c (i + 1)).Y - (c i).Y) * s.val) 6⟩) ∧
    (∀ (i : Fin 4) (s : Fin 6), (c i).X ≤ (c (i + 1)).X →
      (c i).X + Int.tdiv (((c (i + 1)).X - (c i).X) * s.val) 6 =
        floorInterpolate (c i).X (c (i + 1)).X s.val) ∧
    (∀ (i : Fin 4) (s : Fin 6), (c i).Y ≤ (c (i + 1)).Y →
      (c i).Y + Int.tdiv (((c (i + 1)).Y - (c i).Y) * s.val) 6 =
        floorInterpolate (c i).Y (c (i + 1)).Y s.val) := by
  refine ⟨generatePath_length c, ?_, ?_, ?_⟩
  · intro i s
    have hs : (0 : Int) ≤ s.val ∧ (s.val : Int) ≤ 5 := by
      have := s.isLt
      omega
    rw [generatePath_get,
      interpolate_eq _ _ _ (hb i).1 (hb (i + 1)).1 hs,
      interpolate_eq _ _ _ (hb i).2 (hb (i + 1)).2 hs]
  · intro i s h
    unfold floorInterpolate
    rw [Int.fdiv_eq_tdiv (Int.mul_nonneg (by omega) (by omega)) (by norm_num)]
  · intro i s h
    unfold floorInterpolate
    rw [Int.fdiv_eq_tdiv (Int.mul_nonneg (by omega) (by omega)) (by norm_num)]

/-- C7 (amended), at the corners of every room. -/
theorem C7_generatePath_truncates_witness :
    (∀ j, |(roomCorners j).X| ≤ 2 ^ 59 ∧ |(roomCorners j).Y| ≤ 2 ^ 59) ∧
    (generatePath roomCorners).length = 24 :=
  ⟨by decide, (C7_generatePath_truncates roomCorners (by decide)).1⟩


/-! ## Lanes -/

theorem Lane.mem_insert {l : Lane} {k : Int} {m : Monster} {e : Int × Monster}
    (h : e ∈ Lane.insert l k m) : e ∈ l ∨ e = (k, m) := by
  induction l with
  | nil => simpa [Lane.insert] using h
  | cons hd tl ih =>
    obtain ⟨k1, m1⟩ := hd
    unfold Lane.insert at h
    split at h
    · rcases List.mem_cons.mp h with h1 | h1
      · exact Or.inr h1
      · exact Or.inl (List.mem_cons_of_mem _ h1)
    · rcases List.mem_cons.mp h with h1 | h1
      · exact Or.inl (h1 ▸ List.mem_cons_self _ _)
      · rcases ih h1 with h2 | h2
        · exact Or.inl (List.mem_cons_of_mem _ h2)
        · exact Or.inr h2

theorem Lane.length_insert_le (l : Lane) (k : Int) (m : Monster) :
    (Lane.insert l k m).length ≤ l.length + 1 := by
  induction l with
  | nil => simp [Lane.insert]
  | cons hd tl ih =>
    obtain ⟨k1, m1⟩ := hd
    unfold Lane.insert
    split
    · simp
    · simp only [List.length_cons]; omega

theorem Lane.length_insert_fresh (l : Lane) (k : Int) (m : Monster)
    (h : ∀ e ∈ l, e.1 ≠ k) : (Lane.insert l k m).length = l.length + 1 := by
  induction l with
  | nil => simp [Lane.insert]
  | cons hd tl ih =>
    obtain ⟨k1, m1⟩ := hd
    have hk : k1 ≠ k := h (k1, m1) (List.mem_cons_self _ _)
    have ht := ih (fun e he => h e (List.mem_cons_of_mem _ he))
    unfold Lane.insert
    rw [if_neg hk]
    simp only [List.length_cons]; omega

/-! ## Wave spawning -/

theorem spawnLoop_memA (path : List Pos) (rng : Nat → SpawnDraw) (n : Nat) :
    ∀ e ∈ (spawnLoop path rng n).1,
      ∃ i, i < n ∧ e = ((rng i).idA, newMonster (rng i).idA (rng i).foodA path) := by
  induction n with
  | zero => intro e he; simp [spawnLoop] at he
  | succ n ih =>
    intro e he
    rcases Lane.mem_insert (by simpa [spawnLoop] using he) with h | h
    · obtain ⟨i, hi, rfl⟩ := ih e h
      exact ⟨i, by omega, rfl⟩
    · exact ⟨n, by omega, h⟩

theorem spawnLoop_memB (path : List Pos) (rng : Nat → SpawnDraw) (n : Nat) :
    ∀ e ∈ (spawnLoop path rng n).2,
      ∃ i, i < n ∧ e = ((rng i).idB, newMonster (rng i).idB (rng i).foodB path) := by
  induction n with
  | zero => intro e he; simp [spawnLoop] at he
  | succ n ih =>
    intro e he
    rcases Lane.mem_insert (by simpa [spawnLoop] using he) with h | h
    · obtain ⟨i, hi, rfl⟩ := ih e h
      exact ⟨i, by omega, rfl⟩
    · exact ⟨n, by omega, h⟩

theorem spawnLoop_length_le (path : List Pos) (rng : Nat → SpawnDraw) (n : Nat) :
    (spawnLoop path rng n).1.length ≤ n ∧ (spawnLoop path rng n).2.length ≤ n := by
  induction n with
  | zero => simp [spawnLoop]
  | succ n ih =>
    have h1 := Lane.length_insert_le (spawnLoop path rng n).1 (rng n).idA
      (newMonster (rng n).idA (rng n).foodA path)
    have h2 := Lane.length_insert_le (spawnLoop path rng n).2 (rng n).idB
      (newMonster (rng n).idB (rng n).foodB path)
    simp only [spawnLoop]
    omega

theorem spawnLoop_lengthA (path : List Pos) (rng : Nat → SpawnDraw) (n : Nat)
    (hinj : ∀ i j, i < n → j < n → (rng i).idA = (rng j).idA → i = j) :
    (spawnLoop path rng n).1.length = n := by
  induction n with
  | zero => simp [spawnLoop]
  | succ n ih =>
    have hn := ih (fun i j hi hj h => hinj i j (by omega) (by omega) h)
    simp only [spawnLoop]
    rw [Lane.length_insert_fresh, hn]
    intro e he
    obtain ⟨i, hi, rfl⟩ := spawnLoop_memA path rng n e he
    intro h
    have := hinj i n (by omega) (by omega) h
    omega

theorem spawnLoop_lengthB (path : List Pos) (rng : Nat → SpawnDraw) (n : Nat)
    (hinj : ∀ i j, i < n → j < n → (rng i).idB = (rng j).idB → i = j) :
    (spawnLoop path rng n).2.length = n := by
  induction n with
  | zero => simp [spawnLoop]
  | succ n ih =>
    have hn := ih (fun i j hi hj h => hinj i j (by omega) (by omega) h)
    simp only [spawnLoop]
    rw [Lane.length_insert_fresh, hn]
    intro e he
    obtain ⟨i, hi, rfl⟩ := spawnLoop_memB path rng n e he
    intro h
    have := hinj i n (by omega) (by omega) h
    omega

theorem waveCount_eq (w : Int) (hw : 1 ≤ w) (hr : 10 + (w - 1) * 3 < 2 ^ 63) :
    waveCount w = 10 + (w - 1) * 3 := by
  unfold waveCount
  rw [wrapInt_of_inRange (x := w - 1) ⟨by omega, by omega⟩,
    wrapInt_of_inRange (x := (w - 1) * 3) ⟨by omega, by omega⟩,
    wrapInt_of_inRange ⟨by omega, by omega⟩]

/-- C6 (as stated, refuted): in wave 1, when `rand.Int()` returns each id of
lane A twice, lane A holds 5 monsters instead of 10 (lane B, with distinct ids,
holds 10). -/
theorem C6_counterexample :
    ((spawnWaveMonsters (NewRoom "room1" none none)
        (fun i => ⟨(i / 2 : Nat), false, (i : Nat), false⟩)).1.MonstersA.length = 5 ∧
     (spawnWaveMonsters (NewRoom "room1" none none)
        (fun i => ⟨(i / 2 : Nat), false, (i : Nat), false⟩)).1.MonstersB.length = 10) ∧
    10 + ((NewRoom "room1" none none).Wave - 1) * 3 = 10 := by
  decide

/-- C6 (amended): for every wave number `w ≥ 1` with `10 + (w-1)*3` in the range
of `int` and every outcome of the random generator, after `spawnWaveMonsters`
every monster of both lanes is one created by this call (none carried over),
with `Progress = 0`, `HP = MaxHP = 100` and `Escaped = false`; a lane holds at
most `10 + (w-1)*3` monsters, and exactly that many when the ids drawn for the
lane are pairwise distinct. -/
theorem C6_spawn_population (r : Room) (rng : Nat → SpawnDraw)
    (hw : 1 ≤ r.Wave) (hr : 10 + (r.Wave - 1) * 3 < 2 ^ 63) :
    (∀ e ∈ (spawnWaveMonsters r rng).1.MonstersA ++ (spawnWaveMonsters r rng).1.MonstersB,
      e.2.Progress = 0 ∧ e.2.HP = 100 ∧ e.2.MaxHP = 100 ∧ e.2.Escaped = false) ∧
    (∀ e ∈ (spawnWaveMonsters r rng).1.MonstersA, ∃ i : Nat, (i : Int) < 10 + (r.Wave - 1) * 3 ∧
      e = ((rng i).idA, newMonster (rng i).idA (rng i).foodA (generatePath r.pathCorners))) ∧
    (∀ e ∈ (spawnWaveMonsters r rng).1.MonstersB, ∃ i : Nat, (i : Int) < 10 + (r.Wave - 1) * 3 ∧
      e = ((rng i).idB, newMonster (rng i).idB (rng i).foodB (generatePath r.pathCorners))) ∧
    ((spawnWaveMonsters r rng).1.MonstersA.length : Int) ≤ 10 + (r.Wave - 1) * 3 ∧
    ((spawnWaveMonsters r rng).1.MonstersB.length : Int) ≤ 10 + (r.Wave - 1) * 3 ∧
    ((∀ i j : Nat, (i : Int) < 10 + (r.Wave - 1) * 3 → (j : Int) < 10 + (r.Wave - 1) * 3 →
        (rng i).idA = (rng j).idA → i = j) →
      ((spawnWaveMonsters r rng).1.MonstersA.length : Int) = 10 + (r.Wave - 1) * 3) ∧
    ((∀ i j : Nat, (i : Int) < 10 + (r.Wave - 1) * 3 → (j : Int) < 10 + (r.Wave - 1) * 3 →
        (rng i).idB = (rng j).idB → i = j) →
      ((spawnWaveMonsters r rng).1.MonstersB.length : Int) = 10 + (r.Wave - 1) * 3) := by
  have hc := waveCount_eq r.Wave hw hr
  have hn : (((waveCount r.Wave).toNat : Nat) : Int) = 10 + (r.Wave - 1) * 3 := by
    rw [Int.toNat_of_nonneg (by omega), hc]
  have hlt : ∀ i : Nat, i < (waveCount r.Wave).toNat ↔ (i : Int) < 10 + (r.Wave - 1) * 3 := by
    intro i; omega
  have hA := spawnLoop_memA (generatePath r.pathCorners) rng (waveCount r.Wave).toNat
  have hB := spawnLoop_memB (generatePath r.pathCorners) rng (waveCount r.Wave).toNat
  have hle := spawnLoop_length_le (generatePath r.pathCorners) rng (waveCount r.Wave).toNat
  refine ⟨?_, ?_, ?_, ?_, ?_, ?_, ?_⟩
  · intro e he
    rcases List.mem_append.mp he with h | h
    · obtain ⟨i, _, rfl⟩ := hA e h
      simp [newMonster]
    · obtain ⟨i, _, rfl⟩ := hB e h
      simp [newMonster]
  · intro e he
    obtain ⟨i, hi, rfl⟩ := hA e he
    exact ⟨i, (hlt i).mp hi, rfl⟩
  · intro e he
    obtain ⟨i, hi, rfl⟩ := hB e he
    exact ⟨i, (hlt i).mp hi, rfl⟩
  · have := hle.1
    show (((spawnLoop _ rng _).1.length : Nat) : Int) ≤ _
    omega
  · have := hle.2
    show (((spawnLoop _ rng _).2.length : Nat) : Int) ≤ _
    omega
  · intro hinj
    have := spawnLoop_lengthA (generatePath r.pathCorners) rng (waveCount r.Wave).toNat
      (fun i j hi hj h => hinj i j ((hlt i).mp hi) ((hlt j).mp hj) h)
    show (((spawnLoop _ rng _).1.length : Nat) : Int) = _
    omega
  · intro hinj
    have := spawnLoop_lengthB (generatePath r.pathCorners) rng (waveCount r.Wave).toNat
      (fun i j hi hj h => hinj i j ((hlt i).mp hi) ((hlt j).mp hj) h)
    show (((spawnLoop _ rng _).2.length : Nat) : Int) = _
    omega

/-- C6 (amended), for wave 1 with the ids `0, 1, 2, ...` in both lanes: each lane
holds 10 monsters. -/
theorem C6_spawn_population_witness :
    (1 : Int) ≤ (NewRoom "room1" none none).Wave ∧
    ((spawnWaveMonsters (NewRoom "room1" none none)
        (fun i => ⟨(i : Nat), false, (i : Nat), true⟩)).1.MonstersA.length : Int) = 10 :=
  ⟨by decide,
   (C6_spawn_population (NewRoom "room1" none none) (fun i => ⟨(i : Nat), false, (i : Nat), true⟩)
      (by decide) (by decide)).2.2.2.2.2.1 (fun i j _ _ h => by simpa using h)⟩


/-! ## Attacks -/

theorem Lane.lookup_insert_self (l : Lane) (k : Int) (m : Monster) :
    (Lane.insert l k m).lookup k = some m := by
  induction l with
  | nil => simp [Lane.insert, Lane.lookup]
  | cons hd tl ih =>
    obtain ⟨k1, m1⟩ := hd
    unfold Lane.insert
    split
    · simp [Lane.lookup]
    · next h => simp [Lane.lookup, h, ih]

theorem Lane.lookup_insert_ne (l : Lane) (k k2 : Int) (m : Monster) (h : k2 ≠ k) :
    (Lane.insert l k m).lookup k2 = l.lookup k2 := by
  induction l with
  | nil => simp [Lane.insert, Lane.lookup, h.symm]
  | cons hd tl ih =>
    obtain ⟨k1, m1⟩ := hd
    unfold Lane.insert
    split
    · next h1 =>
      subst h1
      simp [Lane.lookup, h.symm]
    · next h1 => simp [Lane.lookup, ih]

/-- Writing through the pointer found under `k` changes only the entry found. -/
theorem Lane.insert_forall₂ (l : Lane) (k : Int) (m0 m : Monster) (h : l.lookup k = some m0) :
    List.Forall₂ (fun e e1 => e1 = e ∨ (e = (k, m0) ∧ e1 = (k, m))) l (Lane.insert l k m) := by
  induction l with
  | nil => simp [Lane.lookup] at h
  | cons hd tl ih =>
    obtain ⟨k1, m1⟩ := hd
    unfold Lane.insert
    unfold Lane.lookup at h
    split
    · next h1 =>
      rw [if_pos h1] at h
      subst h1
      obtain rfl : m1 = m0 := by simpa using h
      exact List.Forall₂.cons (Or.inr ⟨rfl, rfl⟩) (List.forall₂_same.mpr fun _ _ => Or.inl rfl)
    · next h1 =>
      rw [if_neg h1] at h
      exact List.Forall₂.cons (Or.inl rfl) (ih h)

theorem attackLane_handleAttack (r : Room) (pid pid2 : String) (mid uid : Int) (roll : Fin 11) :
    attackLane (handleAttack r pid mid uid roll).1 pid2 = attackLane r pid2 := by
  unfold handleAttack
  split <;> rfl

theorem handleAttack_A (r : Room) (pid : String) (mid uid : Int) (roll : Fin 11)
    (h : attackLane r pid = some true) :
    handleAttack r pid mid uid roll =
      ({ r with MonstersA := (attackIn r.MonstersA mid roll).1 }, (attackIn r.MonstersA mid roll).2) := by
  unfold handleAttack
  rw [h]

theorem handleAttack_B (r : Room) (pid : String) (mid uid : Int) (roll : Fin 11)
    (h : attackLane r pid = some false) :
    handleAttack r pid mid uid roll =
      ({ r with MonstersB := (attackIn r.MonstersB mid roll).1 }, (attackIn r.MonstersB mid roll).2) := by
  unfold handleAttack
  rw [h]

theorem handleAttack_none (r : Room) (pid : String) (mid uid : Int) (roll : Fin 11)
    (h : attackLane r pid = none) : handleAttack r pid mid uid roll = (r, []) := by
  unfold handleAttack
  rw [h]

/-- C5 (as stated, refuted): when both slots hold the id `alice`, a call of
`handleAttack` with the id of the player in slot B lowers the hit points of
monster 1 of lane A from 100 to 90. -/
theorem C5_counterexample :
    sameIdRoom.B.map (fun b => b.ID) = some "alice" ∧
    (sameIdRoom.MonstersA.lookup 1).map (fun m => m.HP) = some 100 ∧
    ((handleAttack sameIdRoom "alice" 1 0 0).1.MonstersA.lookup 1).map (fun m => m.HP) = some 90 := by
  decide!

/-- C5 (amended): `handleAttack` called with an id that is not the id of slot A (in
particular the id of the player in slot B whenever it differs from the id of
slot A) leaves `MonstersA` unchanged; called with the id of the player in slot A
it leaves `MonstersB` unchanged; a call with an id matching neither slot changes
nothing and emits nothing. -/
theorem C5_cross_lane (r : Room) (pid : String) (mid uid : Int) (roll : Fin 11) :
    ((∀ a, r.A = some a → pid ≠ a.ID) →
      (handleAttack r pid mid uid roll).1.MonstersA = r.MonstersA) ∧
    ((∃ a, r.A = some a ∧ pid = a.ID) →
      (handleAttack r pid mid uid roll).1.MonstersB = r.MonstersB) ∧
    ((∀ a, r.A = some a → pid ≠ a.ID) → (∀ b, r.B = some b → pid ≠ b.ID) →
      handleAttack r pid mid uid roll = (r, [])) := by
  refine ⟨?_, ?_, ?_⟩
  · intro hA
    have h : attackLane r pid ≠ some true := by
      unfold attackLane
      cases hra : r.A with
      | none =>
        cases hrb : r.B with
        | none => simp
        | some b => simp only []; split <;> simp
      | some a =>
        have := hA a hra
        simp only [this, if_false]
        cases hrb : r.B with
        | none => simp
        | some b => simp only []; split <;> simp
    unfold handleAttack
    split
    · next h1 => exact absurd h1 h
    · rfl
    · rfl
  · rintro ⟨a, hra, hpid⟩
    have h : attackLane r pid = some true := by
      unfold attackLane
      rw [hra]
      simp [hpid]
    rw [handleAttack_A r pid mid uid roll h]
  · intro hA hB
    apply handleAttack_none
    unfold attackLane
    cases hra : r.A with
    | none =>
      cases hrb : r.B with
      | none => rfl
      | some b => simp [hB b hrb]
    | some a =>
      cases hrb : r.B with
      | none => simp [hA a hra]
      | some b => simp [hA a hra, hB b hrb]

/-- C5 (amended), for the player of slot B of a room with two different ids. -/
theorem C5_cross_lane_witness :
    (∀ a, (sampleRoom 300 300 [(1, sampleMonster 1 100 0 false)] []).A = some a → "bob" ≠ a.ID) ∧
    (handleAttack (sampleRoom 300 300 [(1, sampleMonster 1 100 0 false)] []) "bob" 1 0 0).1.MonstersA
      = [(1, sampleMonster 1 100 0 false)] :=
  ⟨by intro a h; cases h; decide,
   (C5_cross_lane (sampleRoom 300 300 [(1, sampleMonster 1 100 0 false)] []) "bob" 1 0 0).1
     (by intro a h; cases h; decide)⟩


theorem hitMonster_live (m : Monster) (mid : Int) (roll : Fin 11) (j : Nat) (hj : j < 10)
    (hp : m.HP = 100 - 10 * (j : Int)) (he : m.Escaped = false) :
    hitMonster m mid roll = some ({ m with HP := 100 - 10 * ((j + 1 : Nat) : Int) },
      if j = 9 then [Msg.monster_dead mid (5 + (roll.val : Int))] else []) := by
  have hin : m.inert = false := by
    unfold Monster.inert
    rw [he]
    simp
    omega
  unfold hitMonster
  rw [hin, hp]
  have h1 : ¬ (100 - 10 * (j : Int) - 10 < 0) := by omega
  simp only [Bool.false_eq_true, if_false, h1]
  have h2 : (100 - 10 * (j : Int) - 10 = 0) ↔ j = 9 := by omega
  have h3 : 100 - 10 * (j : Int) - 10 = 100 - 10 * ((j + 1 : Nat) : Int) := by push_cast; ring
  rw [h3] at h2
  simp only [h2, h3]

theorem hitMonster_dead (m : Monster) (mid : Int) (roll : Fin 11) (h : m.inert = true) :
    hitMonster m mid roll = none := by
  unfold hitMonster
  rw [h]
  rfl

/-- The effect on a lane of a sequence of attacks on a monster that has already
taken `j` of the ten hits it can take. -/
theorem attackInRepeatedly_spec (mid : Int) (rolls : List (Fin 11)) :
    ∀ (lane : Lane) (m : Monster) (j : Nat), j ≤ 10 → lane.lookup mid = some m →
      m.HP = 100 - 10 * (j : Int) → m.Escaped = false →
      (attackInRepeatedly lane mid rolls).1.lookup mid =
        some { m with HP := 100 - 10 * ((min (j + rolls.length) 10 : Nat) : Int) } ∧
      (attackInRepeatedly lane mid rolls).2 =
        (if j < 10 then
          ((rolls.get? (9 - j)).map fun roll => Msg.monster_dead mid (5 + (roll.val : Int))).toList
         else []) ∧
      (∀ k, k ≠ mid → (attackInRepeatedly lane mid rolls).1.lookup k = lane.lookup k) := by
  induction rolls with
  | nil =>
    intro lane m j hj hl hp he
    refine ⟨?_, ?_, fun k _ => rfl⟩
    · simp only [attackInRepeatedly, List.length_nil, Nat.add_zero, Nat.min_eq_left hj, hl]
      rw [← hp]
    · simp [attackInRepeatedly]
  | cons roll rolls ih =>
    intro lane m j hj hl hp he
    rcases Nat.lt_or_ge j 10 with hlt | hge
    · have hhit := hitMonster_live m mid roll j hlt hp he
      have hstep : attackIn lane mid roll =
          (lane.insert mid { m with HP := 100 - 10 * ((j + 1 : Nat) : Int) },
            if j = 9 then [Msg.monster_dead mid (5 + (roll.val : Int))] else []) := by
        unfold attackIn
        rw [hl]
        simp only [hhit]
      obtain ⟨h1, h2, h3⟩ := ih (lane.insert mid { m with HP := 100 - 10 * ((j + 1 : Nat) : Int) })
        { m with HP := 100 - 10 * ((j + 1 : Nat) : Int) } (j + 1) (by omega)
        (Lane.lookup_insert_self _ _ _) rfl he
      simp only [attackInRepeatedly, hstep]
      refine ⟨?_, ?_, ?_⟩
      · rw [h1]
        have : j + 1 + rolls.length = j + (roll :: rolls).length := by
          simp only [List.length_cons]; omega
        rw [this]
      · rw [h2]
        simp only [hlt, if_true]
        rcases Nat.lt_or_ge j 9 with h9 | h9
        · have e1 : j ≠ 9 := by omega
          have e2 : j + 1 < 10 := by omega
          have e3 : 9 - j = (9 - (j + 1)) + 1 := by omega
          simp only [e1, e2, if_false, if_true, List.nil_append]
          rw [e3, List.get?_cons_succ]
        · have e1 : j = 9 := by omega
          subst e1
          simp
      · intro k hk
        rw [h3 k hk, Lane.lookup_insert_ne _ _ _ _ hk]
    · have hj10 : j = 10 := by omega
      subst hj10
      have hin : m.inert = true := by
        unfold Monster.inert
        rw [hp]
        simp
      have hstep : attackIn lane mid roll = (lane, []) := by
        unfold attackIn
        rw [hl]
        simp only [hitMonster_dead m mid roll hin]
      obtain ⟨h1, h2, h3⟩ := ih lane m 10 (by omega) hl hp he
      simp only [attackInRepeatedly, hstep]
      refine ⟨?_, ?_, h3⟩
      · rw [h1]
        simp
      · rw [h2]
        simp

theorem attackRepeatedly_A (r : Room) (pid : String) (mid uid : Int) (rolls : List (Fin 11))
    (h : attackLane r pid = some true) :
    attackRepeatedly r pid mid uid rolls =
      ({ r with MonstersA := (attackInRepeatedly r.MonstersA mid rolls).1 },
        (attackInRepeatedly r.MonstersA mid rolls).2) := by
  induction rolls generalizing r with
  | nil => rfl
  | cons roll rolls ih =>
    have h1 : attackLane (handleAttack r pid mid uid roll).1 pid = some true := by
      rw [attackLane_handleAttack]; exact h
    simp only [attackRepeatedly, attackInRepeatedly]
    rw [ih _ h1, handleAttack_A r pid mid uid roll h]

theorem attackRepeatedly_B (r : Room) (pid : String) (mid uid : Int) (rolls : List (Fin 11))
    (h : attackLane r pid = some false) :
    attackRepeatedly r pid mid uid rolls =
      ({ r with MonstersB := (attackInRepeatedly r.MonstersB mid rolls).1 },
        (attackInRepeatedly r.MonstersB mid rolls).2) := by
  induction rolls generalizing r with
  | nil => rfl
  | cons roll rolls ih =>
    have h1 : attackLane (handleAttack r pid mid uid roll).1 pid = some false := by
      rw [attackLane_handleAttack]; exact h
    simp only [attackRepeatedly, attackInRepeatedly]
    rw [ih _ h1, handleAttack_B r pid mid uid roll h]

theorem attackLane_slotA (r : Room) (pid : String) (h : ∃ a, r.A = some a ∧ pid = a.ID) :
    attackLane r pid = some true := by
  obtain ⟨a, hra, hpid⟩ := h
  unfold attackLane
  rw [hra]
  simp [hpid]

theorem attackLane_slotB (r : Room) (pid : String) (h : ∃ b, r.B = some b ∧ pid = b.ID)
    (hA : ∀ a, r.A = some a → pid ≠ a.ID) : attackLane r pid = some false := by
  obtain ⟨b, hrb, hpid⟩ := h
  unfold attackLane
  rw [hrb]
  cases hra : r.A with
  | none => simp [hpid]
  | some a =>
    simp only []
    rw [if_neg (hA a hra), if_pos hpid]


/-- C3 (as stated, refuted): when both slots hold the id `alice`, the attacks of
the player of slot B on monster 2 of lane B (hit points 100) leave its hit points
at 100 after one hit, and ten hits emit no `monster_dead`. -/
theorem C3_counterexample :
    sameIdRoom.B.map (fun b => b.ID) = some "alice" ∧
    (sameIdRoom.MonstersB.lookup 2).map (fun m => (m.HP, m.Escaped)) = some (100, false) ∧
    ((attackRepeatedly sameIdRoom "alice" 2 0 [0]).1.MonstersB.lookup 2).map (fun m => m.HP)
      = some 100 ∧
    (attackRepeatedly sameIdRoom "alice" 2 0 (List.replicate 10 0)).2 = [] := by
  decide!

/-- C3 (amended): for every sequence of `handleAttack` calls on one monster that
starts at `HP = 100`, not escaped, made by the player of slot A on a monster of
lane A, or by the player of slot B (whose id is not also the id of slot A) on a
monster of lane B: after the calls the monster has `HP = 100 - 10 * min k 10`
where `k` is the number of calls, the broadcasts of the whole sequence are
exactly one `monster_dead` for that id, emitted by the 10th call with a reward in
`5..15`, when there are at least ten calls (and none otherwise), every other
monster of the lane is unchanged and the other lane is unchanged. -/
theorem C3_ten_hits (r : Room) (pid : String) (mid uid : Int) (m : Monster)
    (rolls : List (Fin 11)) (hp : m.HP = 100) (he : m.Escaped = false) :
    ((∃ a, r.A = some a ∧ pid = a.ID) → r.MonstersA.lookup mid = some m →
      (attackRepeatedly r pid mid uid rolls).1.MonstersA.lookup mid =
        some { m with HP := 100 - 10 * ((min rolls.length 10 : Nat) : Int) } ∧
      (attackRepeatedly r pid mid uid rolls).2 =
        ((rolls.get? 9).map fun roll => Msg.monster_dead mid (5 + (roll.val : Int))).toList ∧
      (∀ k, k ≠ mid →
        (attackRepeatedly r pid mid uid rolls).1.MonstersA.lookup k = r.MonstersA.lookup k) ∧
      (attackRepeatedly r pid mid uid rolls).1.MonstersB = r.MonstersB) ∧
    ((∃ b, r.B = some b ∧ pid = b.ID) → (∀ a, r.A = some a → pid ≠ a.ID) →
      r.MonstersB.lookup mid = some m →
      (attackRepeatedly r pid mid uid rolls).1.MonstersB.lookup mid =
        some { m with HP := 100 - 10 * ((min rolls.length 10 : Nat) : Int) } ∧
      (attackRepeatedly r pid mid uid rolls).2 =
        ((rolls.get? 9).map fun roll => Msg.monster_dead mid (5 + (roll.val : Int))).toList ∧
      (∀ k, k ≠ mid →
        (attackRepeatedly r pid mid uid rolls).1.MonstersB.lookup k = r.MonstersB.lookup k) ∧
      (attackRepeatedly r pid mid uid rolls).1.MonstersA = r.MonstersA) ∧
    (∀ msg ∈ ((rolls.get? 9).map fun roll => Msg.monster_dead mid (5 + (roll.val : Int))).toList,
      ∃ d : Int, msg = Msg.monster_dead mid d ∧ 5 ≤ d ∧ d ≤ 15) := by
  refine ⟨?_, ?_, ?_⟩
  · intro hA hl
    rw [attackRepeatedly_A r pid mid uid rolls (attackLane_slotA r pid hA)]
    obtain ⟨h1, h2, h3⟩ := attackInRepeatedly_spec mid rolls r.MonstersA m 0 (by omega) hl
      (by simpa using hp) he
    refine ⟨?_, ?_, h3, rfl⟩
    · simpa using h1
    · simpa using h2
  · intro hB hA hl
    rw [attackRepeatedly_B r pid mid uid rolls (attackLane_slotB r pid hB hA)]
    obtain ⟨h1, h2, h3⟩ := attackInRepeatedly_spec mid rolls r.MonstersB m 0 (by omega) hl
      (by simpa using hp) he
    refine ⟨?_, ?_, h3, rfl⟩
    · simpa using h1
    · simpa using h2
  · intro msg hmsg
    cases hr : rolls.get? 9 with
    | none => rw [hr] at hmsg; simp at hmsg
    | some roll =>
      rw [hr] at hmsg
      have := roll.isLt
      exact ⟨5 + (roll.val : Int), by simpa using hmsg, by omega, by omega⟩

/-- C3 (amended), for twelve attacks of the player of slot A on monster 1 of lane
A, each with random outcome 3: one `monster_dead` with reward 8. -/
theorem C3_ten_hits_witness :
    (sampleMonster 1 100 0 false).HP = 100 ∧
    (attackRepeatedly (sampleRoom 300 300
        [(1, sampleMonster 1 100 0 false), (2, sampleMonster 2 100 0 false)] [])
      "alice" 1 0 (List.replicate 12 3)).2 = [Msg.monster_dead 1 8] :=
  ⟨rfl,
   (((C3_ten_hits (sampleRoom 300 300
        [(1, sampleMonster 1 100 0 false), (2, sampleMonster 2 100 0 false)] [])
      "alice" 1 0 (sampleMonster 1 100 0 false) (List.replicate 12 3) rfl rfl).1
      ⟨⟨"alice", 300⟩, rfl, rfl⟩ (by decide!)).2.1).trans (by decide)⟩


/-! ## The loop body of the tick -/

theorem inert_false_iff (m : Monster) : m.inert = false ↔ m.Escaped = false ∧ 0 < m.HP := by
  unfold Monster.inert
  cases m.Escaped <;> simp

theorem inert_true_iff (m : Monster) : m.inert = true ↔ m.Escaped = true ∨ m.HP ≤ 0 := by
  unfold Monster.inert
  cases m.Escaped <;> simp

theorem stepped_of_inert (m : Monster) (h : m.inert = true) : m.stepped = m := by
  unfold Monster.stepped
  rw [if_pos h]

theorem stepMonster_inert (o : Option Player) (m : Monster) (h : m.inert = true) :
    stepMonster o m = some (o, m, PosUpdate.terminal m.ID m.HP m.Escaped, false) := by
  unfold stepMonster
  rw [if_pos h]

theorem stepMonster_live (o o1 : Option Player) (m m1 : Monster) (e : PosUpdate) (c : Bool)
    (h : m.inert = false) (hs : stepMonster o m = some (o1, m1, e, c)) :
    c = true ∧ m1 = m.stepped ∧
    o1 = (if m.escapesNow then o.map (fun p => p.spend 1) else o) ∧
    ∃ x y pr, e = PosUpdate.live m.ID m.HP x y pr := by
  have hesc : m.Escaped = false := ((inert_false_iff m).mp h).1
  unfold stepMonster at hs
  rw [if_neg (by simp [h])] at hs
  simp only [] at hs
  split at hs
  · exact absurd hs (by simp)
  · split at hs
    · exact absurd hs (by simp)
    · next pos hpos =>
      unfold Monster.stepped Monster.escapesNow
      simp only [h, Bool.false_eq_true, if_false, Bool.not_false, Bool.true_and]
      split at hs
      · next hp =>
        simp only [Option.some.injEq, Prod.mk.injEq] at hs
        obtain ⟨h1, h2, h3, h4⟩ := hs
        refine ⟨h4.symm, ?_, ?_, ⟨_, _, _, h3.symm⟩⟩
        · rw [← h2]; simp [hp.1]
        · rw [← h1]; simp [hp.1]
      · next hp =>
        have hp1 : ¬ (1 ≤ advance m.Progress) := fun h1 => hp ⟨h1, hesc⟩
        simp only [Option.some.injEq, Prod.mk.injEq] at hs
        obtain ⟨h1, h2, h3, h4⟩ := hs
        refine ⟨h4.symm, ?_, ?_, ⟨_, _, _, h3.symm⟩⟩
        · rw [← h2]; simp [hp1, hesc]
        · rw [← h1]; simp [hp1]

/-- What a pass over a lane does when it does not panic. -/
theorem tickLane_spec : ∀ (lane : Lane) (o o1 : Option Player) (l1 : Lane)
    (es : List PosUpdate) (all : Bool), tickLane o lane = some (o1, l1, es, all) →
    l1 = lane.map (fun e => (e.1, e.2.stepped)) ∧
    o1 = Nat.iterate (Option.map fun p => p.spend 1) (lane.countP fun e => e.2.escapesNow) o ∧
    all = lane.all (fun e => e.2.inert) ∧
    List.Forall₂ (fun e u =>
      (e.2.inert = true → u = PosUpdate.terminal e.2.ID e.2.HP e.2.Escaped) ∧
      (e.2.inert = false → ∃ x y pr, u = PosUpdate.live e.2.ID e.2.HP x y pr)) lane es := by
  intro lane
  induction lane with
  | nil =>
    intro o o1 l1 es all h
    simp only [tickLane, Option.some.injEq, Prod.mk.injEq] at h
    obtain ⟨h1, h2, h3, h4⟩ := h
    subst h1 h2 h3 h4
    simp
  | cons hd tl ih =>
    intro o o1 l1 es all h
    obtain ⟨k, m⟩ := hd
    unfold tickLane at h
    split at h
    · exact absurd h (by simp)
    · next oa ma ea ca hstep =>
      split at h
      · exact absurd h (by simp)
      · next ob lb esb allb hrest =>
        simp only [Option.some.injEq, Prod.mk.injEq] at h
        obtain ⟨h1, h2, h3, h4⟩ := h
        obtain ⟨i1, i2, i3, i4⟩ := ih oa ob lb esb allb hrest
        cases hin : m.inert with
        | true =>
          rw [stepMonster_inert o m hin] at hstep
          simp only [Option.some.injEq, Prod.mk.injEq] at hstep
          obtain ⟨s1, s2, s3, s4⟩ := hstep
          subst s1 s2 s3 s4
          have hesc : m.escapesNow = false := by simp [Monster.escapesNow, hin]
          refine ⟨?_, ?_, ?_, ?_⟩
          · rw [← h2, i1]; simp [stepped_of_inert m hin]
          · rw [← h1, i2]; simp [List.countP_cons, hesc]
          · rw [← h4, i3]; simp [hin]
          · rw [← h3]
            exact List.Forall₂.cons ⟨fun _ => rfl, fun hc => by simp [hin] at hc⟩ i4
        | false =>
          obtain ⟨s1, s2, s3, s4⟩ := stepMonster_live o oa m ma ea ca hin hstep
          refine ⟨?_, ?_, ?_, ?_⟩
          · rw [← h2, i1, s2]; simp
          · rw [← h1, i2, s3]
            cases hesc : m.escapesNow with
            | true =>
              simp only [List.countP_cons, hesc, if_true]
              rw [Function.iterate_succ_apply]
            | false =>
              simp [List.countP_cons, hesc]
          · rw [← h4, s1]; simp [hin]
          · rw [← h3]
            exact List.Forall₂.cons ⟨fun hc => by simp [hin] at hc, fun _ => s4⟩ i4

/-- A pass over a lane of inert monsters changes nothing and reports every
monster in its terminal form. -/
theorem tickLane_inert (o : Option Player) : ∀ (lane : Lane),
    (∀ e ∈ lane, e.2.inert = true) →
    tickLane o lane = some (o, lane,
      lane.map (fun e => PosUpdate.terminal e.2.ID e.2.HP e.2.Escaped), true) := by
  intro lane
  induction lane with
  | nil => intro _; rfl
  | cons hd tl ih =>
    intro h
    obtain ⟨k, m⟩ := hd
    have hm : m.inert = true := h (k, m) (List.mem_cons_self _ _)
    have ht := ih (fun e he => h e (List.mem_cons_of_mem _ he))
    unfold tickLane
    rw [stepMonster_inert o m hm]
    simp only [ht]
    simp


/-- What the body of the wave loop does when it does not panic. -/
theorem tick_spec (r r1 : Room) (msgs : List Msg) (res : Bool)
    (h : tick r = some (r1, msgs, res)) :
    r1.MonstersA = r.MonstersA.map (fun e => (e.1, e.2.stepped)) ∧
    r1.MonstersB = r.MonstersB.map (fun e => (e.1, e.2.stepped)) ∧
    r1.A = Nat.iterate (Option.map fun p => p.spend 1)
      (r.MonstersA.countP fun e => e.2.escapesNow) (r.A.map fun p => p.spend dt) ∧
    r1.B = Nat.iterate (Option.map fun p => p.spend 1)
      (r.MonstersB.countP fun e => e.2.escapesNow) (r.B.map fun p => p.spend dt) ∧
    r1.Wave = r.Wave ∧
    res = (r.MonstersA ++ r.MonstersB).all (fun e => e.2.inert) ∧
    ∃ posA posB,
      msgs = [Msg.timer (shownTime (timeOf (r.A.map fun p => p.spend dt)))
                (shownTime (timeOf (r.B.map fun p => p.spend dt))),
              Msg.monster_positions (posA ++ posB)] ∧
      List.Forall₂ (fun e u =>
        (e.2.inert = true → u = PosUpdate.terminal e.2.ID e.2.HP e.2.Escaped) ∧
        (e.2.inert = false → ∃ x y pr, u = PosUpdate.live e.2.ID e.2.HP x y pr)) r.MonstersA posA ∧
      List.Forall₂ (fun e u =>
        (e.2.inert = true → u = PosUpdate.terminal e.2.ID e.2.HP e.2.Escaped) ∧
        (e.2.inert = false → ∃ x y pr, u = PosUpdate.live e.2.ID e.2.HP x y pr)) r.MonstersB posB := by
  unfold tick at h
  simp only [] at h
  split at h
  · exact absurd h (by simp)
  · next a2 laneA posA allA hA =>
    split at h
    · exact absurd h (by simp)
    · next b2 laneB posB allB hB =>
      simp only [Option.some.injEq, Prod.mk.injEq] at h
      obtain ⟨h1, h2, h3⟩ := h
      obtain ⟨a1, a2', a3, a4⟩ := tickLane_spec _ _ _ _ _ _ hA
      obtain ⟨b1, b2', b3, b4⟩ := tickLane_spec _ _ _ _ _ _ hB
      subst h1
      refine ⟨a1, b1, a2', b2', rfl, ?_, posA, posB, h2.symm, a4, b4⟩
      rw [← h3, a3, b3, List.all_append]

/-- On a room whose monsters are all inert the body of the wave loop only
charges the tick to the players and reports the wave as resolved. -/
theorem tick_inert (r : Room) (h : ∀ e ∈ r.MonstersA ++ r.MonstersB, e.2.inert = true) :
    ∃ msgs, tick r = some ({ r with A := r.A.map fun p => p.spend dt,
                                    B := r.B.map fun p => p.spend dt }, msgs, true) := by
  have hA := tickLane_inert (r.A.map fun p => p.spend dt) r.MonstersA
    (fun e he => h e (List.mem_append_left _ he))
  have hB := tickLane_inert (r.B.map fun p => p.spend dt) r.MonstersB
    (fun e he => h e (List.mem_append_right _ he))
  unfold tick
  simp only [hA, hB]
  exact ⟨_, rfl⟩

theorem all_inert_iff (l : Lane) :
    l.all (fun e => e.2.inert) = true ↔ ∀ e ∈ l, e.2.Escaped = true ∨ e.2.HP ≤ 0 := by
  rw [List.all_eq_true]
  constructor
  · intro h e he; exact (inert_true_iff e.2).mp (h e he)
  · intro h e he; exact (inert_true_iff e.2).mpr (h e he)

/-! ## Wave resolution and game over -/

/-- C1 (as stated, refuted): in a room whose only live monster (monster 1 of lane
A, progress `511/512`) escapes on this tick, every monster of both lanes is
escaped or at zero hit points after the tick, yet the pass does not increment the
wave counter: the loop goes on with `Wave = 1`. -/
theorem C1_counterexample :
    (match loopStep (sampleRoom 100 100 [(1, sampleMonster 1 100 (511 / 512) false)]
        [(2, sampleMonster 2 0 (1 / 2) false)]) with
     | Step.continue r1 _ =>
       decide (r1.Wave = 1) &&
         (r1.MonstersA ++ r1.MonstersB).all (fun e => e.2.Escaped || decide (e.2.HP = 0))
     | _ => false) = true := by
  decide!

/-- C1 (amended): a pass through the loop of `runWaveLoop` increments the wave
counter and starts the next countdown exactly when the loop condition holds and
every monster of both lanes was already escaped or at `HP ≤ 0` when the pass
began; the wave counter then becomes `Wave + 1` (in 64-bit arithmetic), and a pass
that goes on with the loop leaves the wave counter unchanged. -/
theorem C1_wave_resolved (r : Room) :
    ((∃ r1 msgs, loopStep r = Step.nextWave r1 msgs) ↔
      (loopCond r = true ∧ ∀ e ∈ r.MonstersA ++ r.MonstersB, e.2.Escaped = true ∨ e.2.HP ≤ 0)) ∧
    (∀ r1 msgs, loopStep r = Step.nextWave r1 msgs → r1.Wave = wrapInt (r.Wave + 1)) ∧
    (∀ r1 msgs, loopStep r = Step.continue r1 msgs → r1.Wave = r.Wave) := by
  refine ⟨⟨?_, ?_⟩, ?_, ?_⟩
  · rintro ⟨r1, msgs, h⟩
    unfold loopStep at h
    split at h
    · next hc =>
      split at h
      · exact absurd h (by simp)
      · next r2 ms res ht =>
        split at h
        · next hres =>
          refine ⟨hc, ?_⟩
          obtain ⟨_, _, _, _, _, hr, _⟩ := tick_spec r r2 ms res ht
          rw [hr] at hres
          exact (all_inert_iff _).mp hres
        · exact absurd h (by simp)
    · exact absurd h (by simp)
  · rintro ⟨hc, hall⟩
    obtain ⟨msgs, ht⟩ := tick_inert r (fun e he => (inert_true_iff e.2).mpr (hall e he))
    unfold loopStep
    rw [if_pos hc]
    simp only [ht]
    exact ⟨_, _, rfl⟩
  · intro r1 msgs h
    unfold loopStep at h
    split at h
    · split at h
      · exact absurd h (by simp)
      · next r2 ms res ht =>
        obtain ⟨_, _, _, _, hw, _⟩ := tick_spec r r2 ms res ht
        split at h
        · simp only [Step.nextWave.injEq] at h
          rw [← h.1, ← hw]
        · exact absurd h (by simp)
    · exact absurd h (by simp)
  · intro r1 msgs h
    unfold loopStep at h
    split at h
    · split at h
      · exact absurd h (by simp)
      · next r2 ms res ht =>
        obtain ⟨_, _, _, _, hw, _⟩ := tick_spec r r2 ms res ht
        split at h
        · exact absurd h (by simp)
        · simp only [Step.continue.injEq] at h
          rw [← h.1, hw]
    · exact absurd h (by simp)


theorem loopCond_false_of_zero (r : Room) (h : timeOf r.A = 0 ∧ timeOf r.B = 0) :
    loopCond r = false := by
  obtain ⟨ha, hb⟩ := h
  unfold loopCond
  cases hA : r.A with
  | none =>
    cases hB : r.B with
    | none => rfl
    | some b =>
      rw [hB] at hb
      simp only [timeOf] at hb
      simp [hb]
  | some a =>
    rw [hA] at ha
    simp only [timeOf] at ha
    cases hB : r.B with
    | none => simp [ha]
    | some b =>
      rw [hB] at hb
      simp only [timeOf] at hb
      simp [ha, hb]

/-- C2 (as stated, refuted): in a room whose monsters are all dead or escaped and
whose players have `1/32` seconds left, the tick brings both budgets to 0, and the
loop does not emit `game_over`: it returns after incrementing the wave counter to
2 and starting the next countdown. -/
theorem C2_counterexample :
    (match runWaveLoop 5 (sampleRoom (1 / 32) (1 / 32) [(1, sampleMonster 1 0 (1 / 2) false)]
        [(2, sampleMonster 2 100 1 true)]) with
     | LoopEnd.nextWave r1 msgs =>
       decide (timeOf r1.A = 0) && decide (timeOf r1.B = 0) && decide (r1.Wave = 2) &&
         decide (Msg.game_over ∉ msgs)
     | _ => false) = true := by
  decide!

/-- C2 (amended): if after a tick both players' `TimeLeft` are 0 (an absent
player counting as 0) and some monster was still live (not escaped, `HP > 0`)
when the tick began, the loop emits `game_over` and exits without incrementing the
wave counter or starting a countdown; if instead every monster was already
escaped or at `HP ≤ 0` when the tick began, the loop returns after incrementing
the wave counter and starting the next countdown, without `game_over`. -/
theorem C2_game_over (r r1 : Room) (msgs : List Msg) (res : Bool) (fuel : Nat)
    (hc : loopCond r = true) (ht : tick r = some (r1, msgs, res))
    (hz : timeOf r1.A = 0 ∧ timeOf r1.B = 0) :
    ((∃ e ∈ r.MonstersA ++ r.MonstersB, e.2.Escaped = false ∧ 0 < e.2.HP) →
      runWaveLoop (fuel + 2) r = LoopEnd.gameOver r1 (msgs ++ [Msg.game_over]) ∧
      r1.Wave = r.Wave) ∧
    ((∀ e ∈ r.MonstersA ++ r.MonstersB, e.2.Escaped = true ∨ e.2.HP ≤ 0) →
      runWaveLoop (fuel + 1) r =
        LoopEnd.nextWave { r1 with Wave := wrapInt (r.Wave + 1) } msgs) := by
  obtain ⟨_, _, _, _, hw, hres, _⟩ := tick_spec r r1 msgs res ht
  constructor
  · rintro ⟨e, he, hlive⟩
    have hfalse : res = false := by
      rw [hres]
      apply Bool.eq_false_iff.mpr
      intro hall
      have := (all_inert_iff _).mp hall e he
      rcases this with h1 | h1
      · rw [hlive.1] at h1; exact absurd h1 (by simp)
      · omega
    have hstep : loopStep r = Step.continue r1 msgs := by
      unfold loopStep
      rw [if_pos hc]
      simp only [ht, hfalse]
      rfl
    have hstep1 : loopStep r1 = Step.gameOver [Msg.game_over] := by
      unfold loopStep
      rw [loopCond_false_of_zero r1 hz]
      rfl
    refine ⟨?_, hw⟩
    show runWaveLoop (fuel + 1 + 1) r = _
    rw [runWaveLoop]
    simp only [hstep]
    rw [runWaveLoop]
    simp only [hstep1]
    rfl
  · intro hall
    have htrue : res = true := by
      rw [hres]
      exact (all_inert_iff _).mpr hall
    have hstep : loopStep r = Step.nextWave { r1 with Wave := wrapInt (r.Wave + 1) } msgs := by
      unfold loopStep
      rw [if_pos hc]
      simp only [ht, htrue, hw]
      rfl
    rw [runWaveLoop]
    simp only [hstep]


/-- C2 (amended), for a room with one live monster and `1/32` seconds left for
both players: the loop exits with `game_over` after one tick, in wave 1. -/
theorem C2_game_over_witness :
    loopCond (sampleRoom (1 / 32) (1 / 32) [(1, sampleMonster 1 100 0 false)] []) = true ∧
    runWaveLoop 2 (sampleRoom (1 / 32) (1 / 32) [(1, sampleMonster 1 100 0 false)] []) =
      LoopEnd.gameOver
        (tickResult (sampleRoom (1 / 32) (1 / 32) [(1, sampleMonster 1 100 0 false)] [])).1
        ((tickResult (sampleRoom (1 / 32) (1 / 32) [(1, sampleMonster 1 100 0 false)] [])).2.1
          ++ [Msg.game_over]) :=
  ⟨by decide!,
   ((C2_game_over (sampleRoom (1 / 32) (1 / 32) [(1, sampleMonster 1 100 0 false)] [])
      (tickResult (sampleRoom (1 / 32) (1 / 32) [(1, sampleMonster 1 100 0 false)] [])).1
      (tickResult (sampleRoom (1 / 32) (1 / 32) [(1, sampleMonster 1 100 0 false)] [])).2.1
      (tickResult (sampleRoom (1 / 32) (1 / 32) [(1, sampleMonster 1 100 0 false)] [])).2.2
      0 (by decide!) (by decide!) (by decide!)).1
      ⟨(1, sampleMonster 1 100 0 false), by simp [sampleRoom], by decide⟩).1⟩


/-! ## Time budgets -/

theorem dt_nonneg : 0 ≤ dt := f64_nonneg (by norm_num)

theorem spend_ID (p : Player) (d : ℚ) : (p.spend d).ID = p.ID := rfl

theorem spend_nonneg (p : Player) (d : ℚ) : 0 ≤ (p.spend d).TimeLeft := by
  unfold Player.spend
  simp only []
  split
  · exact le_refl 0
  · next h => exact not_lt.mp h

theorem spend_isF64 (p : Player) (d : ℚ) : IsF64 (p.spend d).TimeLeft := by
  unfold Player.spend
  simp only []
  split
  · exact isF64_zero
  · exact isF64_f64 _

theorem spend_le (p : Player) (d : ℚ) (hf : IsF64 p.TimeLeft) (h0 : 0 ≤ p.TimeLeft)
    (hd : 0 ≤ d) : (p.spend d).TimeLeft ≤ p.TimeLeft := by
  unfold Player.spend
  simp only []
  split
  · exact h0
  · have := f64_mono h0 (show p.TimeLeft - d ≤ p.TimeLeft by linarith)
    rwa [show f64 p.TimeLeft = p.TimeLeft from hf] at this

/-- A charge of one second is exact when at least one second is left. -/
theorem spend_one_exact (p : Player) (hf : IsF64 p.TimeLeft) (h1 : 1 ≤ p.TimeLeft)
    (h2 : p.TimeLeft < 2 ^ 53) : (p.spend 1).TimeLeft = p.TimeLeft - 1 := by
  unfold Player.spend
  simp only []
  rw [f64_sub_one hf h1 h2]
  rw [if_neg (by linarith)]

/-- A charge of one second takes everything when at most one second is left. -/
theorem spend_one_floor (p : Player) (h1 : p.TimeLeft ≤ 1) : (p.spend 1).TimeLeft = 0 := by
  have h := f64_nonpos (show p.TimeLeft - 1 ≤ 0 by linarith)
  unfold Player.spend
  simp only []
  split
  · rfl
  · next hn => exact le_antisymm h (not_lt.mp hn)

/-- The budget after the charges of a tick: never more than before, never
negative, the player unchanged. -/
theorem charges_spec (n : Nat) : ∀ (o : Option Player) (p : Player), o = some p →
    IsF64 p.TimeLeft → 0 ≤ p.TimeLeft →
    ∃ p1, Nat.iterate (Option.map fun q => q.spend 1) n o = some p1 ∧ p1.ID = p.ID ∧
      p1.TimeLeft ≤ p.TimeLeft ∧ 0 ≤ p1.TimeLeft ∧ IsF64 p1.TimeLeft := by
  induction n with
  | zero =>
    intro o p ho hf h0
    exact ⟨p, by simpa using ho, rfl, le_refl _, h0, hf⟩
  | succ n ih =>
    intro o p ho hf h0
    subst ho
    obtain ⟨p1, e1, e2, e3, e4, e5⟩ := ih (some (p.spend 1)) (p.spend 1) rfl
      (spend_isF64 p 1) (spend_nonneg p 1)
    refine ⟨p1, ?_, ?_, ?_, e4, e5⟩
    · rw [Function.iterate_succ_apply]; exact e1
    · rw [e2]; rfl
    · exact le_trans e3 (spend_le p 1 hf h0 (by norm_num))

theorem charges_none (n : Nat) :
    Nat.iterate (Option.map fun q : Player => q.spend 1) n none = none := by
  induction n with
  | zero => rfl
  | succ n ih => rw [Function.iterate_succ_apply]; exact ih

/-! ## Progress -/

theorem advance_le_one (p : ℚ) : advance p ≤ 1 := by
  unfold advance
  split
  · exact le_refl 1
  · next h => exact not_lt.mp h

theorem advance_nonneg (p : ℚ) (h0 : 0 ≤ p) : 0 ≤ advance p := by
  have hc : (0 : ℚ) ≤ f64 (1 / 200) := f64_nonneg (by norm_num)
  unfold advance
  split
  · norm_num
  · exact f64_nonneg (by linarith)

theorem advance_ge (p : ℚ) (hf : IsF64 p) (h0 : 0 ≤ p) (h1 : p ≤ 1) : p ≤ advance p := by
  have hc : (0 : ℚ) ≤ f64 (1 / 200) := f64_nonneg (by norm_num)
  unfold advance
  split
  · exact h1
  · have := f64_mono (show 0 ≤ p + f64 (1 / 200) by linarith)
      (show p ≤ p + f64 (1 / 200) by linarith)
    rwa [show f64 p = p from hf] at this

theorem stepped_progress (m : Monster) (hf : IsF64 m.Progress) (h0 : 0 ≤ m.Progress)
    (h1 : m.Progress ≤ 1) :
    m.Progress ≤ m.stepped.Progress ∧ m.stepped.Progress ≤ 1 := by
  unfold Monster.stepped
  split
  · exact ⟨le_refl _, h1⟩
  · exact ⟨advance_ge _ hf h0 h1, advance_le_one _⟩


theorem deleteByHTTP_room (r : Room) (st : Store) (pid : String) (x y : Int) (out : HttpResult)
    (h : deleteByHTTP r st pid x y = some out) :
    out.room = r ∨
    out.room = { r with A := r.A.map fun a => if pid = a.ID then a.spend 2 else a,
                        B := r.B.map fun b => if pid = b.ID then b.spend 2 else b } := by
  unfold deleteByHTTP at h
  simp only [] at h
  split at h
  · exact absurd h (by simp)
  · split at h
    · simp only [Option.some.injEq] at h
      exact Or.inl (by rw [← h])
    · simp only [Option.some.injEq] at h
      exact Or.inr (by rw [← h])

theorem budget_after_penalty (o : Option Player) (pid : String) (p : Player) (ho : o = some p)
    (hf : IsF64 p.TimeLeft) (h0 : 0 ≤ p.TimeLeft) :
    ∃ p1, (o.map fun a => if pid = a.ID then a.spend 2 else a) = some p1 ∧ p1.ID = p.ID ∧
      p1.TimeLeft ≤ p.TimeLeft ∧ 0 ≤ p1.TimeLeft := by
  subst ho
  by_cases hp : pid = p.ID
  · exact ⟨p.spend 2, by simp [hp], rfl, spend_le p 2 hf h0 (by norm_num), spend_nonneg p 2⟩
  · exact ⟨p, by simp [hp], rfl, le_refl _, h0⟩

theorem budget_after_tick (o : Option Player) (n : Nat) (p : Player) (ho : o = some p)
    (hf : IsF64 p.TimeLeft) (h0 : 0 ≤ p.TimeLeft) :
    ∃ p1, Nat.iterate (Option.map fun q => q.spend 1) n (o.map fun q => q.spend dt) = some p1 ∧
      p1.ID = p.ID ∧ p1.TimeLeft ≤ p.TimeLeft ∧ 0 ≤ p1.TimeLeft := by
  subst ho
  obtain ⟨p1, e1, e2, e3, e4, _⟩ := charges_spec n (some (p.spend dt)) (p.spend dt) rfl
    (spend_isF64 p dt) (spend_nonneg p dt)
  exact ⟨p1, e1, e2, le_trans e3 (spend_le p dt hf h0 dt_nonneg), e4⟩

/-- C8: for every player whose `TimeLeft` is a non-negative binary64 value, each
charge made in a started game (the tick decrement `dt = 0.05`, an escape penalty
of 1, the delete penalty of 2) leaves `TimeLeft` no larger than before and not
below 0; hence after a whole tick of `runWaveLoop` (decrement and all escape
penalties) and after `deleteByHTTP` the player is still in its slot with a
`TimeLeft` that is at most the previous one and at least 0. -/
theorem C8_time_budget (r : Room) :
    (∀ (p : Player) (d : ℚ), d = dt ∨ d = 1 ∨ d = 2 → IsF64 p.TimeLeft → 0 ≤ p.TimeLeft →
      (p.spend d).TimeLeft ≤ p.TimeLeft ∧ 0 ≤ (p.spend d).TimeLeft) ∧
    (∀ r1 msgs res, tick r = some (r1, msgs, res) →
      (∀ p, r.A = some p → IsF64 p.TimeLeft → 0 ≤ p.TimeLeft →
        ∃ p1, r1.A = some p1 ∧ p1.ID = p.ID ∧ p1.TimeLeft ≤ p.TimeLeft ∧ 0 ≤ p1.TimeLeft) ∧
      (∀ p, r.B = some p → IsF64 p.TimeLeft → 0 ≤ p.TimeLeft →
        ∃ p1, r1.B = some p1 ∧ p1.ID = p.ID ∧ p1.TimeLeft ≤ p.TimeLeft ∧ 0 ≤ p1.TimeLeft)) ∧
    (∀ st pid x y out, deleteByHTTP r st pid x y = some out →
      (∀ p, r.A = some p → IsF64 p.TimeLeft → 0 ≤ p.TimeLeft →
        ∃ p1, out.room.A = some p1 ∧ p1.ID = p.ID ∧ p1.TimeLeft ≤ p.TimeLeft ∧
          0 ≤ p1.TimeLeft) ∧
      (∀ p, r.B = some p → IsF64 p.TimeLeft → 0 ≤ p.TimeLeft →
        ∃ p1, out.room.B = some p1 ∧ p1.ID = p.ID ∧ p1.TimeLeft ≤ p.TimeLeft ∧
          0 ≤ p1.TimeLeft)) := by
  refine ⟨?_, ?_, ?_⟩
  · intro p d hd hf h0
    have hd0 : 0 ≤ d := by
      rcases hd with rfl | rfl | rfl
      · exact dt_nonneg
      · norm_num
      · norm_num
    exact ⟨spend_le p d hf h0 hd0, spend_nonneg p d⟩
  · intro r1 msgs res ht
    obtain ⟨_, _, hA, hB, _⟩ := tick_spec r r1 msgs res ht
    constructor
    · intro p hp hf h0
      rw [hA]
      exact budget_after_tick r.A _ p hp hf h0
    · intro p hp hf h0
      rw [hB]
      exact budget_after_tick r.B _ p hp hf h0
  · intro st pid x y out hd
    rcases deleteByHTTP_room r st pid x y out hd with h | h
    · rw [h]
      exact ⟨fun p hp _ h0 => ⟨p, hp, rfl, le_refl _, h0⟩,
             fun p hp _ h0 => ⟨p, hp, rfl, le_refl _, h0⟩⟩
    · rw [h]
      exact ⟨fun p hp hf h0 => budget_after_penalty r.A pid p hp hf h0,
             fun p hp hf h0 => budget_after_penalty r.B pid p hp hf h0⟩

/-- C8, for the tick in which the monster of lane A of a room with budgets 300
and 2 escapes: the budget of slot A does not grow and stays at least 0. -/
theorem C8_time_budget_witness :
    tick (sampleRoom 300 2 [(1, sampleMonster 1 100 (511 / 512) false)] []) =
      some (tickResult (sampleRoom 300 2 [(1, sampleMonster 1 100 (511 / 512) false)] [])) ∧
    IsF64 300 ∧
    ∃ p1, (tickResult (sampleRoom 300 2 [(1, sampleMonster 1 100 (511 / 512) false)] [])).1.A
        = some p1 ∧ p1.ID = "alice" ∧ p1.TimeLeft ≤ 300 ∧ 0 ≤ p1.TimeLeft :=
  ⟨by decide!, by decide!,
   ((C8_time_budget (sampleRoom 300 2 [(1, sampleMonster 1 100 (511 / 512) false)] [])).2.1
      (tickResult (sampleRoom 300 2 [(1, sampleMonster 1 100 (511 / 512) false)] [])).1
      (tickResult (sampleRoom 300 2 [(1, sampleMonster 1 100 (511 / 512) false)] [])).2.1
      (tickResult (sampleRoom 300 2 [(1, sampleMonster 1 100 (511 / 512) false)] [])).2.2
      (by decide!)).1 ⟨"alice", 300⟩ rfl (by decide!) (by norm_num)⟩


/-! ## Inert monsters and progress -/

theorem hitMonster_some (m m1 : Monster) (mid : Int) (roll : Fin 11) (msgs : List Msg)
    (h : hitMonster m mid roll = some (m1, msgs)) :
    m.inert = false ∧ ∃ hp, m1 = { m with HP := hp } := by
  unfold hitMonster at h
  split at h
  · exact absurd h (by simp)
  · next hin =>
    simp only [Option.some.injEq, Prod.mk.injEq] at h
    exact ⟨by simpa using hin, _, h.1.symm⟩

/-- An attack on a lane changes at most the hit points of one live monster. -/
theorem attackIn_forall₂ (lane : Lane) (mid : Int) (roll : Fin 11) :
    List.Forall₂ (fun e e1 => e1 = e ∨ (e.2.inert = false ∧ ∃ hp, e1 = (e.1, { e.2 with HP := hp })))
      lane (attackIn lane mid roll).1 := by
  unfold attackIn
  split
  · exact List.forall₂_same.mpr fun _ _ => Or.inl rfl
  · next m hl =>
    split
    · exact List.forall₂_same.mpr fun _ _ => Or.inl rfl
    · next m1 msgs hh =>
      obtain ⟨hin, hp, hm1⟩ := hitMonster_some m m1 mid roll msgs hh
      refine (Lane.insert_forall₂ lane mid m m1 hl).imp ?_
      rintro e e1 (h | ⟨h1, h2⟩)
      · exact Or.inl h
      · subst h1 h2
        exact Or.inr ⟨hin, hp, by rw [hm1]⟩

theorem attackIn_inert_target (lane : Lane) (mid : Int) (roll : Fin 11) (m : Monster)
    (hl : lane.lookup mid = some m) (hin : m.inert = true) :
    attackIn lane mid roll = (lane, []) := by
  unfold attackIn
  rw [hl]
  simp only [hitMonster_dead m mid roll hin]

theorem handleAttack_lanes (r : Room) (pid : String) (mid uid : Int) (roll : Fin 11) :
    List.Forall₂ (fun e e1 => e1 = e ∨ (e.2.inert = false ∧ ∃ hp, e1 = (e.1, { e.2 with HP := hp })))
      r.MonstersA (handleAttack r pid mid uid roll).1.MonstersA ∧
    List.Forall₂ (fun e e1 => e1 = e ∨ (e.2.inert = false ∧ ∃ hp, e1 = (e.1, { e.2 with HP := hp })))
      r.MonstersB (handleAttack r pid mid uid roll).1.MonstersB := by
  have hsame : ∀ l : Lane, List.Forall₂
      (fun e e1 => e1 = e ∨ (e.2.inert = false ∧ ∃ hp, e1 = (e.1, { e.2 with HP := hp }))) l l :=
    fun l => List.forall₂_same.mpr fun _ _ => Or.inl rfl
  unfold handleAttack
  split
  · exact ⟨attackIn_forall₂ _ _ _, hsame _⟩
  · exact ⟨hsame _, attackIn_forall₂ _ _ _⟩
  · exact ⟨hsame _, hsame _⟩

theorem forall₂_map_right {α β : Type} (f : α → β) (l : List α) :
    List.Forall₂ (fun a b => b = f a) l (l.map f) := by
  induction l with
  | nil => exact List.Forall₂.nil
  | cons hd tl ih => exact List.Forall₂.cons rfl ih

/-- C4: a monster that is already escaped or at `HP ≤ 0` is inert.  A call of
`handleAttack` (any player id, any monster id, any random outcome) leaves every
such monster of both lanes unchanged, and emits nothing and changes nothing when
the monster it finds is such a monster; a tick of `runWaveLoop` leaves every such
monster of both lanes unchanged; and the loop body of the tick, run on such a
monster, changes neither the monster nor its owner and reports it in its terminal
form. -/
theorem C4_inert_monsters (r : Room) :
    (∀ pid mid uid roll,
      List.Forall₂ (fun e e1 => (e.2.Escaped = true ∨ e.2.HP ≤ 0) → e1 = e)
        r.MonstersA (handleAttack r pid mid uid roll).1.MonstersA ∧
      List.Forall₂ (fun e e1 => (e.2.Escaped = true ∨ e.2.HP ≤ 0) → e1 = e)
        r.MonstersB (handleAttack r pid mid uid roll).1.MonstersB) ∧
    (∀ pid mid uid roll m,
      ((attackLane r pid = some true ∧ r.MonstersA.lookup mid = some m) ∨
       (attackLane r pid = some false ∧ r.MonstersB.lookup mid = some m)) →
      (m.Escaped = true ∨ m.HP ≤ 0) → handleAttack r pid mid uid roll = (r, [])) ∧
    (∀ r1 msgs res, tick r = some (r1, msgs, res) →
      List.Forall₂ (fun e e1 => (e.2.Escaped = true ∨ e.2.HP ≤ 0) → e1 = e)
        r.MonstersA r1.MonstersA ∧
      List.Forall₂ (fun e e1 => (e.2.Escaped = true ∨ e.2.HP ≤ 0) → e1 = e)
        r.MonstersB r1.MonstersB) ∧
    (∀ (owner : Option Player) (m : Monster), (m.Escaped = true ∨ m.HP ≤ 0) →
      stepMonster owner m = some (owner, m, PosUpdate.terminal m.ID m.HP m.Escaped, false)) := by
  refine ⟨?_, ?_, ?_, ?_⟩
  · intro pid mid uid roll
    obtain ⟨hA, hB⟩ := handleAttack_lanes r pid mid uid roll
    have key : ∀ e e1 : Int × Monster,
        (e1 = e ∨ (e.2.inert = false ∧ ∃ hp, e1 = (e.1, { e.2 with HP := hp }))) →
        (e.2.Escaped = true ∨ e.2.HP ≤ 0) → e1 = e := by
      rintro e e1 (h | ⟨h, _⟩) hin
      · exact h
      · rw [(inert_true_iff e.2).mpr hin] at h
        exact absurd h (by simp)
    exact ⟨hA.imp key, hB.imp key⟩
  · rintro pid mid uid roll m (⟨hl, hm⟩ | ⟨hl, hm⟩) hin
    · rw [handleAttack_A r pid mid uid roll hl,
        attackIn_inert_target _ mid roll m hm ((inert_true_iff m).mpr hin)]
    · rw [handleAttack_B r pid mid uid roll hl,
        attackIn_inert_target _ mid roll m hm ((inert_true_iff m).mpr hin)]
  · intro r1 msgs res ht
    obtain ⟨hA, hB, _⟩ := tick_spec r r1 msgs res ht
    have key : ∀ e e1 : Int × Monster, e1 = (e.1, e.2.stepped) →
        (e.2.Escaped = true ∨ e.2.HP ≤ 0) → e1 = e := by
      intro e e1 h hin
      rw [h, stepped_of_inert e.2 ((inert_true_iff e.2).mpr hin)]
    rw [hA, hB]
    exact ⟨(forall₂_map_right _ _).imp key, (forall₂_map_right _ _).imp key⟩
  · intro owner m hin
    exact stepMonster_inert owner m ((inert_true_iff m).mpr hin)

/-- C4, for an attack on the dead monster 2 of lane A: nothing changes and
nothing is emitted. -/
theorem C4_inert_monsters_witness :
    (sampleMonster 2 0 (1 / 2) false).HP ≤ 0 ∧
    handleAttack (sampleRoom 300 300
        [(1, sampleMonster 1 100 0 false), (2, sampleMonster 2 0 (1 / 2) false)] []) "alice" 2 0 4
      = (sampleRoom 300 300
        [(1, sampleMonster 1 100 0 false), (2, sampleMonster 2 0 (1 / 2) false)] [], []) :=
  ⟨by decide,
   (C4_inert_monsters (sampleRoom 300 300
        [(1, sampleMonster 1 100 0 false), (2, sampleMonster 2 0 (1 / 2) false)] [])).2.1
      "alice" 2 0 4 (sampleMonster 2 0 (1 / 2) false) (Or.inl ⟨by decide, by decide!⟩)
      (Or.inr (by decide))⟩

/-- C9: for every monster whose `Progress` is a binary64 value in `[0, 1]`, after
a tick of `runWaveLoop` its `Progress` is at least its previous value and at most
1, and a call of `handleAttack` leaves the `Progress` of every monster unchanged
(the lanes keep their monsters in place, under the same keys). -/
theorem C9_progress_monotone (r : Room) :
    (∀ r1 msgs res, tick r = some (r1, msgs, res) →
      List.Forall₂ (fun e e1 => e1.1 = e.1 ∧
          (IsF64 e.2.Progress → 0 ≤ e.2.Progress → e.2.Progress ≤ 1 →
            e.2.Progress ≤ e1.2.Progress ∧ e1.2.Progress ≤ 1))
        r.MonstersA r1.MonstersA ∧
      List.Forall₂ (fun e e1 => e1.1 = e.1 ∧
          (IsF64 e.2.Progress → 0 ≤ e.2.Progress → e.2.Progress ≤ 1 →
            e.2.Progress ≤ e1.2.Progress ∧ e1.2.Progress ≤ 1))
        r.MonstersB r1.MonstersB) ∧
    (∀ pid mid uid roll,
      List.Forall₂ (fun e e1 => e1.1 = e.1 ∧ e1.2.Progress = e.2.Progress)
        r.MonstersA (handleAttack r pid mid uid roll).1.MonstersA ∧
      List.Forall₂ (fun e e1 => e1.1 = e.1 ∧ e1.2.Progress = e.2.Progress)
        r.MonstersB (handleAttack r pid mid uid roll).1.MonstersB) := by
  constructor
  · intro r1 msgs res ht
    obtain ⟨hA, hB, _⟩ := tick_spec r r1 msgs res ht
    have key : ∀ e e1 : Int × Monster, e1 = (e.1, e.2.stepped) →
        e1.1 = e.1 ∧ (IsF64 e.2.Progress → 0 ≤ e.2.Progress → e.2.Progress ≤ 1 →
          e.2.Progress ≤ e1.2.Progress ∧ e1.2.Progress ≤ 1) := by
      intro e e1 h
      rw [h]
      exact ⟨rfl, fun hf h0 h1 => stepped_progress e.2 hf h0 h1⟩
    rw [hA, hB]
    exact ⟨(forall₂_map_right _ _).imp key, (forall₂_map_right _ _).imp key⟩
  · intro pid mid uid roll
    obtain ⟨hA, hB⟩ := handleAttack_lanes r pid mid uid roll
    have key : ∀ e e1 : Int × Monster,
        (e1 = e ∨ (e.2.inert = false ∧ ∃ hp, e1 = (e.1, { e.2 with HP := hp }))) →
        e1.1 = e.1 ∧ e1.2.Progress = e.2.Progress := by
      rintro e e1 (h | ⟨_, hp, h⟩)
      · rw [h]; exact ⟨rfl, rfl⟩
      · rw [h]; exact ⟨rfl, rfl⟩
    exact ⟨hA.imp key, hB.imp key⟩


/-- C9, for a tick of a room whose monster of lane A is half way. -/
theorem C9_progress_monotone_witness :
    tick (sampleRoom 300 300 [(1, sampleMonster 1 100 (1 / 2) false)] []) =
      some (tickResult (sampleRoom 300 300 [(1, sampleMonster 1 100 (1 / 2) false)] [])) ∧
    IsF64 (1 / 2) ∧
    List.Forall₂ (fun e e1 => e1.1 = e.1 ∧
        (IsF64 e.2.Progress → 0 ≤ e.2.Progress → e.2.Progress ≤ 1 →
          e.2.Progress ≤ e1.2.Progress ∧ e1.2.Progress ≤ 1))
      [(1, sampleMonster 1 100 (1 / 2) false)]
      (tickResult (sampleRoom 300 300 [(1, sampleMonster 1 100 (1 / 2) false)] [])).1.MonstersA :=
  ⟨by decide!, by decide!,
   ((C9_progress_monotone (sampleRoom 300 300 [(1, sampleMonster 1 100 (1 / 2) false)] [])).1
      (tickResult (sampleRoom 300 300 [(1, sampleMonster 1 100 (1 / 2) false)] [])).1
      (tickResult (sampleRoom 300 300 [(1, sampleMonster 1 100 (1 / 2) false)] [])).2.1
      (tickResult (sampleRoom 300 300 [(1, sampleMonster 1 100 (1 / 2) false)] [])).2.2
      (by decide!)).1⟩

/-! ## The tick does not panic on walkable monsters -/

theorem waypointIndex_bounds (p : ℚ) (len : Nat) (h0 : 0 ≤ p) (h1 : p ≤ 1)
    (hl1 : 1 ≤ len) (hl2 : len < 2 ^ 53) :
    0 ≤ waypointIndex p len ∧ waypointIndex p len ≤ (len : Int) - 1 := by
  have hL : f64 ((len : ℚ) - 1) = (len : ℚ) - 1 := by
    have h := isF64_intCast ((len : Int) - 1) (by
      rw [abs_of_nonneg (by omega)]
      have : (len : Int) < 2 ^ 53 := by exact_mod_cast hl2
      omega)
    unfold IsF64 at h
    push_cast at h
    exact h
  have hLpos : (0 : ℚ) ≤ (len : ℚ) - 1 := by
    have : (1 : ℚ) ≤ len := by exact_mod_cast hl1
    linarith
  unfold waypointIndex
  rw [hL]
  have hx0 : 0 ≤ f64 (p * ((len : ℚ) - 1)) := f64_nonneg (mul_nonneg h0 hLpos)
  have hx1 : f64 (p * ((len : ℚ) - 1)) ≤ (len : ℚ) - 1 := by
    have := f64_mono hLpos (show p * ((len : ℚ) - 1) ≤ (len : ℚ) - 1 by nlinarith)
    rwa [hL] at this
  constructor
  · exact Int.floor_nonneg.mpr hx0
  · have h2 : ((⌊f64 (p * ((len : ℚ) - 1))⌋ : Int) : ℚ) ≤ (((len : Int) - 1 : Int) : ℚ) := by
      push_cast
      exact le_trans (Int.floor_le _) hx1
    exact_mod_cast h2

theorem stepMonster_succeeds (o : Option Player) (m : Monster) (hw : m.walkable) :
    ∃ out, stepMonster o m = some out := by
  obtain ⟨h0, hl1, hl2⟩ := hw
  cases hin : m.inert with
  | true => exact ⟨_, stepMonster_inert o m hin⟩
  | false =>
    obtain ⟨hi0, hi1⟩ := waypointIndex_bounds (advance m.Progress) m.Path.length
      (advance_nonneg _ h0) (advance_le_one _) hl1 hl2
    have hlt : (waypointIndex (advance m.Progress) m.Path.length).toNat < m.Path.length := by
      omega
    unfold stepMonster
    rw [if_neg (by simp [hin])]
    simp only []
    rw [if_neg (by omega), List.get?_eq_get hlt]
    simp only []
    split <;> exact ⟨_, rfl⟩

theorem tickLane_succeeds : ∀ (lane : Lane) (o : Option Player),
    (∀ e ∈ lane, e.2.walkable) → ∃ out, tickLane o lane = some out := by
  intro lane
  induction lane with
  | nil => intro o _; exact ⟨_, rfl⟩
  | cons hd tl ih =>
    intro o h
    obtain ⟨k, m⟩ := hd
    obtain ⟨⟨o1, m1, e, c⟩, hs⟩ := stepMonster_succeeds o m (h (k, m) (List.mem_cons_self _ _))
    obtain ⟨⟨o2, l2, es, all⟩, ht⟩ := ih o1 (fun e he => h e (List.mem_cons_of_mem _ he))
    unfold tickLane
    simp only [hs, ht]
    exact ⟨_, rfl⟩

/-- The body of the wave loop does not panic when every monster has a
non-negative progress and a non-empty path. -/
theorem tick_succeeds (r : Room) (h : ∀ e ∈ r.MonstersA ++ r.MonstersB, e.2.walkable) :
    ∃ out, tick r = some out := by
  obtain ⟨⟨a2, la, pa, alla⟩, hA⟩ := tickLane_succeeds r.MonstersA (r.A.map fun p => p.spend dt)
    (fun e he => h e (List.mem_append_left _ he))
  obtain ⟨⟨b2, lb, pb, allb⟩, hB⟩ := tickLane_succeeds r.MonstersB (r.B.map fun p => p.spend dt)
    (fun e he => h e (List.mem_append_right _ he))
  unfold tick
  simp only [hA, hB]
  exact ⟨_, rfl⟩


/-! ## Escapes -/

theorem forall₂_get? {α β : Type} {R : α → β → Prop} {l : List α} {l1 : List β}
    (h : List.Forall₂ R l l1) : ∀ (i : Nat) (e : α), l.get? i = some e →
    ∃ e1, l1.get? i = some e1 ∧ R e e1 := by
  induction h with
  | nil => intro i e he; simp at he
  | cons hr _ ih =>
    intro i e he
    cases i with
    | zero =>
      simp only [List.get?_cons_zero, Option.some.injEq] at he
      subst he
      exact ⟨_, rfl, hr⟩
    | succ i =>
      simp only [List.get?_cons_succ] at he
      simpa using ih i e he

/-- An operation leaves an escaped monster in place and keeps the size of
lane A. -/
theorem apply_keeps_escaped (r r1 : Room) (op : Op) (h : op.apply r = some r1)
    (a : Bool) (i : Nat) (k : Int) (m : Monster) (hi : (r.lane a).get? i = some (k, m))
    (he : m.Escaped = true) :
    (r1.lane a).get? i = some (k, m) ∧ r1.MonstersA.length = r.MonstersA.length := by
  have hin : m.inert = true := (inert_true_iff m).mpr (Or.inl he)
  cases op with
  | tick =>
    simp only [Op.apply, Option.map_eq_some'] at h
    obtain ⟨⟨r2, msgs, res⟩, ht, rfl⟩ := h
    obtain ⟨hA, hB, _⟩ := tick_spec r r2 msgs res ht
    constructor
    · cases a with
      | true =>
        simp only [Room.lane, if_true] at hi ⊢
        rw [hA, List.get?_eq_getElem?, List.getElem?_map, ← List.get?_eq_getElem?, hi]
        simp [stepped_of_inert m hin]
      | false =>
        simp only [Room.lane, Bool.false_eq_true, if_false] at hi ⊢
        rw [hB, List.get?_eq_getElem?, List.getElem?_map, ← List.get?_eq_getElem?, hi]
        simp [stepped_of_inert m hin]
    · simp only []
      rw [hA, List.length_map]
  | attack pid mid uid roll =>
    simp only [Op.apply, Option.some.injEq] at h
    subst h
    obtain ⟨hA, hB⟩ := handleAttack_lanes r pid mid uid roll
    have key : ∀ e1 : Int × Monster,
        (e1 = (k, m) ∨ (m.inert = false ∧ ∃ hp, e1 = (k, { m with HP := hp }))) →
        e1 = (k, m) := by
      rintro e1 (h1 | ⟨h1, _⟩)
      · exact h1
      · rw [hin] at h1; exact absurd h1 (by simp)
    constructor
    · cases a with
      | true =>
        simp only [Room.lane, if_true] at hi ⊢
        obtain ⟨e1, h1, h2⟩ := forall₂_get? hA i (k, m) hi
        rw [h1, key e1 h2]
      | false =>
        simp only [Room.lane, Bool.false_eq_true, if_false] at hi ⊢
        obtain ⟨e1, h1, h2⟩ := forall₂_get? hB i (k, m) hi
        rw [h1, key e1 h2]
    · exact hA.length_eq.symm

theorem runOps_keeps_escaped : ∀ (ops : List Op) (r r1 : Room), runOps r ops = some r1 →
    ∀ (a : Bool) (i : Nat) (k : Int) (m : Monster), (r.lane a).get? i = some (k, m) →
    m.Escaped = true →
    (r1.lane a).get? i = some (k, m) ∧ r1.MonstersA.length = r.MonstersA.length := by
  intro ops
  induction ops with
  | nil =>
    intro r r1 h a i k m hi _
    simp only [runOps, Option.some.injEq] at h
    subst h
    exact ⟨hi, rfl⟩
  | cons op ops ih =>
    intro r r1 h a i k m hi he
    unfold runOps at h
    split at h
    · exact absurd h (by simp)
    · next r2 hop =>
      obtain ⟨h1, h2⟩ := apply_keeps_escaped r r2 op hop a i k m hi he
      obtain ⟨h3, h4⟩ := ih r2 r1 h a i k m h1 he
      exact ⟨h3, by rw [h4, h2]⟩

/-- A tick reports an escaped monster in its terminal form, at the position of
the monster in the concatenation of the two lanes. -/
theorem tick_reports_escaped (r r1 : Room) (msgs : List Msg) (res : Bool)
    (ht : tick r = some (r1, msgs, res)) (a : Bool) (i : Nat) (k : Int) (m : Monster)
    (hi : (r.lane a).get? i = some (k, m)) (he : m.Escaped = true) :
    ∃ ta tb pos, msgs = [Msg.timer ta tb, Msg.monster_positions pos] ∧
      pos.get? (if a then i else r.MonstersA.length + i) =
        some (PosUpdate.terminal m.ID m.HP true) := by
  have hin : m.inert = true := (inert_true_iff m).mpr (Or.inl he)
  obtain ⟨_, _, _, _, _, _, posA, posB, hm, fA, fB⟩ := tick_spec r r1 msgs res ht
  refine ⟨_, _, posA ++ posB, hm, ?_⟩
  cases a with
  | true =>
    simp only [Room.lane, if_true] at hi ⊢
    obtain ⟨u, h1, h2, _⟩ := forall₂_get? fA i (k, m) hi
    have hlt : i < posA.length := by
      rw [List.get?_eq_getElem?] at h1
      exact (List.getElem?_eq_some_iff.mp h1).1
    rw [List.get?_eq_getElem?, List.getElem?_append_left hlt, ← List.get?_eq_getElem?, h1,
      h2 hin, he]
  | false =>
    simp only [Room.lane, Bool.false_eq_true, if_false] at hi ⊢
    obtain ⟨u, h1, h2, _⟩ := forall₂_get? fB i (k, m) hi
    have hlen : posA.length = r.MonstersA.length := fA.length_eq.symm
    rw [List.get?_eq_getElem?, List.getElem?_append_right (by omega), ← hlen,
      Nat.add_sub_cancel_left, ← List.get?_eq_getElem?, h1, h2 hin, he]

theorem charges_of_zero (n : Nat) : ∀ q : Player, q.TimeLeft = 0 →
    timeOf (Nat.iterate (Option.map fun q => q.spend 1) n (some q)) = 0 := by
  induction n with
  | zero => intro q h0; simpa [timeOf] using h0
  | succ n ih =>
    intro q h0
    rw [Function.iterate_succ_apply]
    exact ih (q.spend 1) (spend_one_floor q (by rw [h0]; norm_num))

theorem charges_zero (n : Nat) (p : Player) (h : p.TimeLeft ≤ 1) (hn : 1 ≤ n) :
    timeOf (Nat.iterate (Option.map fun q => q.spend 1) n (some p)) = 0 := by
  obtain ⟨n, rfl⟩ : ∃ j, n = j + 1 := ⟨n - 1, by omega⟩
  rw [Function.iterate_succ_apply]
  exact charges_of_zero n (p.spend 1) (spend_one_floor p h)


/-- C10 (as stated, refuted): in a room whose player A has half a second left, the
monster of lane A (progress `511/512`) reaches progress 1 and is marked escaped
on this tick, but the escape takes less than 1 second from the budget of player
A: the budget is below 1/2 after the regular decrement and is floored at 0. -/
theorem C10_counterexample :
    tick (sampleRoom (1 / 2) 100 [(1, sampleMonster 1 100 (511 / 512) false)] []) =
      some (tickResult (sampleRoom (1 / 2) 100 [(1, sampleMonster 1 100 (511 / 512) false)] [])) ∧
    ((tickResult (sampleRoom (1 / 2) 100
        [(1, sampleMonster 1 100 (511 / 512) false)] [])).1.MonstersA.lookup 1).map
      (fun m => (m.Progress, m.Escaped)) = some (1, true) ∧
    timeOf (tickResult (sampleRoom (1 / 2) 100
      [(1, sampleMonster 1 100 (511 / 512) false)] [])).1.A = 0 ∧
    timeOf ((sampleRoom (1 / 2) 100 [(1, sampleMonster 1 100 (511 / 512) false)] []).A.map
        fun p => p.spend dt) -
      timeOf (tickResult (sampleRoom (1 / 2) 100
        [(1, sampleMonster 1 100 (511 / 512) false)] [])).1.A < 1 / 2 := by
  decide!

/-- C10 (amended): when the progress of a live monster reaches 1.0 on a tick, that
tick sets its `Progress` to 1 and its `Escaped` flag to true; the owner of the
lane, when present, is charged the regular tick decrement and then 1 second for
each monster of the lane that escapes on this tick, every charge floored at 0: one
escape takes exactly 1 second from what the decrement left when at least 1 second
was left, and the budget ends at 0 when at most 1 second was left; and in every
later tick, after any interleaving of ticks and attacks, the entry of the monster
in `monster_positions` is the terminal form with `id`, `hp` and `escaped = true`,
without coordinates or progress. -/
theorem C10_escape (r r1 : Room) (msgs : List Msg) (res : Bool) (a : Bool) (i : Nat)
    (k : Int) (m : Monster)
    (ht : tick r = some (r1, msgs, res))
    (hi : (r.lane a).get? i = some (k, m))
    (hlive : m.Escaped = false ∧ 0 < m.HP)
    (hp : advance m.Progress = 1) :
    (r1.lane a).get? i = some (k, { m with Progress := 1, Escaped := true }) ∧
    1 ≤ (r.lane a).countP (fun e => e.2.escapesNow) ∧
    r1.owner a = Nat.iterate (Option.map fun p => p.spend 1)
      ((r.lane a).countP fun e => e.2.escapesNow) ((r.owner a).map fun p => p.spend dt) ∧
    (∀ p, r.owner a = some p → (r.lane a).countP (fun e => e.2.escapesNow) = 1 →
      1 ≤ (p.spend dt).TimeLeft → (p.spend dt).TimeLeft < 2 ^ 53 →
      r1.owner a = some { ID := p.ID, TimeLeft := (p.spend dt).TimeLeft - 1 }) ∧
    (∀ p, r.owner a = some p → (p.spend dt).TimeLeft ≤ 1 → timeOf (r1.owner a) = 0) ∧
    (∀ ops r2 r3 msgs2 res2, runOps r1 ops = some r2 → tick r2 = some (r3, msgs2, res2) →
      ∃ ta tb pos, msgs2 = [Msg.timer ta tb, Msg.monster_positions pos] ∧
        pos.get? (if a then i else r.MonstersA.length + i) =
          some (PosUpdate.terminal m.ID m.HP true)) := by
  have hin : m.inert = false := (inert_false_iff m).mpr hlive
  have hesc : m.escapesNow = true := by
    simp [Monster.escapesNow, hin, hp]
  have hstep : m.stepped = { m with Progress := 1, Escaped := true } := by
    unfold Monster.stepped
    simp [hin, hp]
  obtain ⟨hA, hB, oA, oB, _⟩ := tick_spec r r1 msgs res ht
  have hlane : r1.lane a = (r.lane a).map (fun e => (e.1, e.2.stepped)) := by
    cases a with
    | true => simpa [Room.lane] using hA
    | false => simpa [Room.lane] using hB
  have howner : r1.owner a = Nat.iterate (Option.map fun p => p.spend 1)
      ((r.lane a).countP fun e => e.2.escapesNow) ((r.owner a).map fun p => p.spend dt) := by
    cases a with
    | true => simpa [Room.lane, Room.owner] using oA
    | false => simpa [Room.lane, Room.owner] using oB
  have hcount : 1 ≤ (r.lane a).countP (fun e => e.2.escapesNow) := by
    have hmem : (k, m) ∈ r.lane a := List.get?_mem hi
    exact List.countP_pos_iff.mpr ⟨(k, m), hmem, hesc⟩
  have hnew : (r1.lane a).get? i = some (k, { m with Progress := 1, Escaped := true }) := by
    rw [hlane, List.get?_eq_getElem?, List.getElem?_map, ← List.get?_eq_getElem?, hi]
    simp [hstep]
  have hlen : r1.MonstersA.length = r.MonstersA.length := by rw [hA, List.length_map]
  refine ⟨hnew, hcount, howner, ?_, ?_, ?_⟩
  · intro p hp1 hc h1 h2
    rw [howner, hc, hp1]
    simp only [Option.map_some', Function.iterate_one]
    have := spend_one_exact (p.spend dt) (spend_isF64 p dt) h1 h2
    rw [← this]
    rfl
  · intro p hp1 h1
    rw [howner, hp1]
    exact charges_zero _ (p.spend dt) h1 hcount
  · intro ops r2 r3 msgs2 res2 hops ht2
    obtain ⟨h1, h2⟩ := runOps_keeps_escaped ops r1 r2 hops a i k
      { m with Progress := 1, Escaped := true } hnew rfl
    have := tick_reports_escaped r2 r3 msgs2 res2 ht2 a i k
      { m with Progress := 1, Escaped := true } h1 rfl
    rw [h2, hlen] at this
    exact this

/-- C10 (amended), for the tick in which the monster of lane A of a room with
budgets 300 escapes. -/
theorem C10_escape_witness :
    tick (sampleRoom 300 300 [(1, sampleMonster 1 100 (511 / 512) false)] []) =
      some (tickResult (sampleRoom 300 300 [(1, sampleMonster 1 100 (511 / 512) false)] [])) ∧
    advance (sampleMonster 1 100 (511 / 512) false).Progress = 1 ∧
    (tickResult (sampleRoom 300 300
        [(1, sampleMonster 1 100 (511 / 512) false)] [])).1.MonstersA.get? 0 =
      some (1, sampleMonster 1 100 1 true) :=
  ⟨by decide!, by decide!,
   (C10_escape (sampleRoom 300 300 [(1, sampleMonster 1 100 (511 / 512) false)] [])
      (tickResult (sampleRoom 300 300 [(1, sampleMonster 1 100 (511 / 512) false)] [])).1
      (tickResult (sampleRoom 300 300 [(1, sampleMonster 1 100 (511 / 512) false)] [])).2.1
      (tickResult (sampleRoom 300 300 [(1, sampleMonster 1 100 (511 / 512) false)] [])).2.2
      true 0 1 (sampleMonster 1 100 (511 / 512) false)
      (by decide!) rfl ⟨rfl, by decide⟩ (by decide!)).1⟩

/-! ## The path of every room -/

/-- C20: for the corners every room is created with, the path of `generatePath`
is a closed walk on the 6x6 grid: it has 24 waypoints, all with both coordinates
in `0..5`, it starts at `(0,0)`, and every waypoint and its cyclic successor
(the last one followed by the first) are identical or differ by exactly 1 in
exactly one coordinate. -/
theorem C20_closed_walk :
    (generatePath roomCorners).length = 24 ∧
    (∀ p ∈ generatePath roomCorners, 0 ≤ p.X ∧ p.X ≤ 5 ∧ 0 ≤ p.Y ∧ p.Y ≤ 5) ∧
    (generatePath roomCorners).get? 0 = some ⟨0, 0⟩ ∧
    (∀ pq ∈ (generatePath roomCorners).zip ((generatePath roomCorners).rotate 1),
      pq.1 = pq.2 ∨
      (pq.2.X = pq.1.X ∧ (pq.2.Y - pq.1.Y).natAbs = 1) ∨
      ((pq.2.X - pq.1.X).natAbs = 1 ∧ pq.2.Y = pq.1.Y)) ∧
    ((generatePath roomCorners).zip ((generatePath roomCorners).rotate 1)).length = 24 ∧
    ((generatePath roomCorners).zip ((generatePath roomCorners).rotate 1)).get? 23 =
      some (⟨1, 0⟩, ⟨0, 0⟩) := by
  decide

/-! ## Independence of the lanes -/

/-- C12: a lane's monsters affect only the time budget of its owner.  For two
rooms that differ only in `MonstersA`, a tick yields the same player B (so the
same `TimeLeft`) and the same lane B; for two rooms that differ only in
`MonstersB`, a tick yields the same player A and the same lane A. -/
theorem C12_lane_isolation (r : Room) (lane : Lane) (r1 r2 : Room) (msgs1 msgs2 : List Msg)
    (res1 res2 : Bool) (h1 : tick r = some (r1, msgs1, res1)) :
    (tick { r with MonstersA := lane } = some (r2, msgs2, res2) →
      r2.B = r1.B ∧ timeOf r2.B = timeOf r1.B ∧ r2.MonstersB = r1.MonstersB) ∧
    (tick { r with MonstersB := lane } = some (r2, msgs2, res2) →
      r2.A = r1.A ∧ timeOf r2.A = timeOf r1.A ∧ r2.MonstersA = r1.MonstersA) := by
  obtain ⟨a1, b1, a2, b2, _⟩ := tick_spec r r1 msgs1 res1 h1
  constructor
  · intro h2
    obtain ⟨_, d1, _, d2, _⟩ := tick_spec _ r2 msgs2 res2 h2
    simp only [] at d1 d2
    have hB : r2.B = r1.B := by rw [d2, b2]
    exact ⟨hB, by rw [hB], by rw [d1, b1]⟩
  · intro h2
    obtain ⟨c1, _, c2, _, _⟩ := tick_spec _ r2 msgs2 res2 h2
    simp only [] at c1 c2
    have hA : r2.A = r1.A := by rw [c2, a2]
    exact ⟨hA, by rw [hA], by rw [c1, a1]⟩

/-- C12, for a room with budgets 300 whose lane A is replaced by a lane with a
monster that escapes on this tick: player B ends the tick with the same budget. -/
theorem C12_lane_isolation_witness :
    tick (sampleRoom 300 300 [(1, sampleMonster 1 100 0 false)] [(2, sampleMonster 2 100 0 false)])
      = some (tickResult (sampleRoom 300 300 [(1, sampleMonster 1 100 0 false)]
          [(2, sampleMonster 2 100 0 false)])) ∧
    timeOf (tickResult (sampleRoom 300 300 [(3, sampleMonster 3 100 (511 / 512) false)]
        [(2, sampleMonster 2 100 0 false)])).1.B =
      timeOf (tickResult (sampleRoom 300 300 [(1, sampleMonster 1 100 0 false)]
        [(2, sampleMonster 2 100 0 false)])).1.B :=
  ⟨by decide!,
   ((C12_lane_isolation
      (sampleRoom 300 300 [(1, sampleMonster 1 100 0 false)] [(2, sampleMonster 2 100 0 false)])
      [(3, sampleMonster 3 100 (511 / 512) false)]
      (tickResult (sampleRoom 300 300 [(1, sampleMonster 1 100 0 false)]
        [(2, sampleMonster 2 100 0 false)])).1
      (tickResult (sampleRoom 300 300 [(3, sampleMonster 3 100 (511 / 512) false)]
        [(2, sampleMonster 2 100 0 false)])).1
      (tickResult (sampleRoom 300 300 [(1, sampleMonster 1 100 0 false)]
        [(2, sampleMonster 2 100 0 false)])).2.1
      (tickResult (sampleRoom 300 300 [(3, sampleMonster 3 100 (511 / 512) false)]
        [(2, sampleMonster 2 100 0 false)])).2.1
      (tickResult (sampleRoom 300 300 [(1, sampleMonster 1 100 0 false)]
        [(2, sampleMonster 2 100 0 false)])).2.2
      (tickResult (sampleRoom 300 300 [(3, sampleMonster 3 100 (511 / 512) false)]
        [(2, sampleMonster 2 100 0 false)])).2.2
      (by decide!)).1 (by decide!)).2.1⟩

/-! ## The waypoint lookup -/

/-- A binary64 value below 1 is at most `1 - 2^-53`. -/
theorem isF64_lt_one {p : ℚ} (hf : IsF64 p) (h1 : p < 1) : p ≤ 1 - 1 / 2 ^ 53 := by
  rcases lt_or_le p (1 / 2) with hlt | hge
  · have : (1 : ℚ) / 2 ≤ 1 - 1 / 2 ^ 53 := by norm_num
    linarith
  have hpos : 0 < p := by linarith
  obtain ⟨ha, hb⟩ := ilog2_bounds p hpos.ne'
  rw [abs_of_pos hpos] at ha hb
  have he1 : ilog2 p < 0 := by
    have : (2 : ℚ) ^ ilog2 p < 2 ^ (0 : Int) := by
      rw [zpow_zero]; exact lt_of_le_of_lt ha h1
    exact (zpow_lt_zpow_iff_right₀ (by norm_num : (1 : ℚ) < 2)).mp this
  have he2 : -1 < ilog2 p + 1 := by
    have : (2 : ℚ) ^ (-1 : Int) < 2 ^ (ilog2 p + 1) := by
      refine lt_of_le_of_lt ?_ hb
      rw [zpow_neg_one]
      linarith
    exact (zpow_lt_zpow_iff_right₀ (by norm_num : (1 : ℚ) < 2)).mp this
  have hu : ulpExp p = -53 := by unfold ulpExp; omega
  have hM : p = (roundEven (p / pow2 (ulpExp p)) : ℚ) * 2 ^ (-53 : Int) := by
    have := hf
    unfold IsF64 f64 at this
    rw [pow2_eq] at this
    rw [hu] at this
    rw [hu, pow2_eq]
    exact this.symm
  generalize roundEven (p / pow2 (ulpExp p)) = M at hM
  have h53 : (2 : ℚ) ^ (-53 : Int) = 1 / 2 ^ 53 := by
    rw [zpow_neg]; norm_num
  rw [h53] at hM
  have hMlt : (M : ℚ) < 2 ^ 53 := by
    have : (M : ℚ) * (1 / 2 ^ 53) < 1 := by rw [← hM]; exact h1
    have h2 : (0 : ℚ) < 2 ^ 53 := by positivity
    calc (M : ℚ) = (M : ℚ) * (1 / 2 ^ 53) * 2 ^ 53 := by field_simp
      _ < 1 * 2 ^ 53 := by exact mul_lt_mul_of_pos_right this h2
      _ = 2 ^ 53 := by ring
  have hMle : M ≤ 2 ^ 53 - 1 := by
    have : M < 2 ^ 53 := by exact_mod_cast hMlt
    omega
  have hMle' : (M : ℚ) ≤ 2 ^ 53 - 1 := by exact_mod_cast hMle
  rw [hM]
  have h2 : (0 : ℚ) < 1 / 2 ^ 53 := by positivity
  calc (M : ℚ) * (1 / 2 ^ 53) ≤ (2 ^ 53 - 1) * (1 / 2 ^ 53) :=
        mul_le_mul_of_nonneg_right hMle' h2.le
    _ = 1 - 1 / 2 ^ 53 := by field_simp

theorem f64_23 : f64 ((24 : Nat) - 1 : ℚ) = 23 := by decide!

theorem waypoint_below_last : f64 ((1 - 1 / 2 ^ 53) * 23) < 23 := by decide!

theorem waypointIndex_one : waypointIndex 1 24 = 23 := by decide!

/-- C18: the waypoint lookup of the tick never goes out of bounds.  For every path
returned by `generatePath` (24 waypoints) and every binary64 progress `p` with
`0 ≤ p ≤ 1`, the index `⌊p * (len(path) - 1)⌋` lies in `0..23`, so `Path[idx]` is
defined, and the index is 23 exactly when `p = 1`. -/
theorem C18_waypoint_in_bounds (c : Fin 4 → Pos) (p : ℚ) (hf : IsF64 p) (h0 : 0 ≤ p)
    (h1 : p ≤ 1) :
    (generatePath c).length = 24 ∧
    0 ≤ waypointIndex p (generatePath c).length ∧
    waypointIndex p (generatePath c).length ≤ 23 ∧
    (∃ pos, (generatePath c).get? (waypointIndex p (generatePath c).length).toNat = some pos) ∧
    (waypointIndex p (generatePath c).length = 23 ↔ p = 1) := by
  have hlen := generatePath_length c
  obtain ⟨hi0, hi1⟩ := waypointIndex_bounds p (generatePath c).length h0 h1
    (by rw [hlen]; norm_num) (by rw [hlen]; norm_num)
  rw [hlen] at hi0 hi1 ⊢
  refine ⟨rfl, hi0, by omega, ?_, ?_⟩
  · have hlt : (waypointIndex p 24).toNat < (generatePath c).length := by rw [hlen]; omega
    exact ⟨_, List.get?_eq_get hlt⟩
  · constructor
    · intro h23
      by_contra hne
      have hlt : p < 1 := lt_of_le_of_ne h1 hne
      have hle := isF64_lt_one hf hlt
      have hmono := f64_mono (show (0 : ℚ) ≤ (1 - 1 / 2 ^ 53) * 23 by norm_num)
        (show p * 23 ≤ (1 - 1 / 2 ^ 53) * 23 by linarith)
      have hx : f64 (p * 23) < 23 := lt_of_le_of_lt hmono waypoint_below_last
      have hfl : waypointIndex p 24 < 23 := by
        unfold waypointIndex
        rw [f64_23]
        exact Int.floor_lt.mpr (by exact_mod_cast hx)
      omega
    · rintro rfl
      exact waypointIndex_one

/-- C18, for the path of every room and progress one half. -/
theorem C18_waypoint_in_bounds_witness :
    IsF64 (1 / 2) ∧ waypointIndex (1 / 2) (generatePath roomCorners).length ≤ 23 :=
  ⟨by decide!, (C18_waypoint_in_bounds roomCorners (1 / 2) (by decide!) (by norm_num)
    (by norm_num)).2.2.1⟩

/-! ## Common progress of the live monsters -/

theorem forall₂_mem_right {α β : Type} {R : α → β → Prop} {l : List α} {l1 : List β}
    (h : List.Forall₂ R l l1) : ∀ b ∈ l1, ∃ a ∈ l, R a b := by
  induction h with
  | nil => intro b hb; simp at hb
  | cons hr _ ih =>
    intro b hb
    rcases List.mem_cons.mp hb with rfl | hb
    · exact ⟨_, List.mem_cons_self _ _, hr⟩
    · obtain ⟨a, ha, hab⟩ := ih b hb
      exact ⟨a, List.mem_cons_of_mem _ ha, hab⟩

theorem commonProgress_apply (r r1 : Room) (op : Op) (h : op.apply r = some r1)
    (hinv : CommonProgress r) : CommonProgress r1 := by
  obtain ⟨p, hp⟩ := hinv
  cases op with
  | tick =>
    simp only [Op.apply, Option.map_eq_some'] at h
    obtain ⟨⟨r2, msgs, res⟩, ht, rfl⟩ := h
    obtain ⟨hA, hB, _⟩ := tick_spec r r2 msgs res ht
    refine ⟨advance p, ?_⟩
    intro e1 he1 hlive
    simp only [] at he1
    rw [hA, hB, ← List.map_append, List.mem_map] at he1
    obtain ⟨e, he, rfl⟩ := he1
    simp only [] at hlive ⊢
    cases hin : e.2.inert with
    | true =>
      rw [stepped_of_inert e.2 hin, hin] at hlive
      exact absurd hlive (by simp)
    | false =>
      unfold Monster.stepped
      simp only [hin, Bool.false_eq_true, if_false]
      rw [hp e he hin]
  | attack pid mid uid roll =>
    simp only [Op.apply, Option.some.injEq] at h
    subst h
    obtain ⟨hA, hB⟩ := handleAttack_lanes r pid mid uid roll
    refine ⟨p, ?_⟩
    intro e1 he1 hlive
    have key : ∀ (l l1 : Lane), List.Forall₂ (fun e e1 => e1 = e ∨
        (e.2.inert = false ∧ ∃ hp, e1 = (e.1, { e.2 with HP := hp }))) l l1 →
        (∀ e ∈ l, e ∈ r.MonstersA ++ r.MonstersB) → e1 ∈ l1 → e1.2.Progress = p := by
      intro l l1 hf hsub hmem
      obtain ⟨e, he, hrel⟩ := forall₂_mem_right hf e1 hmem
      rcases hrel with rfl | ⟨hin, hpv, rfl⟩
      · exact hp e1 (hsub e1 he) hlive
      · exact hp e (hsub e he) hin
    rcases List.mem_append.mp he1 with hm | hm
    · exact key _ _ hA (fun e he => List.mem_append_left _ he) hm
    · exact key _ _ hB (fun e he => List.mem_append_right _ he) hm

theorem commonProgress_runOps : ∀ (ops : List Op) (r r1 : Room), runOps r ops = some r1 →
    CommonProgress r → CommonProgress r1 := by
  intro ops
  induction ops with
  | nil =>
    intro r r1 h hinv
    simp only [runOps, Option.some.injEq] at h
    subst h
    exact hinv
  | cons op ops ih =>
    intro r r1 h hinv
    unfold runOps at h
    split at h
    · exact absurd h (by simp)
    · next r2 hop => exact ih r2 r1 h (commonProgress_apply r r2 op hop hinv)

theorem commonProgress_spawn (r0 : Room) (rng : Nat → SpawnDraw) :
    CommonProgress (spawnWaveMonsters r0 rng).1 := by
  refine ⟨0, ?_⟩
  intro e he _
  have hA := spawnLoop_memA (generatePath r0.pathCorners) rng (waveCount r0.Wave).toNat
  have hB := spawnLoop_memB (generatePath r0.pathCorners) rng (waveCount r0.Wave).toNat
  rcases List.mem_append.mp he with h | h
  · obtain ⟨i, _, rfl⟩ := hA e h
    rfl
  · obtain ⟨i, _, rfl⟩ := hB e h
    rfl

theorem countP_escapes_eq_live (l : Lane) (p : ℚ) (hp1 : 1 ≤ advance p)
    (hp : ∀ e ∈ l, e.2.inert = false → e.2.Progress = p) :
    (l.countP fun e => e.2.escapesNow) = l.countP fun e => !e.2.inert := by
  apply List.countP_congr
  intro e he
  cases hin : e.2.inert with
  | true => simp [Monster.escapesNow, hin]
  | false => simp [Monster.escapesNow, hin, hp e he hin, hp1]

/-- C19: in every state reached from `spawnWaveMonsters` by any interleaving of
ticks and `handleAttack` calls, all live monsters (not escaped, `HP > 0`) of both
lanes have the same `Progress`; consequently, on a tick on which some live
monster reaches progress 1, every live monster escapes (after the tick every
monster of both lanes is escaped or at `HP ≤ 0`), and each owner is charged the
tick decrement and then 1 second, floored at 0, per live monster of their lane. -/
theorem C19_common_progress (r0 : Room) (rng : Nat → SpawnDraw) (ops : List Op) (r : Room)
    (h : runOps (spawnWaveMonsters r0 rng).1 ops = some r) :
    (∃ p, ∀ e ∈ r.MonstersA ++ r.MonstersB, e.2.Escaped = false → 0 < e.2.HP →
      e.2.Progress = p) ∧
    (∀ r1 msgs res, tick r = some (r1, msgs, res) →
      (∃ e ∈ r.MonstersA ++ r.MonstersB,
        e.2.Escaped = false ∧ 0 < e.2.HP ∧ 1 ≤ advance e.2.Progress) →
      (∀ e ∈ r1.MonstersA ++ r1.MonstersB, e.2.Escaped = true ∨ e.2.HP ≤ 0) ∧
      r1.A = Nat.iterate (Option.map fun p => p.spend 1)
        (r.MonstersA.countP fun e => !e.2.inert) (r.A.map fun p => p.spend dt) ∧
      r1.B = Nat.iterate (Option.map fun p => p.spend 1)
        (r.MonstersB.countP fun e => !e.2.inert) (r.B.map fun p => p.spend dt)) := by
  obtain ⟨p, hp⟩ := commonProgress_runOps ops _ r h (commonProgress_spawn r0 rng)
  refine ⟨⟨p, fun e he h1 h2 => hp e he ((inert_false_iff e.2).mpr ⟨h1, h2⟩)⟩, ?_⟩
  intro r1 msgs res ht ⟨e, he, h1, h2, h3⟩
  have hpe : e.2.Progress = p := hp e he ((inert_false_iff e.2).mpr ⟨h1, h2⟩)
  rw [hpe] at h3
  obtain ⟨hA, hB, oA, oB, _⟩ := tick_spec r r1 msgs res ht
  refine ⟨?_, ?_, ?_⟩
  · intro e1 he1
    rw [hA, hB, ← List.map_append, List.mem_map] at he1
    obtain ⟨e2, he2, rfl⟩ := he1
    simp only []
    cases hin : e2.2.inert with
    | true =>
      rw [stepped_of_inert e2.2 hin]
      exact (inert_true_iff e2.2).mp hin
    | false =>
      left
      unfold Monster.stepped
      simp [hin, hp e2 he2 hin, h3]
  · rw [oA, countP_escapes_eq_live r.MonstersA p h3
      (fun e he hin => hp e (List.mem_append_left _ he) hin)]
  · rw [oB, countP_escapes_eq_live r.MonstersB p h3
      (fun e he hin => hp e (List.mem_append_right _ he) hin)]

/-- C19, for wave 1 after one tick and one attack: the live monsters share one
progress value. -/
theorem C19_common_progress_witness :
    (runOps (spawnWaveMonsters (sampleRoom 300 300 [] [])
        (fun i => ⟨(i : Nat), false, (i : Nat), true⟩)).1
      [Op.tick, Op.attack "alice" 3 0 2]).isSome = true ∧
    ∃ p, ∀ e ∈ ((runOps (spawnWaveMonsters (sampleRoom 300 300 [] [])
        (fun i => ⟨(i : Nat), false, (i : Nat), true⟩)).1
        [Op.tick, Op.attack "alice" 3 0 2]).getD (sampleRoom 300 300 [] [])).MonstersA ++
      ((runOps (spawnWaveMonsters (sampleRoom 300 300 [] [])
        (fun i => ⟨(i : Nat), false, (i : Nat), true⟩)).1
        [Op.tick, Op.attack "alice" 3 0 2]).getD (sampleRoom 300 300 [] [])).MonstersB,
      e.2.Escaped = false → 0 < e.2.HP → e.2.Progress = p :=
  ⟨by decide!,
   (C19_common_progress (sampleRoom 300 300 [] []) (fun i => ⟨(i : Nat), false, (i : Nat), true⟩)
      [Op.tick, Op.attack "alice" 3 0 2] _ (by decide!)).1⟩

/-! ## Board edits over HTTP -/

/-- Subtracting two from a binary64 value in `[2, 2^53)` is exact. -/
theorem f64_sub_two {t : ℚ} (ht : IsF64 t) (h1 : 2 ≤ t) (h2 : t < 2 ^ 53) :
    f64 (t - 2) = t - 2 := by
  have hpos : 0 < t := by linarith
  obtain ⟨ha, hb⟩ := ilog2_bounds t hpos.ne'
  rw [abs_of_pos hpos] at ha hb
  have he0 : 1 ≤ ilog2 t := by
    have : (2 : ℚ) ^ (1 : Int) < 2 ^ (ilog2 t + 1) := by
      rw [zpow_one]; exact lt_of_le_of_lt h1 hb
    have := (zpow_lt_zpow_iff_right₀ (by norm_num : (1 : ℚ) < 2)).mp this
    omega
  have he1 : ilog2 t ≤ 52 := by
    have : (2 : ℚ) ^ ilog2 t < 2 ^ (53 : Int) := by
      refine lt_of_le_of_lt ha ?_
      calc t < 2 ^ 53 := h2
        _ = (2 : ℚ) ^ (53 : Int) := by norm_cast
    have := (zpow_lt_zpow_iff_right₀ (by norm_num : (1 : ℚ) < 2)).mp this
    omega
  have hu : ulpExp t = ilog2 t - 52 := by unfold ulpExp; omega
  obtain ⟨j, hj⟩ : ∃ j : Nat, ulpExp t = -(j : Int) := ⟨(52 - ilog2 t).toNat, by omega⟩
  have hj51 : j ≤ 51 := by omega
  have hupos : (0 : ℚ) < 2 ^ ulpExp t := by positivity
  set M : Int := roundEven (t / pow2 (ulpExp t)) with hM
  have htM : t = (M : ℚ) * 2 ^ ulpExp t := by
    have := ht
    unfold IsF64 f64 at this
    rw [← hM, pow2_eq] at this
    exact this.symm
  have htwo : (2 : ℚ) = ((2 ^ (j + 1) : Int) : ℚ) * 2 ^ ulpExp t := by
    rw [hj, zpow_neg, zpow_natCast]
    push_cast
    rw [pow_succ]
    field_simp
  have hMle : M ≤ 2 ^ 53 := by
    have h3 := f64_le_top hpos
    rw [ht, zpow_add₀ (by norm_num)] at h3
    nth_rewrite 1 [htM] at h3
    rw [mul_comm ((2 : ℚ) ^ ulpExp t)] at h3
    have h4 : (M : ℚ) ≤ 2 ^ (53 : Int) := le_of_mul_le_mul_right h3 hupos
    have h5 : (M : ℚ) ≤ (((2 : Int) ^ 53 : Int) : ℚ) := by
      calc (M : ℚ) ≤ 2 ^ (53 : Int) := h4
        _ = (((2 : Int) ^ 53 : Int) : ℚ) := by norm_cast
    exact_mod_cast h5
  have hMge : 2 ^ (j + 1) ≤ M := by
    have h3 : ((2 ^ (j + 1) : Int) : ℚ) * 2 ^ ulpExp t ≤ (M : ℚ) * 2 ^ ulpExp t := by
      rw [← htM, ← htwo]; exact h1
    have h4 := le_of_mul_le_mul_right h3 hupos
    exact_mod_cast h4
  have hjpos : (0 : Int) < 2 ^ (j + 1) := by positivity
  have hsub : t - 2 = ((M - 2 ^ (j + 1) : Int) : ℚ) * 2 ^ ulpExp t := by
    push_cast at htwo ⊢
    rw [sub_mul, ← htM]
    linarith
  rw [hsub]
  apply f64_repr
  · rw [abs_of_nonneg (by omega)]
    omega
  · omega

/-- The delete penalty is exact when at least two seconds are left. -/
theorem spend_two_exact (p : Player) (hf : IsF64 p.TimeLeft) (h1 : 2 ≤ p.TimeLeft)
    (h2 : p.TimeLeft < 2 ^ 53) : (p.spend 2).TimeLeft = p.TimeLeft - 2 := by
  unfold Player.spend
  simp only []
  rw [f64_sub_two hf h1 h2]
  rw [if_neg (by linarith)]

/-- The delete penalty takes everything when at most two seconds are left. -/
theorem spend_two_floor (p : Player) (h1 : p.TimeLeft ≤ 2) : (p.spend 2).TimeLeft = 0 := by
  have h := f64_nonpos (show p.TimeLeft - 2 ≤ 0 by linarith)
  unfold Player.spend
  simp only []
  split
  · rfl
  · next hn => exact le_antisymm h (not_lt.mp hn)

theorem Board.cell_setCell_self (b : Board) (x y : Int) (u u0 : UnitInfo)
    (h : b.cell x y = some u0) : (b.setCell x y u).cell x y = some u := by
  unfold Board.cell at h ⊢
  split at h
  · exact absurd h (by simp)
  · next hneg =>
    rw [if_neg hneg]
    unfold Board.setCell
    cases hrow : b.get? y.toNat with
    | none => rw [hrow] at h; exact absurd h (by simp)
    | some row =>
      rw [hrow] at h
      simp only [] at h ⊢
      rw [List.get?_eq_getElem?] at hrow h ⊢
      have hy : y.toNat < b.length := (List.getElem?_eq_some_iff.mp hrow).1
      have hx : x.toNat < row.length := (List.getElem?_eq_some_iff.mp h).1
      rw [List.getElem?_set_self hy]
      simp only []
      rw [List.get?_eq_getElem?, List.getElem?_set_self hx]

theorem Board.cell_setCell_other (b : Board) (x y x1 y1 : Int) (u : UnitInfo)
    (hx : 0 ≤ x) (hy : 0 ≤ y) (hne : ¬ (x1 = x ∧ y1 = y)) :
    (b.setCell x y u).cell x1 y1 = b.cell x1 y1 := by
  unfold Board.cell
  split
  · rfl
  · next hneg =>
    unfold Board.setCell
    cases hrow : b.get? y.toNat with
    | none => rfl
    | some row =>
      simp only []
      by_cases hyy : y1 = y
      · subst hyy
        have hxx : x.toNat ≠ x1.toNat := by
          intro h
          apply hne
          exact ⟨by omega, rfl⟩
        have hrow1 := hrow
        rw [List.get?_eq_getElem?] at hrow1
        have hy1 : y1.toNat < b.length := (List.getElem?_eq_some_iff.mp hrow1).1
        rw [List.get?_eq_getElem?, List.getElem?_set_self hy1, hrow]
        simp only []
        rw [List.get?_eq_getElem?, List.get?_eq_getElem?, List.getElem?_set_ne hxx]
      · have hyn : y.toNat ≠ y1.toNat := by omega
        rw [List.get?_eq_getElem?, List.getElem?_set_ne hyn, ← List.get?_eq_getElem?]

theorem deleteByHTTP_panics (r : Room) (st : Store) (pid : String) (x y : Int)
    (h : ((st.board (boardKey r.ID pid)).getD []).cell x y = none) :
    deleteByHTTP r st pid x y = none := by
  unfold deleteByHTTP
  simp only [h]

theorem deleteByHTTP_empty (r : Room) (st : Store) (pid : String) (x y : Int) (u : UnitInfo)
    (h : ((st.board (boardKey r.ID pid)).getD []).cell x y = some u) (hu : u.UnitID = 0) :
    deleteByHTTP r st pid x y =
      some { room := r, store := st, msgs := [], ok := false, resp := Response.error "empty" } := by
  unfold deleteByHTTP
  simp only [h, hu, if_true]

theorem deleteByHTTP_unit (r : Room) (st : Store) (pid : String) (x y : Int) (u : UnitInfo)
    (h : ((st.board (boardKey r.ID pid)).getD []).cell x y = some u) (hu : u.UnitID ≠ 0) :
    ∃ out, deleteByHTTP r st pid x y = some out ∧ out.ok = true ∧
      out.room = { r with A := r.A.map fun a => if pid = a.ID then a.spend 2 else a,
                          B := r.B.map fun b => if pid = b.ID then b.spend 2 else b } ∧
      out.store.board (boardKey r.ID pid) =
        some (((st.board (boardKey r.ID pid)).getD []).setCell x y ⟨0, 0⟩) ∧
      (∀ k, k ≠ boardKey r.ID pid → out.store.board k = st.board k) ∧
      out.store.dopamin = st.dopamin ∧
      out.msgs = [Msg.delete pid (((st.board (boardKey r.ID pid)).getD []).setCell x y ⟨0, 0⟩)] ∧
      out.resp = Response.success
        (((st.board (boardKey r.ID pid)).getD []).setCell x y ⟨0, 0⟩) := by
  unfold deleteByHTTP
  simp only [h, hu, if_false]
  refine ⟨_, rfl, rfl, rfl, ?_, ?_, rfl, rfl, rfl⟩
  · simp
  · intro k hk
    simp [hk]

/-- C15: `deleteByHTTP` fails (returns `false` with the error response) if and
only if the target cell of the acting player's stored board holds no unit
(`UnitID = 0`), and on that failure nothing changes: the room (so both
`TimeLeft`) and the store (so the stored board) are as before and nothing is
broadcast. -/
theorem C15_delete_empty_cell (r : Room) (st : Store) (pid : String) (x y : Int) :
    ((∃ out, deleteByHTTP r st pid x y = some out ∧ out.ok = false) ↔
      ∃ u, ((st.board (boardKey r.ID pid)).getD []).cell x y = some u ∧ u.UnitID = 0) ∧
    (∀ out, deleteByHTTP r st pid x y = some out → out.ok = false →
      out.room = r ∧ out.store = st ∧ out.msgs = [] ∧ out.resp = Response.error "empty") := by
  cases hc : ((st.board (boardKey r.ID pid)).getD []).cell x y with
  | none =>
    rw [deleteByHTTP_panics r st pid x y hc]
    simp
  | some u =>
    by_cases hu : u.UnitID = 0
    · rw [deleteByHTTP_empty r st pid x y u hc hu]
      refine ⟨⟨fun _ => ⟨u, rfl, hu⟩, fun _ => ⟨_, rfl, rfl⟩⟩, ?_⟩
      intro out ho _
      simp only [Option.some.injEq] at ho
      subst ho
      exact ⟨rfl, rfl, rfl, rfl⟩
    · obtain ⟨out1, ho1, hok1, _⟩ := deleteByHTTP_unit r st pid x y u hc hu
      rw [ho1]
      refine ⟨⟨?_, ?_⟩, ?_⟩
      · rintro ⟨out, ho, hok⟩
        simp only [Option.some.injEq] at ho
        subst ho
        rw [hok1] at hok
        exact absurd hok (by simp)
      · rintro ⟨u1, h1, h2⟩
        simp only [Option.some.injEq] at h1
        subst h1
        exact absurd h2 hu
      · intro out ho hok
        simp only [Option.some.injEq] at ho
        subst ho
        rw [hok1] at hok
        exact absurd hok (by simp)

theorem Board.cell_nonneg (b : Board) (x y : Int) (u : UnitInfo) (h : b.cell x y = some u) :
    0 ≤ x ∧ 0 ≤ y := by
  unfold Board.cell at h
  split at h
  · exact absurd h (by simp)
  · next hneg => omega

/-- C15, for the empty cell `(1, 0)` of the sample board. -/
theorem C15_delete_empty_cell_witness :
    ∃ out, deleteByHTTP (sampleRoom 300 300 [] []) (sampleStore 1000) "alice" 1 0 = some out ∧
      out.ok = false :=
  (C15_delete_empty_cell (sampleRoom 300 300 [] []) (sampleStore 1000) "alice" 1 0).1.mpr
    ⟨⟨0, 0⟩, by decide!, rfl⟩

/-- C16 (as stated, refuted): when both slots hold the id `alice`, the deletion of
the unit in cell `(0, 0)` by `alice` takes 2 seconds from both budgets: neither
player keeps its `TimeLeft` of 300. -/
theorem C16_counterexample :
    (timeOf sameIdRoom.A, timeOf sameIdRoom.B) = (300, 300) ∧
    (sampleBoard.cell 0 0).map (fun u => u.UnitID) = some 1 ∧
    (deleteByHTTP sameIdRoom (sampleStore 1000) "alice" 0 0).map
      (fun out => (out.ok, timeOf out.room.A, timeOf out.room.B)) = some (true, 298, 298) := by
  decide!

/-- C16 (amended): for every stored board whose cell `(x, y)` holds a unit,
`deleteByHTTP` returns `true`, stores under the player's key a board that is
identical except that cell `(x, y)` is empty (nothing else in the store changes),
broadcasts one `delete` message carrying the new board, and takes the penalty of
2 seconds, floored at 0, from every slot whose player id is the acting id (exactly
2 seconds when at least 2 are left, everything when at most 2 are left); a slot
with a different id keeps its player unchanged, so the other player's `TimeLeft`
is unchanged when the two ids differ. -/
theorem C16_delete_unit (r : Room) (st : Store) (pid : String) (x y : Int) (u : UnitInfo)
    (hcell : ((st.board (boardKey r.ID pid)).getD []).cell x y = some u)
    (hu : u.UnitID ≠ 0) :
    ∃ out, deleteByHTTP r st pid x y = some out ∧ out.ok = true ∧
      out.store.board (boardKey r.ID pid) =
        some (((st.board (boardKey r.ID pid)).getD []).setCell x y ⟨0, 0⟩) ∧
      (((st.board (boardKey r.ID pid)).getD []).setCell x y ⟨0, 0⟩).cell x y = some ⟨0, 0⟩ ∧
      (∀ x1 y1, ¬ (x1 = x ∧ y1 = y) →
        (((st.board (boardKey r.ID pid)).getD []).setCell x y ⟨0, 0⟩).cell x1 y1 =
          ((st.board (boardKey r.ID pid)).getD []).cell x1 y1) ∧
      (∀ k, k ≠ boardKey r.ID pid → out.store.board k = st.board k) ∧
      out.store.dopamin = st.dopamin ∧
      out.msgs = [Msg.delete pid (((st.board (boardKey r.ID pid)).getD []).setCell x y ⟨0, 0⟩)] ∧
      out.room = { r with A := out.room.A, B := out.room.B } ∧
      (∀ a, r.A = some a → pid = a.ID → out.room.A = some (a.spend 2)) ∧
      (∀ a, r.A = some a → pid ≠ a.ID → out.room.A = some a) ∧
      (r.A = none → out.room.A = none) ∧
      (∀ b, r.B = some b → pid = b.ID → out.room.B = some (b.spend 2)) ∧
      (∀ b, r.B = some b → pid ≠ b.ID → out.room.B = some b) ∧
      (r.B = none → out.room.B = none) ∧
      (∀ p : Player, IsF64 p.TimeLeft → p.TimeLeft < 2 ^ 53 →
        (p.spend 2).ID = p.ID ∧
        (2 ≤ p.TimeLeft → (p.spend 2).TimeLeft = p.TimeLeft - 2) ∧
        (p.TimeLeft ≤ 2 → (p.spend 2).TimeLeft = 0)) := by
  obtain ⟨hx, hy⟩ := Board.cell_nonneg _ x y u hcell
  obtain ⟨out, ho, hok, hroom, hb, hbo, hd, hm, _⟩ := deleteByHTTP_unit r st pid x y u hcell hu
  refine ⟨out, ho, hok, hb, Board.cell_setCell_self _ x y _ u hcell,
    fun x1 y1 hne => Board.cell_setCell_other _ x y x1 y1 _ hx hy hne, hbo, hd, hm,
    ?_, ?_, ?_, ?_, ?_, ?_, ?_, ?_⟩
  · rw [hroom]
  · intro a ha hp; rw [hroom]; simp [ha, hp]
  · intro a ha hp; rw [hroom]; simp [ha, hp]
  · intro ha; rw [hroom]; simp [ha]
  · intro b hb1 hp; rw [hroom]; simp [hb1, hp]
  · intro b hb1 hp; rw [hroom]; simp [hb1, hp]
  · intro hb1; rw [hroom]; simp [hb1]
  · intro p hf h53
    exact ⟨rfl, fun h2 => spend_two_exact p hf h2 h53, fun h2 => spend_two_floor p h2⟩

/-- C16 (amended), for the deletion of the unit in cell `(3, 2)` of the sample
board by `alice` in a room with two different ids. -/
theorem C16_delete_unit_witness :
    ((sampleStore 1000).board (boardKey "room1" "alice")).map (fun b => b.cell 3 2) =
      some (some ⟨4, 2⟩) ∧
    ∃ out, deleteByHTTP (sampleRoom 300 300 [] []) (sampleStore 1000) "alice" 3 2 = some out ∧
      out.ok = true :=
  ⟨by decide!,
   (C16_delete_unit (sampleRoom 300 300 [] []) (sampleStore 1000) "alice" 3 2 ⟨4, 2⟩
      (by decide!) (by decide)).imp fun _ h => ⟨h.1, h.2.1⟩⟩

/-! ## Summoning -/

theorem findEmpty_found (b : Board) : ∀ (draws : List (Fin 6 × Fin 6)) (x y : Int),
    findEmpty b draws = Search.found x y → ∃ u, b.cell x y = some u ∧ u.UnitID = 0 := by
  intro draws
  induction draws with
  | nil => intro x y h; simp [findEmpty] at h
  | cons d rest ih =>
    intro x y h
    obtain ⟨dx, dy⟩ := d
    unfold findEmpty at h
    split at h
    · exact absurd h (by simp)
    · next u hc =>
      split at h
      · next hu =>
        simp only [Search.found.injEq] at h
        obtain ⟨rfl, rfl⟩ := h
        exact ⟨u, hc, hu⟩
      · exact ih x y h

theorem findEmpty_succeeds (b : Board) : ∀ (draws : List (Fin 6 × Fin 6)),
    (∀ d ∈ draws, (b.cell (d.1.val : Int) (d.2.val : Int)).isSome = true) →
    (∃ d ∈ draws, ∃ u, b.cell (d.1.val : Int) (d.2.val : Int) = some u ∧ u.UnitID = 0) →
    ∃ x y, findEmpty b draws = Search.found x y := by
  intro draws
  induction draws with
  | nil => rintro _ ⟨d, hd, _⟩; simp at hd
  | cons d rest ih =>
    intro hall hex
    obtain ⟨dx, dy⟩ := d
    have hsome := hall (dx, dy) (List.mem_cons_self _ _)
    obtain ⟨u, hu⟩ := Option.isSome_iff_exists.mp hsome
    simp only [] at hu
    unfold findEmpty
    simp only [hu]
    by_cases h0 : u.UnitID = 0
    · rw [if_pos h0]; exact ⟨_, _, rfl⟩
    · rw [if_neg h0]
      apply ih (fun d hd => hall d (List.mem_cons_of_mem _ hd))
      obtain ⟨d, hd, u1, h1, h2⟩ := hex
      rcases List.mem_cons.mp hd with rfl | hd
      · simp only [] at h1
        rw [hu] at h1
        simp only [Option.some.injEq] at h1
        subst h1
        exact absurd h2 h0
      · exact ⟨d, hd, u1, h1, h2⟩

theorem summonByHTTP_poor (r : Room) (st : Store) (pid : String)
    (draws : List (Fin 6 × Fin 6)) (unit : Fin 4) (h : st.dopamin (dopKey pid) < 50) :
    summonByHTTP r st pid draws unit =
      SummonEnd.returned { room := r, store := st, msgs := [], ok := false,
                           resp := Response.error "not enough dopamin" } := by
  unfold summonByHTTP
  rw [if_pos h]

theorem summonByHTTP_rich (r : Room) (st : Store) (pid : String)
    (draws : List (Fin 6 × Fin 6)) (unit : Fin 4) (h : ¬ st.dopamin (dopKey pid) < 50)
    (out : HttpResult) (ho : summonByHTTP r st pid draws unit = SummonEnd.returned out) :
    ∃ x y, findEmpty ((st.board (boardKey r.ID pid)).getD []) draws = Search.found x y ∧
      out.ok = true ∧ out.room = r ∧
      out.store.dopamin (dopKey pid) = st.dopamin (dopKey pid) - 50 ∧
      (∀ k, k ≠ dopKey pid → out.store.dopamin k = st.dopamin k) ∧
      out.store.board (boardKey r.ID pid) =
        some (((st.board (boardKey r.ID pid)).getD []).setCell x y
          ⟨(unit.val : Int) + 1, 2⟩) ∧
      (∀ k, k ≠ boardKey r.ID pid → out.store.board k = st.board k) ∧
      out.msgs = [Msg.summon_success pid
        (((st.board (boardKey r.ID pid)).getD []).setCell x y ⟨(unit.val : Int) + 1, 2⟩)] := by
  unfold summonByHTTP at ho
  rw [if_neg h] at ho
  simp only [] at ho
  split at ho
  · exact absurd ho (by simp)
  · exact absurd ho (by simp)
  · next x y hf =>
    simp only [SummonEnd.returned.injEq] at ho
    subst ho
    refine ⟨x, y, hf, rfl, rfl, ?_, ?_, ?_, ?_, rfl⟩
    · simp
    · intro k hk; simp [hk]
    · simp
    · intro k hk; simp [hk]

/-- C17: `summonByHTTP` fails (returns `false`) if and only if the player's
stored currency is below the cost 50, and on that failure the room and the store
(balance and boards) are unchanged and nothing is broadcast; when it succeeds the
balance is debited by exactly 50 and exactly one previously empty cell of the
stored board receives a unit with `UnitID` in `1..4` and `Level = 2`, every other
cell and every other key of the store being unchanged; and with a balance of at
least 50 it does succeed as soon as one of the draws, all in range of the board,
is an empty cell. -/
theorem C17_summon (r : Room) (st : Store) (pid : String) (draws : List (Fin 6 × Fin 6))
    (unit : Fin 4) :
    ((∃ out, summonByHTTP r st pid draws unit = SummonEnd.returned out ∧ out.ok = false) ↔
      st.dopamin (dopKey pid) < 50) ∧
    (∀ out, summonByHTTP r st pid draws unit = SummonEnd.returned out → out.ok = false →
      out.room = r ∧ out.store = st ∧ out.msgs = []) ∧
    (∀ out, summonByHTTP r st pid draws unit = SummonEnd.returned out → out.ok = true →
      out.room = r ∧
      out.store.dopamin (dopKey pid) = st.dopamin (dopKey pid) - 50 ∧
      (∀ k, k ≠ dopKey pid → out.store.dopamin k = st.dopamin k) ∧
      (∀ k, k ≠ boardKey r.ID pid → out.store.board k = st.board k) ∧
      ∃ (x y : Int) (u0 : UnitInfo) (board1 : Board),
        ((st.board (boardKey r.ID pid)).getD []).cell x y = some u0 ∧ u0.UnitID = 0 ∧
        out.store.board (boardKey r.ID pid) = some board1 ∧
        (∃ u1, board1.cell x y = some u1 ∧ 1 ≤ u1.UnitID ∧ u1.UnitID ≤ 4 ∧ u1.Level = 2) ∧
        (∀ x1 y1, ¬ (x1 = x ∧ y1 = y) →
          board1.cell x1 y1 = ((st.board (boardKey r.ID pid)).getD []).cell x1 y1) ∧
        out.msgs = [Msg.summon_success pid board1]) ∧
    (50 ≤ st.dopamin (dopKey pid) →
      (∀ d ∈ draws, (((st.board (boardKey r.ID pid)).getD []).cell
        (d.1.val : Int) (d.2.val : Int)).isSome = true) →
      (∃ d ∈ draws, ∃ u, ((st.board (boardKey r.ID pid)).getD []).cell
        (d.1.val : Int) (d.2.val : Int) = some u ∧ u.UnitID = 0) →
      ∃ out, summonByHTTP r st pid draws unit = SummonEnd.returned out ∧ out.ok = true) := by
  refine ⟨⟨?_, ?_⟩, ?_, ?_, ?_⟩
  · rintro ⟨out, ho, hok⟩
    by_contra hn
    obtain ⟨_, _, _, hok1, _⟩ := summonByHTTP_rich r st pid draws unit hn out ho
    rw [hok1] at hok
    exact absurd hok (by simp)
  · intro h
    exact ⟨_, summonByHTTP_poor r st pid draws unit h, rfl⟩
  · intro out ho hok
    by_cases h : st.dopamin (dopKey pid) < 50
    · rw [summonByHTTP_poor r st pid draws unit h] at ho
      simp only [SummonEnd.returned.injEq] at ho
      subst ho
      exact ⟨rfl, rfl, rfl⟩
    · obtain ⟨_, _, _, hok1, _⟩ := summonByHTTP_rich r st pid draws unit h out ho
      rw [hok1] at hok
      exact absurd hok (by simp)
  · intro out ho hok
    by_cases h : st.dopamin (dopKey pid) < 50
    · rw [summonByHTTP_poor r st pid draws unit h] at ho
      simp only [SummonEnd.returned.injEq] at ho
      subst ho
      exact absurd hok (by simp)
    · obtain ⟨x, y, hf, _, hroom, hd, hdo, hb, hbo, hm⟩ :=
        summonByHTTP_rich r st pid draws unit h out ho
      obtain ⟨u0, hc, hu0⟩ := findEmpty_found _ draws x y hf
      obtain ⟨hx, hy⟩ := Board.cell_nonneg _ x y u0 hc
      have hunit := unit.isLt
      refine ⟨hroom, hd, hdo, hbo, x, y, u0, _, hc, hu0, hb, ?_, ?_, hm⟩
      · exact ⟨_, Board.cell_setCell_self _ x y _ u0 hc, by simp only []; omega,
          by simp only []; omega, rfl⟩
      · exact fun x1 y1 hne => Board.cell_setCell_other _ x y x1 y1 _ hx hy hne
  · intro hbal hall hex
    obtain ⟨x, y, hf⟩ := findEmpty_succeeds _ draws hall hex
    unfold summonByHTTP
    rw [if_neg (by omega)]
    simp only [hf]
    exact ⟨_, rfl, rfl⟩

/-- C17, for a summon of `alice` with balance 1000 on the sample board: the first
draw `(0, 0)` is occupied, the second draw `(1, 0)` is empty and receives the
unit. -/
theorem C17_summon_witness :
    (50 : Int) ≤ (sampleStore 1000).dopamin (dopKey "alice") ∧
    ∃ out, summonByHTTP (sampleRoom 300 300 [] []) (sampleStore 1000) "alice"
      [(0, 0), (1, 0)] 2 = SummonEnd.returned out ∧ out.ok = true :=
  ⟨by decide!,
   (C17_summon (sampleRoom 300 300 [] []) (sampleStore 1000) "alice" [(0, 0), (1, 0)] 2).2.2.2
     (by decide!) (by decide!) (by decide!)⟩

/-! ## The registry -/

/-- C13 (the code at the failing input): after two connections with the id
`alice` joined `room1`, the first ended and `bob` joined `room1`, the registry
holds under `room1` a room with `bob` in slot A; when the second connection then
ends, the entry `room1` is deleted although that room still has `bob` in slot A.
The same happens with four different ids when a third player joins a full
room. -/
theorem C13_stale_leave_deletes_occupied_room :
    (((Server.run (Server.start, []) staleSameId).1.lookup "room1").map
        fun r => r.A.map fun p => p.ID) = some (some "bob") ∧
    (Server.run (Server.start, []) (staleSameId ++ [Event.leave 1])).1.rooms "room1" = none ∧
    (((Server.run (Server.start, []) (staleSameId ++ [Event.leave 1])).1.heap.get? 1).map
        fun r => r.A.map fun p => p.ID) = some (some "bob") ∧
    (((Server.run (Server.start, []) staleThird).1.lookup "room1").map
        fun r => r.A.map fun p => p.ID) = some (some "dave") ∧
    (Server.run (Server.start, []) (staleThird ++ [Event.leave 1])).1.rooms "room1" = none ∧
    (((Server.run (Server.start, []) (staleThird ++ [Event.leave 1])).1.heap.get? 1).map
        fun r => r.A.map fun p => p.ID) = some (some "dave") := by
  decide

theorem startIfReady_newRoom (id : String) (p : Player) :
    (NewRoom id (some p) none).startIfReady = NewRoom id (some p) none := by
  unfold Room.startIfReady
  rw [if_neg]
  simp [NewRoom]

/-- C14: when the connection that ends leaves both slots of its room empty, the
room id is no longer in the registry, and the next join with the same room id
creates a fresh room, registered under that id at a new address: wave counter 1,
not started, both lanes empty, the joining player in slot A and slot B empty; the
rooms created before, the removed one included, are untouched by that join. -/
theorem C14_fresh_room (s : Server) (c : Conn) (r1 : Room) (pid : String)
    (hr : (s.leave c).heap.get? c.room = some r1) (hA : r1.A = none) (hB : r1.B = none) :
    (s.leave c).rooms c.roomId = none ∧
    ((s.leave c).join c.roomId pid).1.rooms c.roomId = some (s.leave c).heap.length ∧
    c.room < (s.leave c).heap.length ∧
    ((s.leave c).join c.roomId pid).1.heap =
      (s.leave c).heap ++ [NewRoom c.roomId (some ⟨pid, 60⟩) none] ∧
    ((s.leave c).join c.roomId pid).1.lookup c.roomId =
      some (NewRoom c.roomId (some ⟨pid, 60⟩) none) ∧
    (NewRoom c.roomId (some ⟨pid, 60⟩) none).Wave = 1 ∧
    (NewRoom c.roomId (some ⟨pid, 60⟩) none).started = false ∧
    (NewRoom c.roomId (some ⟨pid, 60⟩) none).MonstersA = [] ∧
    (NewRoom c.roomId (some ⟨pid, 60⟩) none).MonstersB = [] ∧
    (NewRoom c.roomId (some ⟨pid, 60⟩) none).A = some ⟨pid, 60⟩ ∧
    (NewRoom c.roomId (some ⟨pid, 60⟩) none).B = none := by
  have hgone : (s.leave c).rooms c.roomId = none := by
    unfold Server.leave at hr ⊢
    cases hget : s.heap.get? c.room with
    | none =>
      rw [hget] at hr
      simp only [] at hr
      rw [hget] at hr
      exact absurd hr (by simp)
    | some r =>
      rw [hget] at hr
      simp only [] at hr ⊢
      rw [List.get?_eq_getElem?] at hr hget
      have hlt : c.room < s.heap.length := (List.getElem?_eq_some_iff.mp hget).1
      rw [List.getElem?_set_self hlt] at hr
      simp only [Option.some.injEq] at hr
      rw [hr, if_pos ⟨hA, hB⟩]
      simp
  have hlt : c.room < (s.leave c).heap.length := by
    rw [List.get?_eq_getElem?] at hr
    exact (List.getElem?_eq_some_iff.mp hr).1
  have hjoin : (s.leave c).join c.roomId pid =
      ({ heap := (s.leave c).heap ++ [NewRoom c.roomId (some ⟨pid, 60⟩) none],
         rooms := fun k => if k = c.roomId then some (s.leave c).heap.length
           else (s.leave c).rooms k },
       { room := (s.leave c).heap.length, roomId := c.roomId, playerId := pid }) := by
    unfold Server.join
    simp only [hgone, startIfReady_newRoom]
  refine ⟨hgone, ?_, hlt, ?_, ?_, rfl, rfl, rfl, rfl, rfl, rfl⟩
  · rw [hjoin]; simp
  · rw [hjoin]
  · rw [hjoin]
    unfold Server.lookup
    simp

/-- C14, after `alice` and `bob` joined `room1` and both left. -/
theorem C14_fresh_room_witness :
    ((Server.run (Server.start, [])
        [Event.join "room1" "alice", Event.join "room1" "bob", Event.leave 0,
         Event.leave 1]).1.heap.get? 0).map (fun r => (r.A, r.B)) = some (none, none) ∧
    (((Server.run (Server.start, [])
        [Event.join "room1" "alice", Event.join "room1" "bob", Event.leave 0]).1.leave
        ⟨0, "room1", "bob"⟩).join "room1" "carol").1.lookup "room1" =
      some (NewRoom "room1" (some ⟨"carol", 60⟩) none) :=
  ⟨by decide!,
   (C14_fresh_room (Server.run (Server.start, [])
        [Event.join "room1" "alice", Event.join "room1" "bob", Event.leave 0]).1
      ⟨0, "room1", "bob"⟩
      (((Server.run (Server.start, [])
        [Event.join "room1" "alice", Event.join "room1" "bob", Event.leave 0]).1.leave
        ⟨0, "room1", "bob"⟩).heap.getD 0 (NewRoom "" none none))
      "carol" (by decide!) (by decide!) (by decide!)).2.2.2.2.1⟩

/-! ## Two hundred ticks -/

set_option maxRecDepth 100000 in
/-- The accumulated progress stays within `10^-15` of `k / 200` and reaches 1 at
tick 200 and not before. -/
theorem progressAfter_table :
    ∀ k < 201, |progressAfter k - (k : ℚ) / 200| ≤ 1 / 10 ^ 15 ∧
      (1 ≤ progressAfter k ↔ 200 ≤ k) := by
  decide!

theorem progressAfter_200 : progressAfter 200 = 1 :=
  le_antisymm (advance_le_one _) ((progressAfter_table 200 (by norm_num)).2.mpr le_rfl)

theorem hitMonster_hp_le (m m1 : Monster) (mid : Int) (roll : Fin 11) (msgs : List Msg)
    (h : hitMonster m mid roll = some (m1, msgs)) :
    m1.HP ≤ m.HP ∧ m1.Progress = m.Progress ∧ m1.Escaped = m.Escaped := by
  unfold hitMonster at h
  split at h
  · exact absurd h (by simp)
  · next hin =>
    have hlive := (inert_false_iff m).mp (by simpa using hin)
    simp only [Option.some.injEq, Prod.mk.injEq] at h
    obtain ⟨h1, _⟩ := h
    rw [← h1]
    refine ⟨?_, rfl, rfl⟩
    simp only []
    split <;> omega

theorem Lane.insert_get? (l : Lane) (k : Int) (m0 m : Monster) (h : l.lookup k = some m0) :
    ∀ (i : Nat) (e : Int × Monster), l.get? i = some e →
      (Lane.insert l k m).get? i = some e ∨
      (e = (k, m0) ∧ (Lane.insert l k m).get? i = some (k, m)) := by
  intro i e he
  obtain ⟨e1, h1, h2⟩ := forall₂_get? (Lane.insert_forall₂ l k m0 m h) i e he
  rcases h2 with rfl | ⟨rfl, rfl⟩
  · exact Or.inl h1
  · exact Or.inr ⟨rfl, h1⟩

theorem attackIn_get? (lane : Lane) (mid : Int) (roll : Fin 11) (i : Nat) (k : Int)
    (m : Monster) (hi : lane.get? i = some (k, m)) :
    ∃ m1, (attackIn lane mid roll).1.get? i = some (k, m1) ∧ m1.HP ≤ m.HP ∧
      m1.Progress = m.Progress ∧ m1.Escaped = m.Escaped := by
  unfold attackIn
  split
  · exact ⟨m, hi, le_refl _, rfl, rfl⟩
  · next m0 hl =>
    split
    · exact ⟨m, hi, le_refl _, rfl, rfl⟩
    · next m1 msgs hh =>
      rcases Lane.insert_get? lane mid m0 m1 hl i (k, m) hi with h | ⟨h1, h2⟩
      · exact ⟨m, h, le_refl _, rfl, rfl⟩
      · simp only [Prod.mk.injEq] at h1
        obtain ⟨rfl, rfl⟩ := h1
        obtain ⟨a1, a2, a3⟩ := hitMonster_hp_le m m1 k roll msgs hh
        exact ⟨m1, h2, a1, a2, a3⟩

/-- What one operation does to the monster at a position of a lane. -/
theorem apply_get? (r r1 : Room) (op : Op) (h : op.apply r = some r1) (a : Bool) (i : Nat)
    (k : Int) (m : Monster) (hi : (r.lane a).get? i = some (k, m)) :
    ∃ m1, (r1.lane a).get? i = some (k, m1) ∧ m1.HP ≤ m.HP ∧
      ((op = Op.tick ∧ m1 = m.stepped) ∨
       (tickCount [op] = 0 ∧ m1.Progress = m.Progress ∧ m1.Escaped = m.Escaped)) := by
  cases op with
  | tick =>
    simp only [Op.apply, Option.map_eq_some'] at h
    obtain ⟨⟨r2, msgs, res⟩, ht, rfl⟩ := h
    obtain ⟨hA, hB, _⟩ := tick_spec r r2 msgs res ht
    have hhp : m.stepped.HP ≤ m.HP := by
      unfold Monster.stepped
      split <;> exact le_refl _
    refine ⟨m.stepped, ?_, hhp, Or.inl ⟨rfl, rfl⟩⟩
    cases a with
    | true =>
      simp only [Room.lane, if_true] at hi ⊢
      rw [hA, List.get?_eq_getElem?, List.getElem?_map, ← List.get?_eq_getElem?, hi]
      rfl
    | false =>
      simp only [Room.lane, Bool.false_eq_true, if_false] at hi ⊢
      rw [hB, List.get?_eq_getElem?, List.getElem?_map, ← List.get?_eq_getElem?, hi]
      rfl
  | attack pid mid uid roll =>
    simp only [Op.apply, Option.some.injEq] at h
    subst h
    have hsame : ∃ m1, (r.lane a).get? i = some (k, m1) ∧ m1.HP ≤ m.HP ∧
        m1.Progress = m.Progress ∧ m1.Escaped = m.Escaped := ⟨m, hi, le_refl _, rfl, rfl⟩
    have key : ∃ m1, ((handleAttack r pid mid uid roll).1.lane a).get? i = some (k, m1) ∧
        m1.HP ≤ m.HP ∧ m1.Progress = m.Progress ∧ m1.Escaped = m.Escaped := by
      unfold handleAttack
      split
      · cases a with
        | true =>
          simp only [Room.lane, if_true] at hi ⊢
          exact attackIn_get? _ mid roll i k m hi
        | false => simpa [Room.lane] using hsame
      · cases a with
        | true => simpa [Room.lane] using hsame
        | false =>
          simp only [Room.lane, Bool.false_eq_true, if_false] at hi ⊢
          exact attackIn_get? _ mid roll i k m hi
      · exact hsame
    obtain ⟨m1, h1, h2, h3, h4⟩ := key
    exact ⟨m1, h1, h2, Or.inr ⟨rfl, h3, h4⟩⟩

theorem stepped_progressAfter (m : Monster) (j : Nat) (hhp : 0 < m.HP)
    (hp : m.Progress = progressAfter (min j 200)) (he : m.Escaped = decide (200 ≤ j)) :
    m.stepped.Progress = progressAfter (min (j + 1) 200) ∧
    m.stepped.Escaped = decide (200 ≤ j + 1) := by
  rcases Nat.lt_or_ge j 200 with hlt | hge
  · have hesc : m.Escaped = false := by rw [he]; simpa using hlt
    have hin : m.inert = false := (inert_false_iff m).mpr ⟨hesc, hhp⟩
    have h1 : min j 200 = j := by omega
    have h2 : min (j + 1) 200 = j + 1 := by omega
    rw [h1] at hp
    rw [h2]
    unfold Monster.stepped
    simp only [hin, Bool.false_eq_true, if_false, hp]
    refine ⟨rfl, ?_⟩
    have := (progressAfter_table (j + 1) (by omega)).2
    show decide (1 ≤ progressAfter (j + 1)) = decide (200 ≤ j + 1)
    exact decide_eq_decide.mpr this
  · have hesc : m.Escaped = true := by rw [he]; simpa using hge
    have hin : m.inert = true := (inert_true_iff m).mpr (Or.inl hesc)
    have h1 : min j 200 = 200 := by omega
    have h2 : min (j + 1) 200 = 200 := by omega
    rw [stepped_of_inert m hin, h2, ← h1, hesc]
    exact ⟨hp, by simp⟩

/-- The monster at a position of a lane after a sequence of operations, when it
had taken `j` ticks from progress 0 before. -/
theorem runOps_progress : ∀ (ops : List Op) (r r2 : Room) (a : Bool) (i : Nat) (k : Int)
    (m : Monster) (j : Nat), (r.lane a).get? i = some (k, m) →
    (0 < m.HP → m.Progress = progressAfter (min j 200) ∧ m.Escaped = decide (200 ≤ j)) →
    runOps r ops = some r2 →
    ∃ m2, (r2.lane a).get? i = some (k, m2) ∧ m2.HP ≤ m.HP ∧
      (0 < m2.HP → m2.Progress = progressAfter (min (j + tickCount ops) 200) ∧
        m2.Escaped = decide (200 ≤ j + tickCount ops)) := by
  intro ops
  induction ops with
  | nil =>
    intro r r2 a i k m j hi hinv h
    simp only [runOps, Option.some.injEq] at h
    subst h
    exact ⟨m, hi, le_refl _, by simpa [tickCount] using hinv⟩
  | cons op ops ih =>
    intro r r2 a i k m j hi hinv h
    unfold runOps at h
    split at h
    · exact absurd h (by simp)
    · next r1 hop =>
      obtain ⟨m1, h1, h2, h3⟩ := apply_get? r r1 op hop a i k m hi
      rcases h3 with ⟨rfl, rfl⟩ | ⟨htc, hpr, hes⟩
      · obtain ⟨m2, g1, g2, g3⟩ := ih r1 r2 a i k m.stepped (j + 1) h1
          (fun hpos => by
            obtain ⟨e1, e2⟩ := hinv (by omega)
            exact stepped_progressAfter m j (by omega) e1 e2) h
        refine ⟨m2, g1, by omega, ?_⟩
        intro hpos
        have := g3 hpos
        have e : j + (tickCount ops + 1) = j + 1 + tickCount ops := by omega
        simp only [tickCount, e]
        exact this
      · obtain ⟨m2, g1, g2, g3⟩ := ih r1 r2 a i k m1 j h1
          (fun hpos => by
            obtain ⟨e1, e2⟩ := hinv (by omega)
            exact ⟨by rw [hpr, e1], by rw [hes, e2]⟩) h
        refine ⟨m2, g1, by omega, ?_⟩
        intro hpos
        have := g3 hpos
        cases op with
        | tick => simp [tickCount] at htc
        | attack p1 p2 p3 p4 => simpa [tickCount] using this

set_option maxRecDepth 100000 in
/-- C11 (as stated, refuted): after 6 ticks the progress of a monster spawned at 0
is the binary64 sum of six additions of 0.005, which is larger than `0.005 * 6`,
whether the product is taken exactly or in binary64. -/
theorem C11_counterexample :
    ((runOps (sampleRoom 300 300 [(1, sampleMonster 1 100 0 false)] [])
        (List.replicate 6 Op.tick)).map fun r => r.MonstersA.map fun e => e.2.Progress)
      = some [progressAfter 6] ∧
    (6 : ℚ) / 200 < progressAfter 6 ∧
    f64 (6 / 200) < progressAfter 6 ∧
    f64 (f64 (1 / 200) * 6) < progressAfter 6 := by
  decide!

/-- C11 (amended): a monster spawned at progress 0 that is never reduced to 0 HP
(its `HP` is still positive at the end) has, after any interleaving of attacks
and `n` ticks, the progress `progressAfter (min n 200)`: the result of `n` binary64
additions of 0.005, clamped at 1, which is within `10^-15` of `0.005 * n` for
`n ≤ 200`, below 1 for `n < 200` and exactly 1 for `n = 200`; it is escaped if and
only if `n ≥ 200`, so it is not escaped after any of its first 199 ticks and is
marked escaped on its 200th tick. -/
theorem C11_two_hundred_ticks (r r2 : Room) (a : Bool) (i : Nat) (k : Int) (m : Monster)
    (ops : List Op) (hi : (r.lane a).get? i = some (k, m)) (hp : m.Progress = 0)
    (he : m.Escaped = false) (h : runOps r ops = some r2) :
    (∃ m2, (r2.lane a).get? i = some (k, m2) ∧ m2.HP ≤ m.HP ∧
      (0 < m2.HP → m2.Progress = progressAfter (min (tickCount ops) 200) ∧
        (m2.Escaped = true ↔ 200 ≤ tickCount ops))) ∧
    (∀ n, n ≤ 200 → |progressAfter n - (n : ℚ) / 200| ≤ 1 / 10 ^ 15) ∧
    (∀ n, n < 200 → progressAfter n < 1) ∧
    progressAfter 200 = 1 := by
  refine ⟨?_, ?_, ?_, progressAfter_200⟩
  · obtain ⟨m2, h1, h2, h3⟩ := runOps_progress ops r r2 a i k m 0 hi
      (fun _ => ⟨by simpa [progressAfter] using hp, by simpa using he⟩) h
    refine ⟨m2, h1, h2, fun hpos => ?_⟩
    obtain ⟨e1, e2⟩ := h3 hpos
    rw [Nat.zero_add] at e1 e2
    exact ⟨e1, by rw [e2]; simp⟩
  · intro n hn
    exact (progressAfter_table n (by omega)).1
  · intro n hn
    have := (progressAfter_table n (by omega)).2
    by_contra hc
    have := this.mp (not_lt.mp hc)
    omega

set_option maxRecDepth 100000 in
/-- C11 (amended), for a monster of lane A attacked once between three ticks. -/
theorem C11_two_hundred_ticks_witness :
    runOps (sampleRoom 300 300 [(1, sampleMonster 1 100 0 false)] [])
        [Op.tick, Op.attack "alice" 1 0 5, Op.tick, Op.tick] =
      some ((runOps (sampleRoom 300 300 [(1, sampleMonster 1 100 0 false)] [])
        [Op.tick, Op.attack "alice" 1 0 5, Op.tick, Op.tick]).getD (sampleRoom 0 0 [] [])) ∧
    ∃ m2, (((runOps (sampleRoom 300 300 [(1, sampleMonster 1 100 0 false)] [])
        [Op.tick, Op.attack "alice" 1 0 5, Op.tick, Op.tick]).getD
          (sampleRoom 0 0 [] [])).lane true).get? 0 = some (1, m2) ∧ m2.HP ≤ 100 :=
  ⟨by decide!,
   (C11_two_hundred_ticks (sampleRoom 300 300 [(1, sampleMonster 1 100 0 false)] [])
      ((runOps (sampleRoom 300 300 [(1, sampleMonster 1 100 0 false)] [])
        [Op.tick, Op.attack "alice" 1 0 5, Op.tick, Op.tick]).getD (sampleRoom 0 0 [] []))
      true 0 1 (sampleMonster 1 100 0 false)
      [Op.tick, Op.attack "alice" 1 0 5, Op.tick, Op.tick] rfl rfl rfl (by decide!)).1.imp
     fun _ h => ⟨h.1, h.2.1⟩⟩

end ProjectA
